import Mathlib

/-!
A shallow embedding of the Go package `csvdiff` (`src/csvdiff/csvdiff.go`).

The Go package loads two CSV inputs into keyed tables (`fromReader`) and
computes added keys, removed keys and per-key changed columns
(`diffAllRecords`).  This file embeds the package as pure Lean functions:

* a Go `map[string]V` is an association list with at most one entry per key
  (`GoMap`); `range` over a map visits the entries in list order, and the
  theorems about key slices are stated up to order so that they do not depend
  on the iteration order Go happens to choose;
* a run-time panic (index out of range, nil dereference) is the `error` case
  of `Except Panic`; a Go `error` value is `Option String` (`none` is `nil`);
* the Go standard library functions the package calls (`encoding/csv`,
  `strconv.ParseFloat`, `fmt.Sprintf`, `strings.ToLower`) are fields of a
  `Runtime` record over which every definition is parametrised.
-/

deriving instance DecidableEq for Except

namespace CsvDiff

/-! ## Go maps -/

/-- Go `map[string]V`: an association list, one entry per key. -/
abbrev GoMap (V : Type) := List (String × V)

namespace GoMap

variable {V : Type}

/-- Lookup `v, ok := m[k]`. -/
def get? : GoMap V → String → Option V
  | [], _ => none
  | (k', v) :: t, k => if k' = k then some v else get? t k

/-- Assignment `m[k] = v`: overwrite the entry of `k`, or add a new one. -/
def set : GoMap V → String → V → GoMap V
  | [], k, v => [(k, v)]
  | (k', v') :: t, k, v => if k' = k then (k, v) :: t else (k', v') :: set t k v

/-- Keys in the order `range` visits them. -/
def keys (m : GoMap V) : List String := m.map Prod.fst

/-- Test `_, ok := m[k]`. -/
def contains (m : GoMap V) (k : String) : Bool := (m.get? k).isSome

end GoMap

/-! ## Run-time model -/

/-- Run-time panics the package can raise. -/
inductive Panic where
  | indexOutOfRange (i len : Nat)
  | nilDereference
  deriving DecidableEq, Repr

/-- Indexing `xs[i]` of a Go slice. -/
def index (xs : List String) (i : Nat) : Except Panic String :=
  match xs[i]? with
  | some v => .ok v
  | none => .error (.indexOutOfRange i xs.length)

/-- Standard-library functions used by the package. -/
structure Runtime where
  /-- Type of `float64` values. -/
  F : Type
  /-- Function `strconv.ParseFloat(s, 64)`; `none` when the error is not nil. -/
  ParseFloat : String → Option F
  /-- Function `fmt.Sprintf("%." + strconv.Itoa(p) + "f", x)`. -/
  Sprintf : Int → F → String
  /-- Function `strings.ToLower`. -/
  ToLower : String → String
  /-- Reader `csv.NewReader(f)` with `Comma` and `LazyQuotes` set, then `ReadAll`. -/
  ReadAll : String → Char → Bool → Except String (List (List String))

/-! ## Data model (`csvdiff.go` lines 12-35) -/

/-- Type `Comparator`. -/
abbrev Comparator := String → String → Bool

/-- Struct `Options`. -/
structure Options where
  IgnoreColumns : List String
  KeyColumns : List String
  IgnoreCase : Bool
  LazyQuotes : Bool
  HasHeader : Bool
  Separator : Char
  Precision : Int
  Comparator : Option Comparator

/-- Struct `DiffRef`. -/
structure DiffRef where
  AddedRow : List String
  RemovedRow : List String
  Changed : GoMap (List String)
  deriving DecidableEq, Repr

/-- Struct `csvData`; `opt` is a pointer and may be nil. -/
structure csvData where
  headers : List String
  headerMap : GoMap Nat
  records : GoMap (List String)
  opt : Option Options

/-! ## Operations -/

/-- Method `Options.getComparator` (lines 37-56). -/
def Options.getComparator (rt : Runtime) (o : Options) : CsvDiff.Comparator :=
  match o.Comparator with
  | some f => f
  | none => fun a b =>
    match rt.ParseFloat a, rt.ParseFloat b, decide (o.Precision > 0) with
    | some afloat, some bfloat, true =>
      rt.Sprintf o.Precision afloat == rt.Sprintf o.Precision bfloat
    | _, _, _ =>
      if o.IgnoreCase then rt.ToLower a == rt.ToLower b else a == b

/-- Inner loop of `OrderedSet`: one element of one slice. -/
def OrderedSet.step (st : List String × GoMap Bool) (s : String) : List String × GoMap Bool :=
  match st.2.get? s with
  | some _ => st
  | none => (st.1 ++ [s], st.2.set s true)

/-- Function `OrderedSet` (lines 58-71). -/
def OrderedSet (slices : List (List String)) : List String :=
  (slices.foldl (fun st slice => slice.foldl OrderedSet.step st) ([], [])).1

/-- Loop `for i, col := range c.headers { c.headerMap[col] = i }` (lines 96-98). -/
def fromReader.headerLoop : List String → Nat → GoMap Nat → GoMap Nat
  | [], _, m => m
  | col :: rest, i, m => fromReader.headerLoop rest (i + 1) (m.set col i)

/-- Message of the error built by `getKey`; `%v` prints a slice as `[a b]`. -/
def getKey.errorf (col : String) (headers : List String) : String :=
  "Invalid column header: " ++ col ++ ". Available headers: [" ++ " ".intercalate headers ++ "]"

/-- Loop of `getKey` over the key column names, `key` being the slice built so far. -/
def getKey.loop (c : csvData) (record : List String) :
    List String → List String → Except Panic (String × Option String)
  | [], key => .ok (",".intercalate key, none)
  | col :: rest, key =>
    match c.headerMap.get? col with
    | none => .ok ("", some (getKey.errorf col c.headers))
    | some i =>
      match index record i with
      | .error p => .error p
      | .ok v => getKey.loop c record rest (key ++ [v])

/-- Method `csvData.getKey` (lines 116-126). -/
def csvData.getKey (c : csvData) (colNames : List String) (record : List String) :
    Except Panic (String × Option String) :=
  getKey.loop c record colNames []

/-- Loop of `fromReader` over the data rows (lines 103-113). -/
def fromReader.recordLoop (rt : Runtime) (opt : Options) :
    csvData → List (List String) → Except Panic (csvData × Option String)
  | c, [] => .ok (c, none)
  | c, record :: rest =>
    match c.getKey opt.KeyColumns record with
    | .error p => .error p
    | .ok (_, some err) => .ok (c, some err)
    | .ok (key, none) =>
      let key := if opt.IgnoreCase then rt.ToLower key else key
      fromReader.recordLoop rt opt { c with records := c.records.set key record } rest

/-- Part of `fromReader` after `ReadAll` succeeded (lines 94-113). -/
def fromReader.fromRows (rt : Runtime) (opt : Options) (records : List (List String)) :
    Except Panic (csvData × Option String) :=
  let c : csvData := { headers := [], headerMap := [], records := [], opt := some opt }
  match opt.HasHeader, records with
  | true, header :: rest =>
    fromReader.recordLoop rt opt
      { c with headers := header, headerMap := fromReader.headerLoop header 0 [] } rest
  | _, _ => fromReader.recordLoop rt opt c records

/-- Function `fromReader` (lines 73-114). -/
def fromReader (rt : Runtime) (f : Option String) (opt : Option Options) :
    Except Panic (csvData × Option String) :=
  match f, opt with
  | some f, some opt =>
    match rt.ReadAll f opt.Separator opt.LazyQuotes with
    | .error err =>
      .ok ({ headers := [], headerMap := [], records := [], opt := some opt }, some err)
    | .ok records => fromReader.fromRows rt opt records
  | _, _ =>
    .ok ({ headers := [], headerMap := [], records := [], opt := none },
      some "reader and options cannot be nil")

/-- Slice element `m[key][i]`; a missing key gives the nil slice. -/
def field (m : GoMap (List String)) (key : String) (i : Nat) : Except Panic String :=
  index ((m.get? key).getD []) i

/-- Loop of `diffSingleRecord` over the header union (lines 132-139). -/
def diffSingleRecord.loop (rt : Runtime) (c : csvData) (key : String) (other : csvData) :
    List String → List String → Except Panic (List String)
  | [], changes => .ok changes
  | h :: rest, changes =>
    match c.headerMap.get? h, other.headerMap.get? h with
    | some ci, some oi =>
      match c.opt with
      | none => .error .nilDereference
      | some o =>
        match field c.records key ci with
        | .error p => .error p
        | .ok a =>
          match field other.records key oi with
          | .error p => .error p
          | .ok b =>
            if o.getComparator rt a b then diffSingleRecord.loop rt c key other rest changes
            else diffSingleRecord.loop rt c key other rest (changes ++ [h])
    | _, _ => diffSingleRecord.loop rt c key other rest (changes ++ [h])

/-- Method `csvData.diffSingleRecord` (lines 129-141). -/
def csvData.diffSingleRecord (rt : Runtime) (c : csvData) (key : String) (other : csvData) :
    Except Panic (List String) :=
  diffSingleRecord.loop rt c key other (OrderedSet [c.headers, other.headers]) []

/-- First loop of `diffAllRecords`, over the keys of `c.records` (lines 145-151). -/
def diffAllRecords.firstLoop (rt : Runtime) (c other : csvData) :
    List String → DiffRef → Except Panic DiffRef
  | [], d => .ok d
  | k :: rest, d =>
    if other.records.contains k then
      match c.diffSingleRecord rt k other with
      | .error p => .error p
      | .ok changes =>
        if changes.length ≠ 0 then
          diffAllRecords.firstLoop rt c other rest { d with Changed := d.Changed.set k changes }
        else diffAllRecords.firstLoop rt c other rest d
    else
      diffAllRecords.firstLoop rt c other rest { d with RemovedRow := d.RemovedRow ++ [k] }

/-- Second loop of `diffAllRecords`, over the keys of `other.records` (lines 152-157). -/
def diffAllRecords.secondLoop (c : csvData) : List String → DiffRef → DiffRef
  | [], d => d
  | k :: rest, d =>
    if c.records.contains k then diffAllRecords.secondLoop c rest d
    else diffAllRecords.secondLoop c rest { d with AddedRow := d.AddedRow ++ [k] }

/-- Method `csvData.diffAllRecords` (lines 143-159). -/
def csvData.diffAllRecords (rt : Runtime) (c other : csvData) : Except Panic DiffRef :=
  match diffAllRecords.firstLoop rt c other c.records.keys
      { AddedRow := [], RemovedRow := [], Changed := [] } with
  | .error p => .error p
  | .ok d => .ok (diffAllRecords.secondLoop c other.records.keys d)

/-- Function `Compare` (lines 161-172). -/
def Compare (rt : Runtime) (fromCSV toCSV : Option String) (opt : Option Options) :
    Except Panic (DiffRef × Option String) :=
  match fromReader rt fromCSV opt with
  | .error p => .error p
  | .ok (_, some err) =>
    .ok ({ AddedRow := [], RemovedRow := [], Changed := [] },
      some ("error parsing from_csv: " ++ err))
  | .ok (f, none) =>
    match fromReader rt toCSV opt with
    | .error p => .error p
    | .ok (_, some err) =>
      .ok ({ AddedRow := [], RemovedRow := [], Changed := [] },
        some ("error parsing to_csv: " ++ err))
    | .ok (t, none) =>
      match f.diffAllRecords rt t with
      | .error p => .error p
      | .ok d => .ok (d, none)

/-! ## Loaded tables and their invariant -/

/-- All rows have the same number of fields, as `encoding/csv` enforces when
`FieldsPerRecord` is left 0. -/
def Rectangular (rows : List (List String)) : Prop :=
  ∀ r ∈ rows, ∀ r' ∈ rows, r.length = r'.length

instance (rows : List (List String)) : Decidable (Rectangular rows) := by
  unfold Rectangular
  infer_instance

/-- Table `t` is what `fromReader` returns, with a nil error, on text `f` and
options `opt`, the tokenizer having produced rectangular rows. -/
def Loaded (rt : Runtime) (f : String) (opt : Options) (t : csvData) : Prop :=
  (∃ rows, rt.ReadAll f opt.Separator opt.LazyQuotes = .ok rows ∧ Rectangular rows) ∧
    fromReader rt (some f) (some opt) = .ok (t, none)

/-- Invariant of loaded tables: the options pointer is set, every header
index is a position of every stored row, the header index has exactly the
header names as keys, and the record keys are pairwise distinct. -/
structure csvData.WF (t : csvData) : Prop where
  opt_some : t.opt.isSome = true
  index_lt : ∀ e ∈ t.headerMap, ∀ kr ∈ t.records, e.2 < kr.2.length
  resolved : ∀ h, h ∈ t.headerMap.keys ↔ h ∈ t.headers
  keys_nodup : t.records.keys.Nodup

/-- Loop invariant of `OrderedSet`: the membership map has exactly the
elements of the slice built so far as keys, and that slice has no duplicates. -/
def OrderedSet.Inv (st : List String × GoMap Bool) : Prop :=
  (∀ s, s ∈ st.2.keys ↔ s ∈ st.1) ∧ st.1.Nodup

/-- Value read by `t.records[key][i]`, the empty string standing for an
access that would panic. -/
def cell (t : csvData) (key : String) (i : Nat) : String :=
  ((t.records.get? key).getD []).getD i ""

/-- Field-level diff as the specification words it: a header of the union is
left out exactly when it resolves to a column on both sides and the equality
predicate `eq` holds of the two values. -/
def changedFieldsSpec (eq : Comparator) (c : csvData) (key : String) (other : csvData) :
    List String :=
  (OrderedSet [c.headers, other.headers]).filter fun h =>
    match c.headerMap.get? h, other.headerMap.get? h with
    | some ci, some oi => !eq (cell c key ci) (cell other key oi)
    | _, _ => true

/-! ## A concrete run-time for evaluating examples

`plainRuntime` stands in for the Go standard library on simple inputs: text
without quotes or carriage returns, ASCII letters, and plain decimal numerals
that are not exactly half-way between two roundings. -/

/-- Split a character list at every occurrence of `sep`. -/
def splitOn (sep : Char) : List Char → List (List Char)
  | [] => [[]]
  | ch :: rest =>
    if ch = sep then [] :: splitOn sep rest
    else
      match splitOn sep rest with
      | [] => [[ch]]
      | fld :: more => (ch :: fld) :: more

/-- Check of the field count of the numbered records against `n`. -/
def plainReadAll.check (n : Nat) : List (Nat × List String) → Option String
  | [] => none
  | (line, r) :: rest =>
    if r.length = n then plainReadAll.check n rest
    else some ("record on line " ++ toString line ++ ": wrong number of fields")

/-- Tokenizer for quote-free text: one record per non-empty line, fields
split at the delimiter, every record as long as the first. -/
def plainReadAll (text : String) (comma : Char) (_lazyQuotes : Bool) :
    Except String (List (List String)) :=
  if comma = Char.ofNat 0 ∨ comma = '"' ∨ comma = '\r' ∨ comma = '\n' then
    .error "csv: invalid field or comment delimiter"
  else
    let lines := ((splitOn '\n' text.toList).enumFrom 1).filter fun l => !l.2.isEmpty
    let rows := lines.map fun l => (l.1, (splitOn comma l.2).map String.mk)
    match plainReadAll.check ((rows.head?.map fun r => r.2.length).getD 0) rows with
    | some err => .error err
    | none => .ok (rows.map Prod.snd)

/-- Decimal number `± mant / 10 ^ scale`. -/
structure Dec where
  neg : Bool
  mant : Nat
  scale : Nat
  deriving DecidableEq, Repr

/-- Value of a string of decimal digits, `acc` being the value read so far. -/
def parseDigits : List Char → Nat → Option Nat
  | [], acc => some acc
  | ch :: rest, acc =>
    if ch.isDigit then parseDigits rest (10 * acc + (ch.toNat - 48)) else none

/-- Parser of plain decimal numerals: optional sign, digits, optional point. -/
def parseDec (s : String) : Option Dec :=
  let signed : Bool × List Char :=
    match s.toList with
    | '-' :: r => (true, r)
    | '+' :: r => (false, r)
    | r => (false, r)
  match splitOn '.' signed.2 with
  | [ip] => if ip.isEmpty then none else (parseDigits ip 0).map fun m => ⟨signed.1, m, 0⟩
  | [ip, fp] =>
    if ip.isEmpty && fp.isEmpty then none
    else (parseDigits (ip ++ fp) 0).map fun m => ⟨signed.1, m, fp.length⟩
  | _ => none

/-- Fixed-point rendering with `p` decimal digits, rounding to nearest. -/
def formatDec (p : Int) (x : Dec) : String :=
  let n := p.toNat
  let num := x.mant * 10 ^ n
  let den := 10 ^ x.scale
  let q := if 2 * (num % den) > den ∨ (2 * (num % den) = den ∧ (num / den) % 2 = 1)
    then num / den + 1 else num / den
  let fp := Nat.toDigits 10 (q % 10 ^ n)
  (if x.neg then "-" else "") ++ String.mk (Nat.toDigits 10 (q / 10 ^ n)) ++
    (if n = 0 then "" else "." ++ String.mk (List.replicate (n - fp.length) '0' ++ fp))

/-- Stand-in for the Go standard library on simple inputs. -/
def plainRuntime : Runtime where
  F := Dec
  ParseFloat := parseDec
  Sprintf := formatDec
  ToLower := fun s => String.mk (s.toList.map Char.toLower)
  ReadAll := plainReadAll

/-- Options of the test-suite helper `defaultOptions` (`csvdiff_test.go` lines 12-19). -/
def defaultOptions (cols : List String) : Options :=
  { IgnoreColumns := [], KeyColumns := cols, IgnoreCase := false, LazyQuotes := true,
    HasHeader := true, Separator := ',', Precision := 0, Comparator := none }

/-! ## Tables used in the examples -/

/-- Table loaded from `a,b / 1,2` with key column `a`. -/
def tableOneRow : csvData :=
  { headers := ["a", "b"], headerMap := [("a", 0), ("b", 1)],
    records := [("1", ["1", "2"])], opt := some (defaultOptions ["a"]) }

/-- Table loaded from `a,b / 1,2 / 3,4` with key column `a`. -/
def tableTwoRows : csvData :=
  { headers := ["a", "b"], headerMap := [("a", 0), ("b", 1)],
    records := [("1", ["1", "2"]), ("3", ["3", "4"])], opt := some (defaultOptions ["a"]) }

/-- Table loaded from `a,b / 1,3` with key column `a`. -/
def tableChangedRow : csvData :=
  { headers := ["a", "b"], headerMap := [("a", 0), ("b", 1)],
    records := [("1", ["1", "3"])], opt := some (defaultOptions ["a"]) }

/-- Table loaded from `a,b,a / 1,2,3 / 4,5,6` with key column `a`: the header
repeats the name `a`, whose index is that of its last occurrence. -/
def tableRepeatedHeader : csvData :=
  { headers := ["a", "b", "a"], headerMap := [("a", 2), ("b", 1)],
    records := [("3", ["1", "2", "3"]), ("6", ["4", "5", "6"])],
    opt := some (defaultOptions ["a"]) }


/-! ## Notions used to state the reordering properties -/

/-- Error of `getKey` on the key columns `cols`: the message for the first
name that the header index does not resolve, `none` when all resolve. -/
def keyError (c : csvData) : List String → Option String
  | [] => none
  | col :: rest =>
    match c.headerMap.get? col with
    | none => some (getKey.errorf col c.headers)
    | some _ => keyError c rest

/-- Value of the column named `col` in `record`, read through the header index. -/
def columnValue (c : csvData) (record : List String) (col : String) : String :=
  record.getD ((c.headerMap.get? col).getD 0) ""

/-- Key under which `fromReader` stores `record`: the result of `getKey`,
lower-cased under `IgnoreCase`; `none` when `getKey` does not return a key. -/
def storedKey (rt : Runtime) (opt : Options) (c : csvData) (record : List String) :
    Option String :=
  match c.getKey opt.KeyColumns record with
  | .ok (key, none) => some (if opt.IgnoreCase then rt.ToLower key else key)
  | _ => none

/-- Key-to-row mapping induced by a list of rows: the last row with key `k`. -/
def lastWithKey (keyOf : List String → Option String) :
    List (List String) → String → Option (List String)
  | [], _ => none
  | r :: rest, k =>
    match lastWithKey keyOf rest k with
    | some x => some x
    | none => if keyOf r = some k then some r else none

/-- Table of `fromReader` once the header row is consumed, before any record
is stored. -/
def headerTable (opt : Options) (header : List String) : csvData :=
  { headers := header, headerMap := fromReader.headerLoop header 0 [], records := [],
    opt := some opt }

/-- Row with its columns rearranged: position `j` of the result holds column
`p[j]` of `r`. -/
def permuteRow (p : List Nat) (r : List String) : List String :=
  p.map fun i => r.getD i ""


/-- Tables holding the same data: the same header names, the same record
keys, the same options, and the same value in every record for every column
name that both header indexes resolve. -/
structure SameData (t t' : csvData) : Prop where
  headers : ∀ h, h ∈ t'.headers ↔ h ∈ t.headers
  keys : ∀ k, k ∈ t'.records.keys ↔ k ∈ t.records.keys
  opt : t'.opt = t.opt
  cells : ∀ k h i i', t.headerMap.get? h = some i → t'.headerMap.get? h = some i' →
    cell t' k i' = cell t k i


/-- Inputs `f` and `f'` tokenize to the same header row followed by data rows
that are permutations of each other and induce the same key-to-row mapping. -/
def RowReordered (rt : Runtime) (opt : Options) (f f' : String) : Prop :=
  ∃ hdr rows rows',
    rt.ReadAll f opt.Separator opt.LazyQuotes = .ok (hdr :: rows) ∧
    rt.ReadAll f' opt.Separator opt.LazyQuotes = .ok (hdr :: rows') ∧
    Rectangular (hdr :: rows) ∧ rows.Perm rows' ∧
    ∀ k, lastWithKey (storedKey rt opt (headerTable opt hdr)) rows k =
      lastWithKey (storedKey rt opt (headerTable opt hdr)) rows' k


/-- Input `f'` is input `f` with its columns rearranged: `f` tokenizes to a
header row and data rows, `f'` to the same rows with the header cell and
every field moved by the same permutation `p` of the column positions. -/
def ColumnReordered (rt : Runtime) (opt : Options) (f f' : String) : Prop :=
  ∃ hdr rows p,
    rt.ReadAll f opt.Separator opt.LazyQuotes = .ok (hdr :: rows) ∧
    rt.ReadAll f' opt.Separator opt.LazyQuotes = .ok ((hdr :: rows).map (permuteRow p)) ∧
    Rectangular (hdr :: rows) ∧ p.Perm (List.range hdr.length)

/-- The header row of input `f` has pairwise distinct names. -/
def DistinctHeader (rt : Runtime) (opt : Options) (f : String) : Prop :=
  ∀ hdr rows, rt.ReadAll f opt.Separator opt.LazyQuotes = .ok (hdr :: rows) → hdr.Nodup


/-! ## Rendering (`printer.go`) -/

/-- Function `AsSummary` (`printer.go` lines 10-25); `%d` prints a length in
decimal. -/
def AsSummary (rt : Runtime) (fromCSV toCSV : Option String) (opt : Option Options) :
    Except Panic (String × Option String) :=
  match fromReader rt fromCSV opt with
  | .error p => .error p
  | .ok (_, some err) => .ok ("", some ("error parsing from_csv: " ++ err))
  | .ok (f, none) =>
    match fromReader rt toCSV opt with
    | .error p => .error p
    | .ok (_, some err) => .ok ("", some ("error parsing to_csv: " ++ err))
    | .ok (t, none) =>
      match f.diffAllRecords rt t with
      | .error p => .error p
      | .ok d =>
        .ok ("" ++ (toString d.AddedRow.length ++ " rows added.\n") ++
          (toString d.Changed.length ++ " rows changed.\n") ++
          (toString d.RemovedRow.length ++ " rows removed.\n"), none)

/-- Loop of `recordObj` over the entries of the header index. -/
def recordObj.loop (c : csvData) (key : String) :
    List (String × Nat) → GoMap String → Except Panic (GoMap String)
  | [], res => .ok res
  | (col, i) :: rest, res =>
    match field c.records key i with
    | .error p => .error p
    | .ok v => recordObj.loop c key rest (res.set col v)

/-- Method `csvData.recordObj` (`printer.go` lines 73-79). -/
def csvData.recordObj (c : csvData) (key : String) : Except Panic (GoMap String) :=
  recordObj.loop c key c.headerMap []

/-- Document `map[string][]map[string]string` built by `diffToJSON`. -/
abbrev JSONDoc := GoMap (List (GoMap String))

/-- Statement `j[name] = append(j[name], obj)`. -/
def JSONDoc.append (j : JSONDoc) (name : String) (obj : GoMap String) : JSONDoc :=
  j.set name ((j.get? name).getD [] ++ [obj])

/-- Loops of `diffToJSON` over `diff.AddedRow` and `diff.RemovedRow`
(`printer.go` lines 43-48): one `recordObj` of table `t` per key, appended
to the collection `name`. -/
def diffToJSON.rowLoop (t : csvData) (name : String) :
    List String → JSONDoc → Except Panic JSONDoc
  | [], j => .ok j
  | v :: rest, j =>
    match t.recordObj v with
    | .error p => .error p
    | .ok obj => diffToJSON.rowLoop t name rest (j.append name obj)

/-- Body of the inner loop of `diffToJSON` (`printer.go` lines 51-61): the
entry for key `k` and changed column `col`.  Both header indexes are looked
up at `k`, as the source does. -/
def diffToJSON.change (fromT toT : csvData) (k col : String) : Except Panic (GoMap String) :=
  let change : GoMap String :=
    GoMap.set (GoMap.set (GoMap.set [] "key" k) "field" col) "from" ""
  match (match fromT.headerMap.get? k with
      | some fi =>
        match field fromT.records k fi with
        | .error p => Except.error p
        | .ok v => Except.ok (change.set "from" v)
      | none => Except.ok change) with
  | .error p => .error p
  | .ok change =>
    match toT.headerMap.get? k with
    | some ti =>
      match field toT.records k ti with
      | .error p => .error p
      | .ok v => .ok ((change.set "to" "").set "to" v)
    | none => .ok (change.set "to" "")

/-- Inner loop of `diffToJSON` over the changed columns of key `k`. -/
def diffToJSON.colLoop (fromT toT : csvData) (k : String) :
    List String → JSONDoc → Except Panic JSONDoc
  | [], j => .ok j
  | col :: rest, j =>
    match diffToJSON.change fromT toT k col with
    | .error p => .error p
    | .ok change => diffToJSON.colLoop fromT toT k rest (j.append "Changed" change)

/-- Outer loop of `diffToJSON` over the entries of `diff.Changed`
(`printer.go` lines 49-64). -/
def diffToJSON.changedLoop (fromT toT : csvData) :
    List (String × List String) → JSONDoc → Except Panic JSONDoc
  | [], j => .ok j
  | (k, v) :: rest, j =>
    match diffToJSON.colLoop fromT toT k v j with
    | .error p => .error p
    | .ok j' => diffToJSON.changedLoop fromT toT rest j'

/-- Document that `diffToJSON` hands to `json.MarshalIndent` (`printer.go`
lines 42-64). -/
def diffToJSON.build (diff : DiffRef) (fromT toT : csvData) : Except Panic JSONDoc :=
  match diffToJSON.rowLoop toT "Added" diff.AddedRow [] with
  | .error p => .error p
  | .ok j =>
    match diffToJSON.rowLoop fromT "Removed" diff.RemovedRow j with
    | .error p => .error p
    | .ok j' => diffToJSON.changedLoop fromT toT diff.Changed j'

/-- Function `diffToJSON` (`printer.go` lines 41-71); `marshal` is
`json.MarshalIndent(j, "", "  ")`. -/
def diffToJSON (marshal : JSONDoc → Except String String) (diff : DiffRef)
    (fromT toT : csvData) : Except Panic (String × Option String) :=
  match diffToJSON.build diff fromT toT with
  | .error p => .error p
  | .ok j =>
    match marshal j with
    | .error err => .ok ("", some err)
    | .ok json => .ok (json, none)

/-- Function `AsJSON` (`printer.go` lines 28-39). -/
def AsJSON (rt : Runtime) (marshal : JSONDoc → Except String String)
    (fromCSV toCSV : Option String) (opt : Option Options) :
    Except Panic (String × Option String) :=
  match fromReader rt fromCSV opt with
  | .error p => .error p
  | .ok (_, some err) => .ok ("", some ("error parsing from_csv: " ++ err))
  | .ok (f, none) =>
    match fromReader rt toCSV opt with
    | .error p => .error p
    | .ok (_, some err) => .ok ("", some ("error parsing to_csv: " ++ err))
    | .ok (t, none) =>
      match f.diffAllRecords rt t with
      | .error p => .error p
      | .ok d => diffToJSON marshal d f t


/-! ## Further tables and options used in the examples -/

/-- Options with a custom comparator that accepts every pair of values, a
positive precision and `IgnoreCase` set. -/
def alwaysEqualOptions : Options :=
  { defaultOptions ["a"] with
    Comparator := some fun _ _ => true, Precision := 1, IgnoreCase := true }

/-- Table with header `x,y` and no record, for evaluating `getKey`. -/
def tableXY : csvData :=
  { headers := ["x", "y"], headerMap := [("x", 0), ("y", 1)], records := [],
    opt := some (defaultOptions ["x", "y"]) }


/-! ## Notions used to state the behaviour of `OrderedSet` and of the header index -/

/-- The list `l` with every occurrence of an element after its first erased. -/
def eraseRepeats : List String → List String
  | [] => []
  | x :: xs => x :: (eraseRepeats xs).filter fun y => decide (y ≠ x)

/-- Position of the last occurrence of `h` in `l`. -/
def lastIndexOf? (h : String) : List String → Option Nat
  | [] => none
  | x :: xs =>
    match lastIndexOf? h xs with
    | some n => some (n + 1)
    | none => if x = h then some 0 else none


/-! ## Header row and data rows of a tokenized input -/

/-- Header row that `fromReader` consumes: the first tokenized row when
`HasHeader` is set and there is one, the empty header otherwise. -/
def headerOf (opt : Options) (records : List (List String)) : List String :=
  match opt.HasHeader, records with
  | true, header :: _ => header
  | _, _ => []

/-- Rows that `fromReader` stores as records: all tokenized rows but the
consumed header row. -/
def dataRows (opt : Options) (records : List (List String)) : List (List String) :=
  match opt.HasHeader, records with
  | true, _ :: rest => rest
  | _, _ => records

/-- Table loaded from `a,b / 1,2 / 3,4 / 1,5` with key column `a`. -/
def tableLastWins : csvData :=
  { headers := ["a", "b"], headerMap := [("a", 0), ("b", 1)],
    records := [("1", ["1", "5"]), ("3", ["3", "4"])], opt := some (defaultOptions ["a"]) }

/-- Table loaded from `a,b,c / 1,2,5 / 3,4,6` with key column `a`. -/
def tableThreeColumns : csvData :=
  { headers := ["a", "b", "c"], headerMap := [("a", 0), ("b", 1), ("c", 2)],
    records := [("1", ["1", "2", "5"]), ("3", ["3", "4", "6"])],
    opt := some (defaultOptions ["a"]) }

/-- Table loaded from `a,b / 1,7 / 5,6` with key column `a`. -/
def tableSummaryTo : csvData :=
  { headers := ["a", "b"], headerMap := [("a", 0), ("b", 1)],
    records := [("1", ["1", "7"]), ("5", ["5", "6"])], opt := some (defaultOptions ["a"]) }

/-- Options of the test "ignore case works on the keys": key column `a` and
`IgnoreCase` set. -/
def ignoreCaseOptions : Options :=
  { defaultOptions ["a"] with IgnoreCase := true }

/-- Table loaded from `a,b / HELLO,1` with key column `a` and `IgnoreCase`. -/
def tableHello : csvData :=
  { headers := ["a", "b"], headerMap := [("a", 0), ("b", 1)],
    records := [("hello", ["HELLO", "1"])],
    opt := some { defaultOptions ["a"] with IgnoreCase := true } }


/-! ## Notions used to state index safety and the headerless case -/

/-- Every data row has as many fields as the header row that `fromReader`
consumes; nothing is required of an input of which no header row is consumed. -/
def RowsMatchHeader (opt : Options) (records : List (List String)) : Prop :=
  match opt.HasHeader, records with
  | true, header :: rest => ∀ r ∈ rest, r.length = header.length
  | _, _ => True

instance (opt : Options) (records : List (List String)) :
    Decidable (RowsMatchHeader opt records) := by
  unfold RowsMatchHeader
  split <;> infer_instance

/-- Key under which `fromReader` stores a row when there are no key columns:
the empty composite key, lower-cased when `IgnoreCase` is set. -/
def emptyKey (rt : Runtime) (opt : Options) : String :=
  if opt.IgnoreCase then rt.ToLower "" else ""

/-- Options without a header row and without key columns. -/
def headerlessOptions : Options :=
  { defaultOptions [] with HasHeader := false }

end CsvDiff

/-! # Proofs -/

namespace CsvDiff

/-! ## Facts about Go maps -/

namespace GoMap

variable {V : Type}

theorem get?_set (m : GoMap V) (k k' : String) (v : V) :
    (m.set k v).get? k' = if k = k' then some v else m.get? k' := by
  induction m with
  | nil => simp [set, get?]
  | cons e t ih =>
    obtain ⟨a, b⟩ := e
    by_cases h : a = k
    · subst h
      by_cases h' : a = k' <;> simp [set, get?, h']
    · simp only [set, if_neg h, get?]
      by_cases h'' : a = k'
      · have hne : k ≠ k' := fun e => h (h''.trans e.symm)
        simp [h'', hne]
      · simp [h'', ih]

theorem mem_set (m : GoMap V) (k : String) (v : V) (e : String × V) (h : e ∈ m.set k v) :
    e ∈ m ∨ e = (k, v) := by
  induction m with
  | nil => simpa [set] using h
  | cons p t ih =>
    obtain ⟨a, b⟩ := p
    by_cases hk : a = k
    · simp only [set, hk, if_true, List.mem_cons] at h
      rcases h with h | h
      · exact Or.inr h
      · exact Or.inl (List.mem_cons_of_mem _ h)
    · simp only [set, hk, if_false, List.mem_cons] at h
      rcases h with h | h
      · exact Or.inl (by simp [h])
      · rcases ih h with h | h
        · exact Or.inl (List.mem_cons_of_mem _ h)
        · exact Or.inr h

theorem mem_keys_set (m : GoMap V) (k k' : String) (v : V) :
    k' ∈ (m.set k v).keys ↔ k' = k ∨ k' ∈ m.keys := by
  induction m with
  | nil => simp [set, keys]
  | cons p t ih =>
    obtain ⟨a, b⟩ := p
    by_cases hk : a = k
    · subst hk
      simp [set, keys]
    · simp only [keys] at ih
      simp only [set, hk, if_false, keys, List.map_cons, List.mem_cons, ih]
      tauto

theorem nodup_keys_set (m : GoMap V) (k : String) (v : V) (h : m.keys.Nodup) :
    (m.set k v).keys.Nodup := by
  induction m with
  | nil => simp [set, keys]
  | cons p t ih =>
    obtain ⟨a, b⟩ := p
    simp only [keys, List.map_cons, List.nodup_cons] at h
    by_cases hk : a = k
    · subst hk
      simpa [set, keys] using h
    · have h1 : a ∉ (set t k v).keys := by
        rw [mem_keys_set]
        intro hc
        rcases hc with hc | hc
        · exact hk hc
        · exact h.1 hc
      have h2 := ih h.2
      simp only [set, hk, if_false, keys, List.map_cons, List.nodup_cons]
      exact ⟨h1, h2⟩

theorem get?_isSome_iff (m : GoMap V) (k : String) : (m.get? k).isSome ↔ k ∈ m.keys := by
  induction m with
  | nil => simp [get?, keys]
  | cons p t ih =>
    obtain ⟨a, b⟩ := p
    by_cases hk : a = k
    · simp [get?, keys, hk]
    · simp only [keys] at ih
      simp only [get?, hk, if_false, ih, keys, List.map_cons, List.mem_cons]
      constructor
      · exact Or.inr
      · rintro (h | h)
        · exact absurd h.symm hk
        · exact h

theorem contains_iff (m : GoMap V) (k : String) : m.contains k = true ↔ k ∈ m.keys :=
  get?_isSome_iff m k

theorem get?_mem (m : GoMap V) (k : String) (v : V) (h : m.get? k = some v) : (k, v) ∈ m := by
  induction m with
  | nil => simp [get?] at h
  | cons p t ih =>
    obtain ⟨a, b⟩ := p
    by_cases hk : a = k
    · simp only [get?, hk, if_true, Option.some.injEq] at h
      simp [hk, h]
    · simp only [get?, hk, if_false] at h
      exact List.mem_cons_of_mem _ (ih h)

theorem get?_of_mem (m : GoMap V) (hm : m.keys.Nodup) (k : String) (v : V) (h : (k, v) ∈ m) :
    m.get? k = some v := by
  induction m with
  | nil => simp at h
  | cons p t ih =>
    obtain ⟨a, b⟩ := p
    simp only [keys, List.map_cons, List.nodup_cons] at hm
    simp only [List.mem_cons, Prod.mk.injEq] at h
    rcases h with ⟨h1, h2⟩ | h
    · simp [get?, h1, h2]
    · have hne : a ≠ k := by
        intro hc
        apply hm.1
        rw [hc]
        exact List.mem_map_of_mem Prod.fst h
      simp only [get?, hne, if_false]
      exact ih hm.2 h

end GoMap


/-! ## Loading establishes the table invariant -/

theorem headerLoop_mem (l : List String) (i : Nat) (m : GoMap Nat) (e : String × Nat)
    (h : e ∈ fromReader.headerLoop l i m) : e ∈ m ∨ (i ≤ e.2 ∧ e.2 < i + l.length) := by
  induction l generalizing i m with
  | nil => exact Or.inl (by simpa [fromReader.headerLoop] using h)
  | cons col rest ih =>
    simp only [fromReader.headerLoop] at h
    rcases ih (i + 1) (m.set col i) h with h1 | h1
    · rcases GoMap.mem_set m col i e h1 with h2 | h2
      · exact Or.inl h2
      · right
        simp [h2]
    · right
      simp only [List.length_cons]
      omega

theorem headerLoop_keys (l : List String) (i : Nat) (m : GoMap Nat) (h : String) :
    h ∈ (fromReader.headerLoop l i m).keys ↔ h ∈ m.keys ∨ h ∈ l := by
  induction l generalizing i m with
  | nil => simp [fromReader.headerLoop]
  | cons col rest ih =>
    simp only [fromReader.headerLoop, ih, GoMap.mem_keys_set, List.mem_cons]
    tauto

theorem recordLoop_spec (rt : Runtime) (opt : Options) (rows : List (List String))
    (c c' : csvData) (e : Option String)
    (h : fromReader.recordLoop rt opt c rows = .ok (c', e)) :
    c'.headers = c.headers ∧ c'.headerMap = c.headerMap ∧ c'.opt = c.opt ∧
      (∀ kr ∈ c'.records, kr ∈ c.records ∨ kr.2 ∈ rows) ∧
      (c.records.keys.Nodup → c'.records.keys.Nodup) := by
  induction rows generalizing c with
  | nil =>
    simp only [fromReader.recordLoop, Except.ok.injEq, Prod.mk.injEq] at h
    obtain ⟨h1, _⟩ := h
    subst h1
    exact ⟨rfl, rfl, rfl, fun kr hkr => Or.inl hkr, fun hn => hn⟩
  | cons record rest ih =>
    simp only [fromReader.recordLoop] at h
    split at h
    · exact absurd h (by simp)
    · simp only [Except.ok.injEq, Prod.mk.injEq] at h
      obtain ⟨h1, _⟩ := h
      subst h1
      exact ⟨rfl, rfl, rfl, fun kr hkr => Or.inl hkr, fun hn => hn⟩
    · obtain ⟨h1, h2, h3, h4, h5⟩ := ih _ h
      refine ⟨h1, h2, h3, ?_, ?_⟩
      · intro kr hkr
        rcases h4 kr hkr with h6 | h6
        · rcases GoMap.mem_set _ _ _ _ h6 with h7 | h7
          · exact Or.inl h7
          · right
            simp [h7]
        · exact Or.inr (List.mem_cons_of_mem _ h6)
      · intro hn
        exact h5 (GoMap.nodup_keys_set _ _ _ hn)

theorem fromRows_wf (rt : Runtime) (opt : Options) (rows : List (List String))
    (hrect : Rectangular rows) (t : csvData) (e : Option String)
    (h : fromReader.fromRows rt opt rows = .ok (t, e)) : t.WF ∧ t.opt = some opt := by
  unfold fromReader.fromRows at h
  split at h
  · rename_i header rest _
    obtain ⟨h1, h2, h3, h4, h5⟩ := recordLoop_spec _ _ _ _ _ _ h
    simp only at h1 h2 h3 h4 h5
    refine ⟨⟨by simp [h3], ?_, ?_, h5 (by simp [GoMap.keys])⟩, h3⟩
    · intro e he kr hkr
      rw [h2] at he
      rcases headerLoop_mem _ _ _ _ he with h6 | h6
      · simp at h6
      · rcases h4 kr hkr with h7 | h7
        · simp at h7
        · have := hrect kr.2 (List.mem_cons_of_mem _ h7) header (List.mem_cons_self _ _)
          omega
    · intro x
      rw [h1, h2, headerLoop_keys]
      simp [GoMap.keys]
  · obtain ⟨h1, h2, h3, h4, h5⟩ := recordLoop_spec _ _ _ _ _ _ h
    simp only at h1 h2 h3 h4 h5
    refine ⟨⟨by simp [h3], ?_, ?_, h5 (by simp [GoMap.keys])⟩, h3⟩
    · intro e he
      rw [h2] at he
      simp at he
    · intro x
      rw [h1, h2]
      simp [GoMap.keys]

theorem Loaded.wf {rt : Runtime} {f : String} {opt : Options} {t : csvData}
    (h : Loaded rt f opt t) : t.WF ∧ t.opt = some opt := by
  obtain ⟨⟨rows, hr, hrect⟩, hl⟩ := h
  simp only [fromReader, hr] at hl
  exact fromRows_wf rt opt rows hrect t none hl


/-! ## The header union -/

theorem OrderedSet.step_inv (st : List String × GoMap Bool) (s : String)
    (h : OrderedSet.Inv st) :
    OrderedSet.Inv (OrderedSet.step st s) ∧
      ∀ x, x ∈ (OrderedSet.step st s).1 ↔ x ∈ st.1 ∨ x = s := by
  obtain ⟨h1, h2⟩ := h
  unfold OrderedSet.step
  cases hg : st.2.get? s with
  | some b =>
    have hs : s ∈ st.1 := (h1 s).1 ((GoMap.get?_isSome_iff _ _).1 (by simp [hg]))
    refine ⟨⟨h1, h2⟩, fun x => ⟨Or.inl, ?_⟩⟩
    rintro (hx | hx)
    · exact hx
    · exact hx ▸ hs
  | none =>
    have hs : s ∉ st.1 := by
      intro hc
      have := (GoMap.get?_isSome_iff _ _).2 ((h1 s).2 hc)
      simp [hg] at this
    refine ⟨⟨?_, ?_⟩, ?_⟩
    · intro x
      simp only [GoMap.mem_keys_set, List.mem_append, List.mem_singleton, h1]
      tauto
    · simp only
      rw [List.nodup_append]
      refine ⟨h2, by simp, ?_⟩
      intro a ha hb
      simp only [List.mem_singleton] at hb
      exact hs (hb ▸ ha)
    · intro x
      simp

theorem OrderedSet.foldl_step_inv (l : List String) (st : List String × GoMap Bool)
    (h : OrderedSet.Inv st) :
    OrderedSet.Inv (l.foldl OrderedSet.step st) ∧
      ∀ x, x ∈ (l.foldl OrderedSet.step st).1 ↔ x ∈ st.1 ∨ x ∈ l := by
  induction l generalizing st with
  | nil => exact ⟨h, fun x => by simp⟩
  | cons s rest ih =>
    obtain ⟨h1, h2⟩ := OrderedSet.step_inv st s h
    obtain ⟨h3, h4⟩ := ih _ h1
    refine ⟨h3, fun x => ?_⟩
    simp only [List.foldl_cons, h4, h2, List.mem_cons]
    tauto

theorem OrderedSet.foldl_inv (slices : List (List String)) (st : List String × GoMap Bool)
    (h : OrderedSet.Inv st) :
    OrderedSet.Inv (slices.foldl (fun st slice => slice.foldl OrderedSet.step st) st) ∧
      ∀ x, x ∈ (slices.foldl (fun st slice => slice.foldl OrderedSet.step st) st).1 ↔
        x ∈ st.1 ∨ ∃ sl ∈ slices, x ∈ sl := by
  induction slices generalizing st with
  | nil => exact ⟨h, fun x => by simp⟩
  | cons sl rest ih =>
    obtain ⟨h1, h2⟩ := OrderedSet.foldl_step_inv sl st h
    obtain ⟨h3, h4⟩ := ih _ h1
    refine ⟨h3, fun x => ?_⟩
    simp only [List.foldl_cons, h4, h2, List.mem_cons, exists_eq_or_imp]
    tauto

theorem OrderedSet_mem (slices : List (List String)) (x : String) :
    x ∈ OrderedSet slices ↔ ∃ sl ∈ slices, x ∈ sl := by
  have h := (OrderedSet.foldl_inv slices ([], []) ⟨by simp [GoMap.keys], by simp⟩).2 x
  simpa [OrderedSet] using h

theorem OrderedSet_nodup (slices : List (List String)) : (OrderedSet slices).Nodup :=
  (OrderedSet.foldl_inv slices ([], []) ⟨by simp [GoMap.keys], by simp⟩).1.2

/-! ## Field-level diff -/

theorem field_ok (t : csvData) (hwf : t.WF) (key : String) (hk : key ∈ t.records.keys)
    (h : String) (i : Nat) (hi : t.headerMap.get? h = some i) :
    field t.records key i = .ok (cell t key i) := by
  have hs := (GoMap.get?_isSome_iff t.records key).2 hk
  obtain ⟨r, hr⟩ := Option.isSome_iff_exists.1 hs
  have hlt := hwf.index_lt _ (GoMap.get?_mem _ _ _ hi) _ (GoMap.get?_mem _ _ _ hr)
  simp only at hlt
  simp [field, cell, hr, index, List.getElem?_eq_getElem hlt, List.getD_eq_getElem _ _ hlt]

theorem diffSingleRecord_loop_spec (rt : Runtime) (c other : csvData) (o : Options)
    (key : String) (ho : c.opt = some o)
    (hc : ∀ h i, c.headerMap.get? h = some i → field c.records key i = .ok (cell c key i))
    (hother : ∀ h i, other.headerMap.get? h = some i →
      field other.records key i = .ok (cell other key i))
    (hs changes : List String) :
    diffSingleRecord.loop rt c key other hs changes =
      .ok (changes ++ hs.filter fun h =>
        match c.headerMap.get? h, other.headerMap.get? h with
        | some ci, some oi => !o.getComparator rt (cell c key ci) (cell other key oi)
        | _, _ => true) := by
  induction hs generalizing changes with
  | nil => simp [diffSingleRecord.loop]
  | cons h rest ih =>
    unfold diffSingleRecord.loop
    cases h1 : c.headerMap.get? h with
    | none => simp [ih, List.filter_cons, h1]
    | some ci =>
      cases h2 : other.headerMap.get? h with
      | none => simp [ih, List.filter_cons, h1, h2]
      | some oi =>
        simp only [ho, hc h ci h1, hother h oi h2]
        by_cases hcmp : o.getComparator rt (cell c key ci) (cell other key oi) = true
        · simp [hcmp, ih, List.filter_cons, h1, h2]
        · simp [hcmp, ih, List.filter_cons, h1, h2]

theorem diffSingleRecord_spec (rt : Runtime) (c other : csvData) (o : Options)
    (hc : c.WF) (hother : other.WF) (ho : c.opt = some o) (key : String)
    (hk : key ∈ c.records.keys) (hk' : key ∈ other.records.keys) :
    c.diffSingleRecord rt key other = .ok (changedFieldsSpec (o.getComparator rt) c key other) := by
  unfold csvData.diffSingleRecord changedFieldsSpec
  rw [diffSingleRecord_loop_spec rt c other o key ho (field_ok c hc key hk)
    (field_ok other hother key hk')]
  simp


/-! ## Table-level diff -/

theorem secondLoop_spec (c : csvData) (ks : List String) (d : DiffRef) :
    diffAllRecords.secondLoop c ks d =
      { d with AddedRow := d.AddedRow ++ ks.filter fun k => !c.records.contains k } := by
  induction ks generalizing d with
  | nil => simp [diffAllRecords.secondLoop]
  | cons k rest ih =>
    unfold diffAllRecords.secondLoop
    by_cases hk : c.records.contains k = true
    · simp [hk, ih, List.filter_cons]
    · simp [hk, ih, List.filter_cons]

theorem firstLoop_spec (rt : Runtime) (c other : csvData) (ds : String → List String)
    (ks : List String)
    (hds : ∀ k ∈ ks, other.records.contains k = true → c.diffSingleRecord rt k other = .ok (ds k))
    (d : DiffRef) :
    ∃ d', diffAllRecords.firstLoop rt c other ks d = .ok d' ∧
      d'.AddedRow = d.AddedRow ∧
      d'.RemovedRow = d.RemovedRow ++ ks.filter (fun k => !other.records.contains k) ∧
      (∀ k, d'.Changed.get? k =
        if k ∈ ks ∧ other.records.contains k = true ∧ ds k ≠ [] then some (ds k)
        else d.Changed.get? k) ∧
      (d.Changed.keys.Nodup → d'.Changed.keys.Nodup) := by
  induction ks generalizing d with
  | nil => exact ⟨d, by simp [diffAllRecords.firstLoop]⟩
  | cons k0 rest ih =>
    have hrest : ∀ k ∈ rest, other.records.contains k = true →
        c.diffSingleRecord rt k other = .ok (ds k) :=
      fun k hk => hds k (List.mem_cons_of_mem _ hk)
    unfold diffAllRecords.firstLoop
    by_cases hk : other.records.contains k0 = true
    · simp only [hk, if_true, hds k0 (List.mem_cons_self _ _) hk]
      by_cases hl : (ds k0).length ≠ 0
      · simp only [hl, if_true, ne_eq, not_false_eq_true]
        obtain ⟨d', h1, h2, h3, h4, h5⟩ :=
          ih hrest { d with Changed := d.Changed.set k0 (ds k0) }
        refine ⟨d', h1, h2, ?_, ?_, ?_⟩
        · simp [h3, List.filter_cons, hk]
        · intro k
          rw [h4 k]
          simp only [GoMap.get?_set, List.mem_cons]
          have hne : ds k0 ≠ [] := fun e => hl (by simp [e])
          by_cases h6 : k0 = k
          · subst h6
            by_cases h7 : k0 ∈ rest <;> simp [h7, hk, hne]
          · have h6' : ¬ k = k0 := fun e => h6 e.symm
            simp [h6, h6']
        · intro hn
          exact h5 (GoMap.nodup_keys_set _ _ _ hn)
      · have hnil : ds k0 = [] := by
          cases hd : ds k0 with
          | nil => rfl
          | cons a b => exact absurd (by simp [hd]) hl
        simp only [hl, if_false]
        obtain ⟨d', h1, h2, h3, h4, h5⟩ := ih hrest d
        refine ⟨d', h1, h2, ?_, ?_, h5⟩
        · simp [h3, List.filter_cons, hk]
        · intro k
          rw [h4 k]
          by_cases h6 : k = k0
          · subst h6
            simp [hnil]
          · simp [h6]
    · simp only [hk, if_false]
      obtain ⟨d', h1, h2, h3, h4, h5⟩ :=
        ih hrest { d with RemovedRow := d.RemovedRow ++ [k0] }
      refine ⟨d', h1, h2, ?_, ?_, h5⟩
      · simp [h3, List.filter_cons, hk]
      · intro k
        rw [h4 k]
        by_cases h6 : k = k0
        · subst h6
          simp [hk]
        · simp [h6]

theorem diffAllRecords_spec (rt : Runtime) (c other : csvData) (o : Options)
    (hc : c.WF) (hother : other.WF) (ho : c.opt = some o) :
    ∃ d, c.diffAllRecords rt other = .ok d ∧
      d.AddedRow = other.records.keys.filter (fun k => !c.records.contains k) ∧
      d.RemovedRow = c.records.keys.filter (fun k => !other.records.contains k) ∧
      (∀ k, d.Changed.get? k =
        if k ∈ c.records.keys ∧ k ∈ other.records.keys ∧
            changedFieldsSpec (o.getComparator rt) c k other ≠ []
        then some (changedFieldsSpec (o.getComparator rt) c k other) else none) ∧
      d.Changed.keys.Nodup := by
  obtain ⟨d', h1, h2, h3, h4, h5⟩ :=
    firstLoop_spec rt c other (fun k => changedFieldsSpec (o.getComparator rt) c k other)
      c.records.keys
      (fun k hk hk' => diffSingleRecord_spec rt c other o hc hother ho k hk
        ((GoMap.contains_iff _ _).1 hk'))
      { AddedRow := [], RemovedRow := [], Changed := [] }
  refine ⟨diffAllRecords.secondLoop c other.records.keys d', ?_, ?_, ?_, ?_, ?_⟩
  · simp [csvData.diffAllRecords, h1]
  · simp [secondLoop_spec, h2]
  · simp [secondLoop_spec, h3]
  · intro k
    simp only [secondLoop_spec, h4 k, GoMap.contains_iff]
    simp [GoMap.get?]
  · simp only [secondLoop_spec]
    exact h5 (by simp [GoMap.keys])


/-! ## The default equality predicate -/

theorem getComparator_default (rt : Runtime) (o : Options) (h : o.Comparator = none)
    (a b : String) :
    o.getComparator rt a b =
      match rt.ParseFloat a, rt.ParseFloat b, decide (o.Precision > 0) with
      | some afloat, some bfloat, true =>
        rt.Sprintf o.Precision afloat == rt.Sprintf o.Precision bfloat
      | _, _, _ => if o.IgnoreCase then rt.ToLower a == rt.ToLower b else a == b := by
  simp [Options.getComparator, h]

theorem getComparator_refl (rt : Runtime) (o : Options) (h : o.Comparator = none) (a : String) :
    o.getComparator rt a a = true := by
  rw [getComparator_default rt o h]
  split
  · rename_i x y hx hy _
    have hxy : x = y := Option.some.inj (hx.symm.trans hy)
    simp [hxy]
  · split <;> simp

theorem GoMap.eq_nil_of_get?_none {V : Type} (m : GoMap V) (h : ∀ k, m.get? k = none) :
    m = [] := by
  cases m with
  | nil => rfl
  | cons p t =>
    obtain ⟨a, b⟩ := p
    have := h a
    simp [GoMap.get?] at this

theorem changedFieldsSpec_self (eq : Comparator) (hrefl : ∀ a, eq a a = true) (c : csvData)
    (hc : c.WF) (key : String) : changedFieldsSpec eq c key c = [] := by
  unfold changedFieldsSpec
  rw [List.filter_eq_nil_iff]
  intro h hh
  rw [OrderedSet_mem] at hh
  have hmem : h ∈ c.headers := by
    obtain ⟨sl, hsl, hx⟩ := hh
    simp only [List.mem_cons, List.mem_singleton, List.not_mem_nil, or_false, or_self] at hsl
    exact hsl ▸ hx
  have hs := (GoMap.get?_isSome_iff c.headerMap h).2 ((hc.resolved h).2 hmem)
  obtain ⟨i, hi⟩ := Option.isSome_iff_exists.1 hs
  simp [hi, hrefl]


/-! ## Properties of the diff -/

/-- C1: for two loaded tables `diffAllRecords` returns (it does not panic),
`RemovedRow` holds exactly the keys of the from-table that the to-table
lacks, `AddedRow` exactly the keys of the to-table that the from-table
lacks, and neither slice repeats a key. -/
theorem diffAllRecords_added_removed (rt : Runtime) (f g : String) (o o' : Options)
    (A B : csvData) (hA : Loaded rt f o A) (hB : Loaded rt g o' B) :
    ∃ d, A.diffAllRecords rt B = .ok d ∧
      (∀ k, k ∈ d.RemovedRow ↔ k ∈ A.records.keys ∧ k ∉ B.records.keys) ∧
      (∀ k, k ∈ d.AddedRow ↔ k ∈ B.records.keys ∧ k ∉ A.records.keys) ∧
      d.RemovedRow.Nodup ∧ d.AddedRow.Nodup := by
  obtain ⟨d, h1, h2, h3, _, _⟩ := diffAllRecords_spec rt A B o hA.wf.1 hB.wf.1 hA.wf.2
  refine ⟨d, h1, ?_, ?_, ?_, ?_⟩
  · intro k
    simp [h3, List.mem_filter, ← GoMap.contains_iff]
  · intro k
    simp [h2, List.mem_filter, ← GoMap.contains_iff]
  · rw [h3]
    exact hA.wf.1.keys_nodup.filter _
  · rw [h2]
    exact hB.wf.1.keys_nodup.filter _

/-- Witness of C1 on the inputs of the test "row add": from `a,b / 1,2`, to
`a,b / 1,2 / 3,4`, key column `a`; `Compare` returns `AddedRow = ["3"]`. -/
theorem diffAllRecords_added_removed_witness :
    Loaded plainRuntime "a,b\n1,2" (defaultOptions ["a"]) tableOneRow ∧
    Loaded plainRuntime "a,b\n1,2\n3,4" (defaultOptions ["a"]) tableTwoRows ∧
    (∃ d, tableOneRow.diffAllRecords plainRuntime tableTwoRows = .ok d ∧
      (∀ k, k ∈ d.RemovedRow ↔ k ∈ tableOneRow.records.keys ∧ k ∉ tableTwoRows.records.keys) ∧
      (∀ k, k ∈ d.AddedRow ↔ k ∈ tableTwoRows.records.keys ∧ k ∉ tableOneRow.records.keys) ∧
      d.RemovedRow.Nodup ∧ d.AddedRow.Nodup) ∧
    Compare plainRuntime (some "a,b\n1,2") (some "a,b\n1,2\n3,4") (some (defaultOptions ["a"])) =
      .ok ({ AddedRow := ["3"], RemovedRow := [], Changed := [] }, none) :=
  ⟨⟨⟨_, rfl, by decide⟩, rfl⟩, ⟨⟨_, rfl, by decide⟩, rfl⟩,
    diffAllRecords_added_removed plainRuntime "a,b\n1,2" "a,b\n1,2\n3,4" (defaultOptions ["a"])
      (defaultOptions ["a"]) tableOneRow tableTwoRows ⟨⟨_, rfl, by decide⟩, rfl⟩
      ⟨⟨_, rfl, by decide⟩, rfl⟩,
    by decide⟩

/-- C2: for two loaded tables, `Changed[k]` is `l` exactly when `k` is a key of
both tables and `diffSingleRecord` returns the non-empty list `l` for it; so
no entry of `Changed` is an empty list, the keys of `Changed` are the shared
keys with a non-empty field diff, and `diffSingleRecord` returns for every
shared key. -/
theorem diffAllRecords_changed (rt : Runtime) (f g : String) (o o' : Options)
    (A B : csvData) (hA : Loaded rt f o A) (hB : Loaded rt g o' B) :
    ∃ d, A.diffAllRecords rt B = .ok d ∧
      (∀ k l, d.Changed.get? k = some l ↔
        k ∈ A.records.keys ∧ k ∈ B.records.keys ∧ A.diffSingleRecord rt k B = .ok l ∧ l ≠ []) ∧
      (∀ k, d.Changed.get? k ≠ some []) ∧
      (∀ k, k ∈ d.Changed.keys ↔
        k ∈ A.records.keys ∧ k ∈ B.records.keys ∧
          ∃ l, A.diffSingleRecord rt k B = .ok l ∧ l ≠ []) ∧
      (∀ k, k ∈ A.records.keys → k ∈ B.records.keys → ∃ l, A.diffSingleRecord rt k B = .ok l) ∧
      d.Changed.keys.Nodup := by
  obtain ⟨d, h1, _, _, h4, h5⟩ := diffAllRecords_spec rt A B o hA.wf.1 hB.wf.1 hA.wf.2
  have hkey : ∀ k l, d.Changed.get? k = some l ↔
      k ∈ A.records.keys ∧ k ∈ B.records.keys ∧ A.diffSingleRecord rt k B = .ok l ∧ l ≠ [] := by
    intro k l
    rw [h4 k]
    constructor
    · intro h
      split at h
      · rename_i hc
        obtain ⟨hc1, hc2, hc3⟩ := hc
        simp only [Option.some.injEq] at h
        subst h
        exact ⟨hc1, hc2, diffSingleRecord_spec rt A B o hA.wf.1 hB.wf.1 hA.wf.2 k hc1 hc2, hc3⟩
      · exact absurd h (by simp)
    · rintro ⟨hc1, hc2, hc3, hc4⟩
      rw [diffSingleRecord_spec rt A B o hA.wf.1 hB.wf.1 hA.wf.2 k hc1 hc2] at hc3
      simp only [Except.ok.injEq] at hc3
      subst hc3
      simp [hc1, hc2, hc4]
  refine ⟨d, h1, hkey, ?_, ?_, ?_, h5⟩
  · intro k hk
    exact ((hkey k []).1 hk).2.2.2 rfl
  · intro k
    rw [← GoMap.get?_isSome_iff, Option.isSome_iff_exists]
    constructor
    · rintro ⟨l, hl⟩
      obtain ⟨a, b, c, e⟩ := (hkey k l).1 hl
      exact ⟨a, b, l, c, e⟩
    · rintro ⟨a, b, l, c, e⟩
      exact ⟨l, (hkey k l).2 ⟨a, b, c, e⟩⟩
  · intro k hk hk'
    exact ⟨_, diffSingleRecord_spec rt A B o hA.wf.1 hB.wf.1 hA.wf.2 k hk hk'⟩


/-- Witness of C2 on the inputs of the test "row changed": from `a,b / 1,2`,
to `a,b / 1,3`, key column `a`; `Compare` returns `Changed = {"1": ["b"]}`. -/
theorem diffAllRecords_changed_witness :
    Loaded plainRuntime "a,b\n1,2" (defaultOptions ["a"]) tableOneRow ∧
    Loaded plainRuntime "a,b\n1,3" (defaultOptions ["a"]) tableChangedRow ∧
    (∃ d, tableOneRow.diffAllRecords plainRuntime tableChangedRow = .ok d ∧
      (∀ k l, d.Changed.get? k = some l ↔
        k ∈ tableOneRow.records.keys ∧ k ∈ tableChangedRow.records.keys ∧
          tableOneRow.diffSingleRecord plainRuntime k tableChangedRow = .ok l ∧ l ≠ []) ∧
      (∀ k, d.Changed.get? k ≠ some []) ∧
      (∀ k, k ∈ d.Changed.keys ↔
        k ∈ tableOneRow.records.keys ∧ k ∈ tableChangedRow.records.keys ∧
          ∃ l, tableOneRow.diffSingleRecord plainRuntime k tableChangedRow = .ok l ∧ l ≠ []) ∧
      (∀ k, k ∈ tableOneRow.records.keys → k ∈ tableChangedRow.records.keys →
        ∃ l, tableOneRow.diffSingleRecord plainRuntime k tableChangedRow = .ok l) ∧
      d.Changed.keys.Nodup) ∧
    Compare plainRuntime (some "a,b\n1,2") (some "a,b\n1,3") (some (defaultOptions ["a"])) =
      .ok ({ AddedRow := [], RemovedRow := [], Changed := [("1", ["b"])] }, none) :=
  ⟨⟨⟨_, rfl, by decide⟩, rfl⟩, ⟨⟨_, rfl, by decide⟩, rfl⟩,
    diffAllRecords_changed plainRuntime "a,b\n1,2" "a,b\n1,3" (defaultOptions ["a"])
      (defaultOptions ["a"]) tableOneRow tableChangedRow ⟨⟨_, rfl, by decide⟩, rfl⟩
      ⟨⟨_, rfl, by decide⟩, rfl⟩,
    by decide⟩

/-- C3: for two loaded tables and a key of both, `diffSingleRecord` returns the
header union `OrderedSet(from.headers, to.headers)` filtered to the headers
that are not (resolved on both sides with the from-table's equality predicate
holding of the two values); every value it reads is in range. -/
theorem diffSingleRecord_eq_spec (rt : Runtime) (f g : String) (o o' : Options)
    (A B : csvData) (hA : Loaded rt f o A) (hB : Loaded rt g o' B) (k : String)
    (hkA : k ∈ A.records.keys) (hkB : k ∈ B.records.keys) :
    A.diffSingleRecord rt k B = .ok (changedFieldsSpec (o.getComparator rt) A k B) ∧
      (∀ h i, A.headerMap.get? h = some i → field A.records k i = .ok (cell A k i)) ∧
      (∀ h i, B.headerMap.get? h = some i → field B.records k i = .ok (cell B k i)) :=
  ⟨diffSingleRecord_spec rt A B o hA.wf.1 hB.wf.1 hA.wf.2 k hkA hkB,
    field_ok A hA.wf.1 k hkA, field_ok B hB.wf.1 k hkB⟩

/-- Witness of C3: from `a,b / 1,2`, to `a,b / 1,3`, key `1`; the field diff
is `["b"]`. -/
theorem diffSingleRecord_eq_spec_witness :
    Loaded plainRuntime "a,b\n1,2" (defaultOptions ["a"]) tableOneRow ∧
    Loaded plainRuntime "a,b\n1,3" (defaultOptions ["a"]) tableChangedRow ∧
    "1" ∈ tableOneRow.records.keys ∧ "1" ∈ tableChangedRow.records.keys ∧
    (tableOneRow.diffSingleRecord plainRuntime "1" tableChangedRow =
        .ok (changedFieldsSpec ((defaultOptions ["a"]).getComparator plainRuntime)
          tableOneRow "1" tableChangedRow) ∧
      (∀ h i, tableOneRow.headerMap.get? h = some i →
        field tableOneRow.records "1" i = .ok (cell tableOneRow "1" i)) ∧
      (∀ h i, tableChangedRow.headerMap.get? h = some i →
        field tableChangedRow.records "1" i = .ok (cell tableChangedRow "1" i))) ∧
    tableOneRow.diffSingleRecord plainRuntime "1" tableChangedRow = .ok ["b"] :=
  ⟨⟨⟨_, rfl, by decide⟩, rfl⟩, ⟨⟨_, rfl, by decide⟩, rfl⟩, by decide, by decide,
    diffSingleRecord_eq_spec plainRuntime "a,b\n1,2" "a,b\n1,3" (defaultOptions ["a"])
      (defaultOptions ["a"]) tableOneRow tableChangedRow ⟨⟨_, rfl, by decide⟩, rfl⟩
      ⟨⟨_, rfl, by decide⟩, rfl⟩ "1" (by decide) (by decide),
    by decide⟩

/-- C4: for two loaded tables the added keys of `diff(A, B)` are the removed
keys of `diff(B, A)` and the removed keys of `diff(A, B)` are the added keys
of `diff(B, A)`: the same keys, each once. -/
theorem diffAllRecords_symmetric (rt : Runtime) (f g : String) (o o' : Options)
    (A B : csvData) (hA : Loaded rt f o A) (hB : Loaded rt g o' B) :
    ∃ d d', A.diffAllRecords rt B = .ok d ∧ B.diffAllRecords rt A = .ok d' ∧
      d.AddedRow.Perm d'.RemovedRow ∧ d.RemovedRow.Perm d'.AddedRow ∧
      (∀ k, k ∈ d.AddedRow ↔ k ∈ d'.RemovedRow) ∧
      (∀ k, k ∈ d.RemovedRow ↔ k ∈ d'.AddedRow) := by
  obtain ⟨d, h1, h2, h3, _, _⟩ := diffAllRecords_spec rt A B o hA.wf.1 hB.wf.1 hA.wf.2
  obtain ⟨d', h1', h2', h3', _, _⟩ := diffAllRecords_spec rt B A o' hB.wf.1 hA.wf.1 hB.wf.2
  have e1 : d.AddedRow = d'.RemovedRow := by rw [h2, h3']
  have e2 : d.RemovedRow = d'.AddedRow := by rw [h3, h2']
  exact ⟨d, d', h1, h1', e1 ▸ List.Perm.refl _, e2 ▸ List.Perm.refl _,
    fun k => by rw [e1], fun k => by rw [e2]⟩

/-- Witness of C4: from `a,b / 1,2`, to `a,b / 1,2 / 3,4`, key column `a`. -/
theorem diffAllRecords_symmetric_witness :
    Loaded plainRuntime "a,b\n1,2" (defaultOptions ["a"]) tableOneRow ∧
    Loaded plainRuntime "a,b\n1,2\n3,4" (defaultOptions ["a"]) tableTwoRows ∧
    ∃ d d', tableOneRow.diffAllRecords plainRuntime tableTwoRows = .ok d ∧
      tableTwoRows.diffAllRecords plainRuntime tableOneRow = .ok d' ∧
      d.AddedRow.Perm d'.RemovedRow ∧ d.RemovedRow.Perm d'.AddedRow ∧
      (∀ k, k ∈ d.AddedRow ↔ k ∈ d'.RemovedRow) ∧
      (∀ k, k ∈ d.RemovedRow ↔ k ∈ d'.AddedRow) :=
  ⟨⟨⟨_, rfl, by decide⟩, rfl⟩, ⟨⟨_, rfl, by decide⟩, rfl⟩,
    diffAllRecords_symmetric plainRuntime "a,b\n1,2" "a,b\n1,2\n3,4" (defaultOptions ["a"])
      (defaultOptions ["a"]) tableOneRow tableTwoRows ⟨⟨_, rfl, by decide⟩, rfl⟩
      ⟨⟨_, rfl, by decide⟩, rfl⟩⟩

/-- C5: a table loaded with options that have no custom comparator, diffed
against itself, gives no added key, no removed key and an empty `Changed`
map; the header may repeat a column name. -/
theorem diffAllRecords_self (rt : Runtime) (f : String) (o : Options) (A : csvData)
    (hA : Loaded rt f o A) (hcmp : o.Comparator = none) :
    A.diffAllRecords rt A = .ok { AddedRow := [], RemovedRow := [], Changed := [] } := by
  obtain ⟨d, h1, h2, h3, h4, _⟩ := diffAllRecords_spec rt A A o hA.wf.1 hA.wf.1 hA.wf.2
  have hfilter : A.records.keys.filter (fun k => !A.records.contains k) = [] := by
    rw [List.filter_eq_nil_iff]
    intro k hk
    simp [(GoMap.contains_iff _ _).2 hk]
  have hchanged : d.Changed = [] := by
    apply GoMap.eq_nil_of_get?_none
    intro k
    rw [h4 k, changedFieldsSpec_self _ (getComparator_refl rt o hcmp) A hA.wf.1 k]
    simp
  rw [h1]
  obtain ⟨a, r, c⟩ := d
  simp only at h2 h3 hchanged
  rw [h2, h3, hchanged, hfilter]

/-- Witness of C5 on a header that repeats a name: `a,b,a / 1,2,3 / 4,5,6`
with key column `a`. -/
theorem diffAllRecords_self_witness :
    Loaded plainRuntime "a,b,a\n1,2,3\n4,5,6" (defaultOptions ["a"]) tableRepeatedHeader ∧
    (defaultOptions ["a"]).Comparator = none ∧
    tableRepeatedHeader.diffAllRecords plainRuntime tableRepeatedHeader =
      .ok { AddedRow := [], RemovedRow := [], Changed := [] } :=
  ⟨⟨⟨_, rfl, by decide⟩, rfl⟩, rfl,
    diffAllRecords_self plainRuntime "a,b,a\n1,2,3\n4,5,6" (defaultOptions ["a"])
      tableRepeatedHeader ⟨⟨_, rfl, by decide⟩, rfl⟩ rfl⟩


/-- C8 (evaluation of the code): with `HasHeader` set and the key column `c`
absent from the header `a,b`, `fromReader` returns the "Invalid column
header" error when a data row follows the header, but returns a table and a
nil error when the input is the header alone, or is empty: the key columns
are only resolved inside the loop over the data rows. -/
theorem fromReader_invalid_key_header_only :
    fromReader plainRuntime (some "a,b\n1,2") (some (defaultOptions ["c"])) =
        .ok ({ headers := ["a", "b"], headerMap := [("a", 0), ("b", 1)], records := [],
               opt := some (defaultOptions ["c"]) },
          some "Invalid column header: c. Available headers: [a b]") ∧
      fromReader plainRuntime (some "a,b") (some (defaultOptions ["c"])) =
        .ok ({ headers := ["a", "b"], headerMap := [("a", 0), ("b", 1)], records := [],
               opt := some (defaultOptions ["c"]) }, none) ∧
      fromReader plainRuntime (some "") (some (defaultOptions ["c"])) =
        .ok ({ headers := [], headerMap := [], records := [],
               opt := some (defaultOptions ["c"]) }, none) :=
  ⟨rfl, rfl, rfl⟩

/-- C9: with no custom comparator and a precision `p > 0`, on two strings
that both parse as numbers the predicate is the equality of the two
renderings `Sprintf("%.<p>f", _)`, and flipping `IgnoreCase` does not change
its value. -/
theorem getComparator_numeric (rt : Runtime) (o : Options) (hcmp : o.Comparator = none)
    (hp : o.Precision > 0) (a b : String) (x y : rt.F)
    (ha : rt.ParseFloat a = some x) (hb : rt.ParseFloat b = some y) :
    o.getComparator rt a b = (rt.Sprintf o.Precision x == rt.Sprintf o.Precision y) ∧
      o.getComparator rt a b =
        Options.getComparator rt { o with IgnoreCase := !o.IgnoreCase } a b := by
  have h2 : ({ o with IgnoreCase := !o.IgnoreCase } : Options).Comparator = none := hcmp
  rw [getComparator_default rt o hcmp, getComparator_default rt _ h2]
  simp [ha, hb, hp]

/-- Witness of C9 on the values of the test "precision massages floats":
`2.456789` and `2.487651` both render as `2.5` at precision 1. -/
theorem getComparator_numeric_witness :
    ({ defaultOptions ["a"] with Precision := 1 } : Options).Comparator = none ∧
    ({ defaultOptions ["a"] with Precision := 1 } : Options).Precision > 0 ∧
    plainRuntime.ParseFloat "2.456789" = some ⟨false, 2456789, 6⟩ ∧
    plainRuntime.ParseFloat "2.487651" = some ⟨false, 2487651, 6⟩ ∧
    plainRuntime.Sprintf 1 ⟨false, 2456789, 6⟩ = "2.5" ∧
    plainRuntime.Sprintf 1 ⟨false, 2487651, 6⟩ = "2.5" ∧
    (Options.getComparator plainRuntime { defaultOptions ["a"] with Precision := 1 }
        "2.456789" "2.487651" =
        (plainRuntime.Sprintf 1 ⟨false, 2456789, 6⟩ == plainRuntime.Sprintf 1 ⟨false, 2487651, 6⟩) ∧
      Options.getComparator plainRuntime { defaultOptions ["a"] with Precision := 1 }
        "2.456789" "2.487651" =
        Options.getComparator plainRuntime
          { defaultOptions ["a"] with Precision := 1, IgnoreCase := true }
          "2.456789" "2.487651") ∧
    Options.getComparator plainRuntime { defaultOptions ["a"] with Precision := 1 }
      "2.456789" "2.487651" = true :=
  ⟨rfl, by decide, rfl, rfl, by decide, by decide,
    getComparator_numeric plainRuntime { defaultOptions ["a"] with Precision := 1 } rfl
      (by decide) "2.456789" "2.487651" ⟨false, 2456789, 6⟩ ⟨false, 2487651, 6⟩ rfl rfl,
    by decide⟩

/-- C10: with no custom comparator, when the precision is 0 (or negative) or
one of the two values does not parse as a number, the predicate is the
equality of the lower-cased strings if `IgnoreCase` is set and exact string
equality otherwise; so with precision 0 and `IgnoreCase` unset it is string
equality, and `1.0` against `1.00` is a change. -/
theorem getComparator_textual (rt : Runtime) (o : Options) (hcmp : o.Comparator = none)
    (a b : String)
    (h : o.Precision ≤ 0 ∨ rt.ParseFloat a = none ∨ rt.ParseFloat b = none) :
    o.getComparator rt a b = (if o.IgnoreCase then rt.ToLower a == rt.ToLower b else a == b) ∧
      (o.IgnoreCase = false → o.getComparator rt a b = decide (a = b)) ∧
      (o.Precision = 0 → o.IgnoreCase = false → o.getComparator rt "1.0" "1.00" = false) := by
  have key : ∀ a b : String,
      (o.Precision ≤ 0 ∨ rt.ParseFloat a = none ∨ rt.ParseFloat b = none) →
      o.getComparator rt a b =
        (if o.IgnoreCase then rt.ToLower a == rt.ToLower b else a == b) := by
    intro a b h
    rw [getComparator_default rt o hcmp]
    split
    · rename_i x y hx hy hp
      rcases h with h | h | h
      · simp only [gt_iff_lt, decide_eq_true_eq] at hp
        omega
      · simp [h] at hx
      · simp [h] at hy
    · rfl
  refine ⟨key a b h, ?_, ?_⟩
  · intro hic
    rw [key a b h]
    simp only [hic, Bool.false_eq_true, if_false]
    rfl
  · intro hp hic
    rw [key "1.0" "1.00" (Or.inl (le_of_eq hp))]
    simp [hic]

/-- Witness of C10: precision 0 and `IgnoreCase` unset; `1.0` and `1.00` both
parse as numbers and are still compared as strings. -/
theorem getComparator_textual_witness :
    (defaultOptions ["a"]).Comparator = none ∧
    ((defaultOptions ["a"]).Precision ≤ 0 ∨ plainRuntime.ParseFloat "1.0" = none ∨
      plainRuntime.ParseFloat "1.00" = none) ∧
    ((defaultOptions ["a"]).getComparator plainRuntime "1.0" "1.00" =
        (if (defaultOptions ["a"]).IgnoreCase
          then plainRuntime.ToLower "1.0" == plainRuntime.ToLower "1.00" else "1.0" == "1.00") ∧
      ((defaultOptions ["a"]).IgnoreCase = false →
        (defaultOptions ["a"]).getComparator plainRuntime "1.0" "1.00" =
          decide ("1.0" = "1.00")) ∧
      ((defaultOptions ["a"]).Precision = 0 → (defaultOptions ["a"]).IgnoreCase = false →
        (defaultOptions ["a"]).getComparator plainRuntime "1.0" "1.00" = false)) ∧
    (defaultOptions ["a"]).getComparator plainRuntime "1.0" "1.00" = false ∧
    plainRuntime.ParseFloat "1.0" = some ⟨false, 10, 1⟩ ∧
    plainRuntime.ParseFloat "1.00" = some ⟨false, 100, 2⟩ :=
  ⟨rfl, Or.inl (by decide),
    getComparator_textual plainRuntime (defaultOptions ["a"]) rfl "1.0" "1.00"
      (Or.inl (by decide)),
    by decide, rfl, rfl⟩


/-! ## Composite keys and the stored records -/

theorem getKey_loop_congr (c c' : csvData) (hm : c.headerMap = c'.headerMap)
    (hh : c.headers = c'.headers) (r cols key : List String) :
    getKey.loop c r cols key = getKey.loop c' r cols key := by
  induction cols generalizing key with
  | nil => simp [getKey.loop]
  | cons col rest ih =>
    unfold getKey.loop
    rw [← hm, ← hh]
    cases c.headerMap.get? col with
    | none => rfl
    | some i =>
      simp only
      cases index r i with
      | error p => rfl
      | ok v => exact ih _

theorem keyError_congr (c c' : csvData) (hm : c.headerMap = c'.headerMap)
    (hh : c.headers = c'.headers) (cols : List String) : keyError c cols = keyError c' cols := by
  induction cols with
  | nil => rfl
  | cons col rest ih =>
    unfold keyError
    rw [← hm, ← hh, ih]

theorem storedKey_congr (rt : Runtime) (opt : Options) (c c' : csvData)
    (hm : c.headerMap = c'.headerMap) (hh : c.headers = c'.headers) :
    storedKey rt opt c = storedKey rt opt c' := by
  funext r
  simp [storedKey, csvData.getKey, getKey_loop_congr c c' hm hh]

theorem getKey_loop_spec (c : csvData) (record : List String)
    (hlen : ∀ e ∈ c.headerMap, e.2 < record.length) (cols key : List String) :
    getKey.loop c record cols key =
      match keyError c cols with
      | some e => .ok ("", some e)
      | none => .ok (",".intercalate (key ++ cols.map (columnValue c record)), none) := by
  induction cols generalizing key with
  | nil => simp [getKey.loop, keyError]
  | cons col rest ih =>
    unfold getKey.loop keyError
    cases hg : c.headerMap.get? col with
    | none => rfl
    | some i =>
      have hlt : i < record.length := hlen _ (GoMap.get?_mem _ _ _ hg)
      have hidx : index record i = .ok (columnValue c record col) := by
        simp [index, columnValue, hg, List.getElem?_eq_getElem hlt, List.getD_eq_getElem _ _ hlt]
      simp only [hidx, ih]
      cases keyError c rest with
      | some e => rfl
      | none => simp

theorem storedKey_spec (rt : Runtime) (opt : Options) (c : csvData) (record : List String)
    (hlen : ∀ e ∈ c.headerMap, e.2 < record.length) :
    storedKey rt opt c record =
      match keyError c opt.KeyColumns with
      | some _ => none
      | none =>
        some (if opt.IgnoreCase
          then rt.ToLower (",".intercalate (opt.KeyColumns.map (columnValue c record)))
          else ",".intercalate (opt.KeyColumns.map (columnValue c record))) := by
  unfold storedKey csvData.getKey
  rw [getKey_loop_spec c record hlen]
  cases keyError c opt.KeyColumns with
  | some e => rfl
  | none => simp

theorem recordLoop_error (rt : Runtime) (opt : Options) (c : csvData) (r : List String)
    (rest : List (List String)) (hlen : ∀ e ∈ c.headerMap, e.2 < r.length) (e : String)
    (hkey : keyError c opt.KeyColumns = some e) :
    fromReader.recordLoop rt opt c (r :: rest) = .ok (c, some e) := by
  unfold fromReader.recordLoop csvData.getKey
  rw [getKey_loop_spec c r hlen, hkey]

theorem recordLoop_ok (rt : Runtime) (opt : Options) (rows : List (List String)) (c : csvData)
    (hlen : ∀ r ∈ rows, ∀ e ∈ c.headerMap, e.2 < r.length)
    (hkey : keyError c opt.KeyColumns = none) :
    ∃ c', fromReader.recordLoop rt opt c rows = .ok (c', none) ∧
      c'.headers = c.headers ∧ c'.headerMap = c.headerMap ∧ c'.opt = c.opt ∧
      ∀ k, c'.records.get? k =
        match lastWithKey (storedKey rt opt c) rows k with
        | some r => some r
        | none => c.records.get? k := by
  induction rows generalizing c with
  | nil => exact ⟨c, by simp [fromReader.recordLoop, lastWithKey]⟩
  | cons r rest ih =>
    have hr := hlen r (List.mem_cons_self _ _)
    have hsk := storedKey_spec rt opt c r hr
    rw [hkey] at hsk
    simp only at hsk
    unfold fromReader.recordLoop csvData.getKey
    rw [getKey_loop_spec c r hr, hkey]
    simp only [List.nil_append]
    generalize (if opt.IgnoreCase = true
      then rt.ToLower (",".intercalate (opt.KeyColumns.map (columnValue c r)))
      else ",".intercalate (opt.KeyColumns.map (columnValue c r))) = key at hsk ⊢
    have hkey' : keyError { c with records := c.records.set key r } opt.KeyColumns = none :=
      (keyError_congr { c with records := c.records.set key r } c rfl rfl _).trans hkey
    have hsc : storedKey rt opt { c with records := c.records.set key r } = storedKey rt opt c :=
      storedKey_congr rt opt _ c rfl rfl
    obtain ⟨c', h1, h2, h3, h4, h5⟩ :=
      ih { c with records := c.records.set key r }
        (fun r' hr' => hlen r' (List.mem_cons_of_mem _ hr')) hkey'
    refine ⟨c', h1, h2, h3, h4, fun k => ?_⟩
    rw [h5 k, hsc]
    simp only [lastWithKey]
    cases lastWithKey (storedKey rt opt c) rest k with
    | some x => rfl
    | none =>
      simp only [GoMap.get?_set, hsk, Option.some.injEq]
      split <;> rfl

theorem lastWithKey_mem (keyOf : List String → Option String) (rows : List (List String))
    (k : String) (r : List String) (h : lastWithKey keyOf rows k = some r) :
    r ∈ rows ∧ keyOf r = some k := by
  induction rows with
  | nil => simp [lastWithKey] at h
  | cons r0 rest ih =>
    simp only [lastWithKey] at h
    cases hl : lastWithKey keyOf rest k with
    | some x =>
      simp only [hl, Option.some.injEq] at h
      subst h
      exact ⟨List.mem_cons_of_mem _ (ih hl).1, (ih hl).2⟩
    | none =>
      simp only [hl] at h
      split at h
      · rename_i hk
        simp only [Option.some.injEq] at h
        subst h
        exact ⟨List.mem_cons_self _ _, hk⟩
      · exact absurd h (by simp)

theorem lastWithKey_isSome (keyOf : List String → Option String) (rows : List (List String))
    (k : String) (r : List String) (hr : r ∈ rows) (hk : keyOf r = some k) :
    ∃ r', lastWithKey keyOf rows k = some r' := by
  induction rows with
  | nil => simp at hr
  | cons r0 rest ih =>
    simp only [lastWithKey]
    cases hl : lastWithKey keyOf rest k with
    | some x => exact ⟨x, rfl⟩
    | none =>
      rcases List.mem_cons.1 hr with h | h
      · subst h
        exact ⟨r, by simp [hk]⟩
      · obtain ⟨r', hr'⟩ := ih h
        rw [hl] at hr'
        exact absurd hr' (by simp)

theorem lastWithKey_map (keyOf keyOf' : List String → Option String)
    (g : List String → List String) (rows : List (List String))
    (h : ∀ r ∈ rows, keyOf' (g r) = keyOf r) (k : String) :
    lastWithKey keyOf' (rows.map g) k = (lastWithKey keyOf rows k).map g := by
  induction rows with
  | nil => simp [lastWithKey]
  | cons r0 rest ih =>
    simp only [List.map_cons, lastWithKey, ih (fun r hr => h r (List.mem_cons_of_mem _ hr)),
      h r0 (List.mem_cons_self _ _)]
    cases lastWithKey keyOf rest k with
    | some x => rfl
    | none =>
      simp only [Option.map_none']
      split <;> rfl

/-- Rows that are permutations of each other and have pairwise distinct keys
induce the same key-to-row mapping. -/
theorem lastWithKey_perm (keyOf : List String → Option String) (rows rows' : List (List String))
    (hperm : rows.Perm rows') (hnd : (rows.map keyOf).Nodup) (k : String) :
    lastWithKey keyOf rows k = lastWithKey keyOf rows' k := by
  have hinj := List.inj_on_of_nodup_map hnd
  cases h1 : lastWithKey keyOf rows k with
  | some r =>
    obtain ⟨hr, hk⟩ := lastWithKey_mem keyOf rows k r h1
    obtain ⟨r', hr'⟩ := lastWithKey_isSome keyOf rows' k r (hperm.mem_iff.1 hr) hk
    obtain ⟨hm', hk'⟩ := lastWithKey_mem keyOf rows' k r' hr'
    rw [hr', hinj hr (hperm.mem_iff.2 hm') (hk.trans hk'.symm)]
  | none =>
    cases h2 : lastWithKey keyOf rows' k with
    | none => rfl
    | some r' =>
      obtain ⟨hm', hk'⟩ := lastWithKey_mem keyOf rows' k r' h2
      obtain ⟨r, hr⟩ := lastWithKey_isSome keyOf rows k r' (hperm.mem_iff.2 hm') hk'
      rw [h1] at hr
      exact absurd hr (by simp)


/-! ## Diffing tables that hold the same data -/

theorem SameData.resolves {t t' : csvData} (h : SameData t t') (ht : t.WF) (ht' : t'.WF)
    (x : String) : (t'.headerMap.get? x).isSome = (t.headerMap.get? x).isSome := by
  have h1 := GoMap.get?_isSome_iff t'.headerMap x
  have h2 := GoMap.get?_isSome_iff t.headerMap x
  have h3 : x ∈ t'.headerMap.keys ↔ x ∈ t.headerMap.keys := by
    rw [ht'.resolved, ht.resolved, h.headers]
  cases ha : (t'.headerMap.get? x).isSome <;> cases hb : (t.headerMap.get? x).isSome <;>
    simp_all

theorem changedFieldsSpec_sameData (eq : Comparator) (t t' u u' : csvData)
    (ht : t.WF) (ht' : t'.WF) (hu : u.WF) (hu' : u'.WF)
    (st : SameData t t') (su : SameData u u') (k : String) :
    changedFieldsSpec eq t' k u' =
      (OrderedSet [t'.headers, u'.headers]).filter
        (fun h => decide (h ∈ changedFieldsSpec eq t k u)) := by
  unfold changedFieldsSpec
  apply List.filter_congr
  intro h hh
  have hmem : h ∈ OrderedSet [t.headers, u.headers] := by
    rw [OrderedSet_mem] at hh ⊢
    simpa [st.headers, su.headers] using hh
  have r1 := st.resolves ht ht' h
  have r2 := su.resolves hu hu' h
  simp only [List.mem_filter, hmem, true_and]
  cases h1 : t.headerMap.get? h with
  | none =>
    rw [h1] at r1
    have h1' : t'.headerMap.get? h = none := by simpa using r1
    simp [h1']
  | some ci =>
    rw [h1] at r1
    obtain ⟨ci', h1'⟩ := Option.isSome_iff_exists.1 r1
    cases h2 : u.headerMap.get? h with
    | none =>
      rw [h2] at r2
      have h2' : u'.headerMap.get? h = none := by simpa using r2
      simp [h1', h2']
    | some oi =>
      rw [h2] at r2
      obtain ⟨oi', h2'⟩ := Option.isSome_iff_exists.1 r2
      simp [h1', h2', st.cells k h ci ci' h1 h1', su.cells k h oi oi' h2 h2']

theorem changedFieldsSpec_filter_self (eq : Comparator) (t u : csvData) (k : String) :
    (OrderedSet [t.headers, u.headers]).filter
        (fun h => decide (h ∈ changedFieldsSpec eq t k u)) =
      changedFieldsSpec eq t k u := by
  unfold changedFieldsSpec
  apply List.filter_congr
  intro h hh
  simp [List.mem_filter, hh]

theorem filter_mem_eq_nil_iff (L L' l : List String) (hL : ∀ h, h ∈ L' ↔ h ∈ L)
    (hl : ∀ h ∈ l, h ∈ L) : L'.filter (fun h => decide (h ∈ l)) = [] ↔ l = [] := by
  rw [List.filter_eq_nil_iff]
  constructor
  · intro h
    cases l with
    | nil => rfl
    | cons a b =>
      have := h a ((hL a).2 (hl a (List.mem_cons_self _ _)))
      simp at this
  · intro h
    subst h
    simp

theorem keys_filter_perm (m m' n n' : GoMap (List String)) (hm : m.keys.Nodup)
    (hm' : m'.keys.Nodup) (hk : ∀ k, k ∈ m'.keys ↔ k ∈ m.keys)
    (hn : ∀ k, k ∈ n'.keys ↔ k ∈ n.keys) :
    (m'.keys.filter fun k => !n'.contains k).Perm (m.keys.filter fun k => !n.contains k) := by
  rw [List.perm_ext_iff_of_nodup (hm'.filter _) (hm.filter _)]
  intro k
  have h1 : n'.contains k = n.contains k := by
    have a := GoMap.contains_iff n' k
    have b := GoMap.contains_iff n k
    have c := hn k
    cases ha : n'.contains k <;> cases hb : n.contains k <;> simp_all
  simp [List.mem_filter, hk k, h1]

theorem diffAllRecords_sameData (rt : Runtime) (t t' u u' : csvData) (o : Options)
    (ht : t.WF) (ht' : t'.WF) (hu : u.WF) (hu' : u'.WF) (ho : t.opt = some o)
    (st : SameData t t') (su : SameData u u') :
    ∃ d d', t.diffAllRecords rt u = .ok d ∧ t'.diffAllRecords rt u' = .ok d' ∧
      d'.AddedRow.Perm d.AddedRow ∧ d'.RemovedRow.Perm d.RemovedRow ∧
      (∀ k, d'.Changed.get? k = (d.Changed.get? k).map fun l =>
        (OrderedSet [t'.headers, u'.headers]).filter fun h => decide (h ∈ l)) ∧
      (t'.headers = t.headers → u'.headers = u.headers →
        ∀ k, d'.Changed.get? k = d.Changed.get? k) := by
  obtain ⟨d, h1, h2, h3, h4, _⟩ := diffAllRecords_spec rt t u o ht hu ho
  obtain ⟨d', h1', h2', h3', h4', _⟩ :=
    diffAllRecords_spec rt t' u' o ht' hu' (st.opt.trans ho)
  have hchanged : ∀ k, d'.Changed.get? k = (d.Changed.get? k).map fun l =>
      (OrderedSet [t'.headers, u'.headers]).filter fun h => decide (h ∈ l) := by
    intro k
    have e1 := changedFieldsSpec_sameData (o.getComparator rt) t t' u u' ht ht' hu hu' st su k
    have hL : ∀ h, h ∈ OrderedSet [t'.headers, u'.headers] ↔
        h ∈ OrderedSet [t.headers, u.headers] := by
      intro h
      simp [OrderedSet_mem, st.headers, su.headers]
    have hl : ∀ h ∈ changedFieldsSpec (o.getComparator rt) t k u,
        h ∈ OrderedSet [t.headers, u.headers] := by
      intro h hh
      unfold changedFieldsSpec at hh
      exact (List.mem_filter.1 hh).1
    have e2 := filter_mem_eq_nil_iff _ _ _ hL hl
    rw [h4' k, h4 k, e1]
    simp only [st.keys k, su.keys k]
    by_cases hc : k ∈ t.records.keys ∧ k ∈ u.records.keys ∧
        changedFieldsSpec (o.getComparator rt) t k u ≠ []
    · have hc' : k ∈ t.records.keys ∧ k ∈ u.records.keys ∧
          (OrderedSet [t'.headers, u'.headers]).filter
            (fun h => decide (h ∈ changedFieldsSpec (o.getComparator rt) t k u)) ≠ [] :=
        ⟨hc.1, hc.2.1, fun e => hc.2.2 (e2.1 e)⟩
      rw [if_pos hc, if_pos hc']
      rfl
    · have hc' : ¬ (k ∈ t.records.keys ∧ k ∈ u.records.keys ∧
          (OrderedSet [t'.headers, u'.headers]).filter
            (fun h => decide (h ∈ changedFieldsSpec (o.getComparator rt) t k u)) ≠ []) :=
        fun e => hc ⟨e.1, e.2.1, fun e' => e.2.2 (e2.2 e')⟩
      rw [if_neg hc, if_neg hc']
      rfl
  refine ⟨d, d', h1, h1', ?_, ?_, hchanged, ?_⟩
  · rw [h2, h2']
    exact keys_filter_perm _ _ _ _ hu.keys_nodup hu'.keys_nodup su.keys st.keys
  · rw [h3, h3']
    exact keys_filter_perm _ _ _ _ ht.keys_nodup ht'.keys_nodup st.keys su.keys
  · intro e1 e2 k
    rw [hchanged k, e1, e2, h4 k]
    split
    · simp [changedFieldsSpec_filter_self]
    · rfl


/-! ## Loading an input that has a header row -/

theorem headerTable_index_lt (opt : Options) (hdr : List String) (rows : List (List String))
    (hrect : Rectangular (hdr :: rows)) :
    ∀ r ∈ rows, ∀ e ∈ (headerTable opt hdr).headerMap, e.2 < r.length := by
  intro r hr e he
  rcases headerLoop_mem _ _ _ _ he with h | h
  · simp at h
  · have := hrect r (List.mem_cons_of_mem _ hr) hdr (List.mem_cons_self _ _)
    omega

theorem fromReader_header_eq (rt : Runtime) (opt : Options) (f : String) (hdr : List String)
    (rows : List (List String)) (hh : opt.HasHeader = true)
    (hread : rt.ReadAll f opt.Separator opt.LazyQuotes = .ok (hdr :: rows)) :
    fromReader rt (some f) (some opt) =
      fromReader.recordLoop rt opt (headerTable opt hdr) rows := by
  simp only [fromReader, hread, fromReader.fromRows, hh]
  rfl

theorem fromReader_header_ok (rt : Runtime) (opt : Options) (f : String) (hdr : List String)
    (rows : List (List String)) (hh : opt.HasHeader = true)
    (hread : rt.ReadAll f opt.Separator opt.LazyQuotes = .ok (hdr :: rows))
    (hrect : Rectangular (hdr :: rows))
    (hkey : keyError (headerTable opt hdr) opt.KeyColumns = none) :
    ∃ t, fromReader rt (some f) (some opt) = .ok (t, none) ∧ t.headers = hdr ∧
      t.headerMap = (headerTable opt hdr).headerMap ∧ t.opt = some opt ∧
      ∀ k, t.records.get? k = lastWithKey (storedKey rt opt (headerTable opt hdr)) rows k := by
  obtain ⟨t, h1, h2, h3, h4, h5⟩ := recordLoop_ok rt opt rows (headerTable opt hdr)
    (headerTable_index_lt opt hdr rows hrect) hkey
  refine ⟨t, (fromReader_header_eq rt opt f hdr rows hh hread).trans h1, h2, h3, h4, ?_⟩
  intro k
  rw [h5 k]
  cases lastWithKey (storedKey rt opt (headerTable opt hdr)) rows k with
  | some r => rfl
  | none => rfl

theorem fromReader_header_error (rt : Runtime) (opt : Options) (f : String)
    (hdr : List String) (rows : List (List String)) (hh : opt.HasHeader = true)
    (hread : rt.ReadAll f opt.Separator opt.LazyQuotes = .ok (hdr :: rows))
    (hrect : Rectangular (hdr :: rows)) (e : String)
    (hkey : keyError (headerTable opt hdr) opt.KeyColumns = some e) :
    fromReader rt (some f) (some opt) =
      .ok (headerTable opt hdr, if rows.isEmpty then none else some e) := by
  rw [fromReader_header_eq rt opt f hdr rows hh hread]
  cases rows with
  | nil => rfl
  | cons r rest =>
    exact recordLoop_error rt opt _ r rest
      (headerTable_index_lt opt hdr (r :: rest) hrect r (List.mem_cons_self _ _)) e hkey

theorem sameData_of_eq (t t' : csvData) (hh : t'.headers = t.headers)
    (hm : t'.headerMap = t.headerMap) (ho : t'.opt = t.opt)
    (hr : ∀ k, t'.records.get? k = t.records.get? k) : SameData t t' := by
  refine ⟨fun h => by rw [hh], fun k => ?_, ho, ?_⟩
  · rw [← GoMap.get?_isSome_iff, ← GoMap.get?_isSome_iff, hr k]
  · intro k h i i' h1 h2
    rw [hm, h1] at h2
    simp only [Option.some.injEq] at h2
    subst h2
    simp [cell, hr k]


/-! ## Row reordering -/

theorem Rectangular.perm {rows rows' : List (List String)} (h : Rectangular rows)
    (hperm : rows.Perm rows') : Rectangular rows' :=
  fun r hr r' hr' => h r (hperm.mem_iff.2 hr) r' (hperm.mem_iff.2 hr')

theorem load_rowReordered (rt : Runtime) (opt : Options) (f f' : String)
    (hh : opt.HasHeader = true) (hf : RowReordered rt opt f f') :
    ∃ t t' e, fromReader rt (some f) (some opt) = .ok (t, e) ∧
      fromReader rt (some f') (some opt) = .ok (t', e) ∧
      t'.headers = t.headers ∧ t'.headerMap = t.headerMap ∧ t'.opt = t.opt ∧
      (∀ k, t'.records.get? k = t.records.get? k) ∧
      (e = none → Loaded rt f opt t ∧ Loaded rt f' opt t') := by
  obtain ⟨hdr, rows, rows', hr, hr', hrect, hperm, hmap⟩ := hf
  have hrect' : Rectangular (hdr :: rows') := hrect.perm (List.Perm.cons hdr hperm)
  cases hkey : keyError (headerTable opt hdr) opt.KeyColumns with
  | none =>
    obtain ⟨t, h1, h2, h3, h4, h5⟩ := fromReader_header_ok rt opt f hdr rows hh hr hrect hkey
    obtain ⟨t', h1', h2', h3', h4', h5'⟩ :=
      fromReader_header_ok rt opt f' hdr rows' hh hr' hrect' hkey
    refine ⟨t, t', none, h1, h1', h2'.trans h2.symm, h3'.trans h3.symm, h4'.trans h4.symm, ?_, ?_⟩
    · intro k
      rw [h5 k, h5' k, hmap k]
    · intro _
      exact ⟨⟨⟨_, hr, hrect⟩, h1⟩, ⟨⟨_, hr', hrect'⟩, h1'⟩⟩
  | some e =>
    have h1 := fromReader_header_error rt opt f hdr rows hh hr hrect e hkey
    have h1' := fromReader_header_error rt opt f' hdr rows' hh hr' hrect' e hkey
    have hemp : rows'.isEmpty = rows.isEmpty := by
      have := hperm.length_eq
      cases rows <;> cases rows' <;> simp_all
    rw [hemp] at h1'
    refine ⟨_, _, _, h1, h1', rfl, rfl, rfl, fun k => rfl, ?_⟩
    intro he
    exact ⟨⟨⟨_, hr, hrect⟩, he ▸ h1⟩, ⟨⟨_, hr', hrect'⟩, he ▸ h1'⟩⟩

/-- C7 (as amended): when two inputs have the same header row and data rows
that are permutations of each other inducing the same mapping from stored
key to row, the stored key of a row being its composite key, lower-cased
when `IgnoreCase` is set, `fromReader` returns the same error value and
tables with the same header, the same header index and the same record under
every key; hence `Compare` on row-reordered from- and to-inputs returns the
same error value, the same added keys, the same removed keys and the same
`Changed` map.  Rows with pairwise distinct stored keys induce the same
mapping in every order. -/
theorem fromReader_row_order (rt : Runtime) (opt : Options) (f f' g g' : String)
    (hh : opt.HasHeader = true) (hf : RowReordered rt opt f f')
    (hg : RowReordered rt opt g g') :
    (∃ t t' e, fromReader rt (some f) (some opt) = .ok (t, e) ∧
      fromReader rt (some f') (some opt) = .ok (t', e) ∧
      t'.headers = t.headers ∧ t'.headerMap = t.headerMap ∧
      ∀ k, t'.records.get? k = t.records.get? k) ∧
    (∃ d d' e, Compare rt (some f) (some g) (some opt) = .ok (d, e) ∧
      Compare rt (some f') (some g') (some opt) = .ok (d', e) ∧
      d'.AddedRow.Perm d.AddedRow ∧ d'.RemovedRow.Perm d.RemovedRow ∧
      ∀ k, d'.Changed.get? k = d.Changed.get? k) ∧
    (∀ (hdr : List String) (rows rows' : List (List String)), rows.Perm rows' →
      (rows.map (storedKey rt opt (headerTable opt hdr))).Nodup →
      ∀ k, lastWithKey (storedKey rt opt (headerTable opt hdr)) rows k =
        lastWithKey (storedKey rt opt (headerTable opt hdr)) rows' k) := by
  obtain ⟨t, t', e, h1, h1', h2, h3, h4, h5, h6⟩ := load_rowReordered rt opt f f' hh hf
  obtain ⟨u, u', e', k1, k1', k2, k3, k4, k5, k6⟩ := load_rowReordered rt opt g g' hh hg
  refine ⟨⟨t, t', e, h1, h1', h2, h3, h5⟩, ?_,
    fun hdr rows rows' hperm hnd k => lastWithKey_perm _ rows rows' hperm hnd k⟩
  cases e with
  | some err =>
    exact ⟨{ AddedRow := [], RemovedRow := [], Changed := [] },
      { AddedRow := [], RemovedRow := [], Changed := [] },
      some ("error parsing from_csv: " ++ err), by simp only [Compare, h1],
      by simp only [Compare, h1'], List.Perm.refl _, List.Perm.refl _, fun k => rfl⟩
  | none =>
    cases e' with
    | some err =>
      exact ⟨{ AddedRow := [], RemovedRow := [], Changed := [] },
        { AddedRow := [], RemovedRow := [], Changed := [] },
        some ("error parsing to_csv: " ++ err), by simp only [Compare, h1, k1],
        by simp only [Compare, h1', k1'], List.Perm.refl _, List.Perm.refl _, fun k => rfl⟩
    | none =>
      obtain ⟨lt, lt'⟩ := h6 rfl
      obtain ⟨lu, lu'⟩ := k6 rfl
      obtain ⟨d, d', a1, a2, a3, a4, _, a6⟩ :=
        diffAllRecords_sameData rt t t' u u' opt lt.wf.1 lt'.wf.1 lu.wf.1 lu'.wf.1 lt.wf.2
          (sameData_of_eq t t' h2 h3 h4 h5) (sameData_of_eq u u' k2 k3 k4 k5)
      exact ⟨d, d', none, by simp only [Compare, h1, k1, a1], by simp only [Compare, h1', k1', a2],
        a3, a4, a6 h2 k2⟩

theorem rowReordered_example :
    RowReordered plainRuntime (defaultOptions ["a"]) "a,b\n1,2\n3,4" "a,b\n3,4\n1,2" :=
  ⟨["a", "b"], [["1", "2"], ["3", "4"]], [["3", "4"], ["1", "2"]], rfl, rfl, by decide,
    by decide, lastWithKey_perm _ _ _ (by decide) (by decide)⟩

/-- C7 fails as stated under `IgnoreCase`.  The rows `HELLO,1` and `hello,2`
have the distinct composite keys `HELLO` and `hello`, and the two inputs list
them in opposite orders; both rows are stored under `hello`, so the first
input loads to `hello: [hello, 2]` and the second to `hello: [HELLO, 1]`, and
`Compare` against `a,b / hello,2` finds no difference for the first and a
change of `b` for the second. -/
theorem fromReader_row_order_counterexample :
    ignoreCaseOptions.IgnoreCase = true ∧
    plainRuntime.ReadAll "a,b\nHELLO,1\nhello,2" ignoreCaseOptions.Separator
      ignoreCaseOptions.LazyQuotes = .ok (["a", "b"] :: [["HELLO", "1"], ["hello", "2"]]) ∧
    plainRuntime.ReadAll "a,b\nhello,2\nHELLO,1" ignoreCaseOptions.Separator
      ignoreCaseOptions.LazyQuotes = .ok (["a", "b"] :: [["hello", "2"], ["HELLO", "1"]]) ∧
    List.Perm [["HELLO", "1"], ["hello", "2"]] [["hello", "2"], ["HELLO", "1"]] ∧
    (headerTable ignoreCaseOptions ["a", "b"]).getKey ignoreCaseOptions.KeyColumns
      ["HELLO", "1"] = .ok ("HELLO", none) ∧
    (headerTable ignoreCaseOptions ["a", "b"]).getKey ignoreCaseOptions.KeyColumns
      ["hello", "2"] = .ok ("hello", none) ∧
    "HELLO" ≠ "hello" ∧
    (∃ t t', fromReader plainRuntime (some "a,b\nHELLO,1\nhello,2") (some ignoreCaseOptions) =
        .ok (t, none) ∧
      fromReader plainRuntime (some "a,b\nhello,2\nHELLO,1") (some ignoreCaseOptions) =
        .ok (t', none) ∧
      t.records = [("hello", ["hello", "2"])] ∧ t'.records = [("hello", ["HELLO", "1"])]) ∧
    Compare plainRuntime (some "a,b\nHELLO,1\nhello,2") (some "a,b\nhello,2")
        (some ignoreCaseOptions) =
      .ok ({ AddedRow := [], RemovedRow := [], Changed := [] }, none) ∧
    Compare plainRuntime (some "a,b\nhello,2\nHELLO,1") (some "a,b\nhello,2")
        (some ignoreCaseOptions) =
      .ok ({ AddedRow := [], RemovedRow := [], Changed := [("hello", ["b"])] }, none) :=
  ⟨rfl, rfl, rfl, by decide, by decide, by decide, by decide,
    ⟨{ headers := ["a", "b"], headerMap := [("a", 0), ("b", 1)],
        records := [("hello", ["hello", "2"])], opt := some ignoreCaseOptions },
      { headers := ["a", "b"], headerMap := [("a", 0), ("b", 1)],
        records := [("hello", ["HELLO", "1"])], opt := some ignoreCaseOptions },
      rfl, rfl, rfl, rfl⟩,
    by decide, by decide⟩

/-- Witness of C7 on the inputs of the test "rows rearranged": `a,b / 1,2 /
3,4` against `a,b / 3,4 / 1,2`, key column `a`; the rows have distinct keys. -/
theorem fromReader_row_order_witness :
    (defaultOptions ["a"]).HasHeader = true ∧
    RowReordered plainRuntime (defaultOptions ["a"]) "a,b\n1,2\n3,4" "a,b\n3,4\n1,2" ∧
    ((∃ t t' e, fromReader plainRuntime (some "a,b\n1,2\n3,4") (some (defaultOptions ["a"])) =
        .ok (t, e) ∧
      fromReader plainRuntime (some "a,b\n3,4\n1,2") (some (defaultOptions ["a"])) =
        .ok (t', e) ∧
      t'.headers = t.headers ∧ t'.headerMap = t.headerMap ∧
      ∀ k, t'.records.get? k = t.records.get? k) ∧
    (∃ d d' e, Compare plainRuntime (some "a,b\n1,2\n3,4") (some "a,b\n1,2\n3,4")
        (some (defaultOptions ["a"])) = .ok (d, e) ∧
      Compare plainRuntime (some "a,b\n3,4\n1,2") (some "a,b\n3,4\n1,2")
        (some (defaultOptions ["a"])) = .ok (d', e) ∧
      d'.AddedRow.Perm d.AddedRow ∧ d'.RemovedRow.Perm d.RemovedRow ∧
      ∀ k, d'.Changed.get? k = d.Changed.get? k) ∧
    (∀ (hdr : List String) (rows rows' : List (List String)), rows.Perm rows' →
      (rows.map (storedKey plainRuntime (defaultOptions ["a"])
        (headerTable (defaultOptions ["a"]) hdr))).Nodup →
      ∀ k, lastWithKey (storedKey plainRuntime (defaultOptions ["a"])
          (headerTable (defaultOptions ["a"]) hdr)) rows k =
        lastWithKey (storedKey plainRuntime (defaultOptions ["a"])
          (headerTable (defaultOptions ["a"]) hdr)) rows' k)) ∧
    Compare plainRuntime (some "a,b\n1,2\n3,4") (some "a,b\n3,4\n1,2")
      (some (defaultOptions ["a"])) =
      .ok ({ AddedRow := [], RemovedRow := [], Changed := [] }, none) :=
  ⟨rfl, rowReordered_example,
    fromReader_row_order plainRuntime (defaultOptions ["a"]) "a,b\n1,2\n3,4" "a,b\n3,4\n1,2"
      "a,b\n1,2\n3,4" "a,b\n3,4\n1,2" rfl rowReordered_example rowReordered_example,
    by decide⟩


/-! ## Column reordering -/

theorem headerLoop_get?_nodup (l : List String) (hl : l.Nodup) (i : Nat) (m : GoMap Nat)
    (h : String) :
    (fromReader.headerLoop l i m).get? h =
      if h ∈ l then some (i + l.indexOf h) else m.get? h := by
  induction l generalizing i m with
  | nil => simp [fromReader.headerLoop]
  | cons col rest ih =>
    rw [List.nodup_cons] at hl
    simp only [fromReader.headerLoop, ih hl.2, GoMap.get?_set, List.mem_cons]
    by_cases h1 : h ∈ rest
    · have hne : col ≠ h := fun e => hl.1 (e ▸ h1)
      simp only [h1, or_true, if_true, List.indexOf_cons_ne _ hne, Option.some.injEq]
      omega
    · by_cases h2 : col = h
      · subst h2
        simp [h1]
      · have h2' : ¬ h = col := fun e => h2 e.symm
        simp [h1, h2, h2']

theorem headerTable_get? (opt : Options) (hdr : List String) (hnd : hdr.Nodup) (h : String) :
    (headerTable opt hdr).headerMap.get? h = if h ∈ hdr then some (hdr.indexOf h) else none := by
  simp [headerTable, headerLoop_get?_nodup hdr hnd, GoMap.get?]

theorem map_getD_range (l : List String) :
    (List.range l.length).map (fun i => l.getD i "") = l := by
  apply List.ext_getElem
  · simp
  · intro n h1 h2
    simp [List.getElem?_eq_getElem h2]

theorem permuteRow_perm (p : List Nat) (hdr : List String)
    (hp : p.Perm (List.range hdr.length)) : (permuteRow p hdr).Perm hdr := by
  have h := hp.map (fun i => hdr.getD i "")
  rw [map_getD_range] at h
  exact h

theorem valueAt_permute (p : List Nat) (hdr r : List String) (col : String)
    (hnd : hdr.Nodup) (hp : p.Perm (List.range hdr.length)) (hcol : col ∈ hdr) :
    (permuteRow p r).getD ((permuteRow p hdr).indexOf col) "" = r.getD (hdr.indexOf col) "" := by
  have hcol' : col ∈ permuteRow p hdr := (permuteRow_perm p hdr hp).mem_iff.2 hcol
  have hj : (permuteRow p hdr).indexOf col < (permuteRow p hdr).length :=
    List.indexOf_lt_length.2 hcol'
  have hjp : (permuteRow p hdr).indexOf col < p.length := by
    simpa [permuteRow] using hj
  have hget : (permuteRow p hdr)[(permuteRow p hdr).indexOf col] = col := List.getElem_indexOf hj
  have hlt : p[(permuteRow p hdr).indexOf col] < hdr.length := by
    have := hp.mem_iff.1 (List.getElem_mem hjp)
    simpa using this
  have hcol2 : hdr[p[(permuteRow p hdr).indexOf col]] = col := by
    have h1 : (permuteRow p hdr)[(permuteRow p hdr).indexOf col] =
        hdr.getD p[(permuteRow p hdr).indexOf col] "" := by
      simp only [permuteRow, List.getElem_map]
    rw [hget, List.getD_eq_getElem _ _ hlt] at h1
    exact h1.symm
  have hidx : hdr.indexOf col = p[(permuteRow p hdr).indexOf col] := by
    have := List.indexOf_getElem hnd _ hlt
    rw [hcol2] at this
    exact this
  have hjr : (permuteRow p hdr).indexOf col < (permuteRow p r).length := by
    simpa [permuteRow] using hjp
  rw [List.getD_eq_getElem _ _ hjr, hidx]
  simp [permuteRow]

theorem keyError_eq_none_iff (c : csvData) (cols : List String) :
    keyError c cols = none ↔ ∀ col ∈ cols, col ∈ c.headerMap.keys := by
  induction cols with
  | nil => simp [keyError]
  | cons col rest ih =>
    unfold keyError
    cases hg : c.headerMap.get? col with
    | none =>
      have : col ∉ c.headerMap.keys := by
        rw [← GoMap.get?_isSome_iff, hg]
        simp
      simp [this]
    | some i =>
      have : col ∈ c.headerMap.keys := by
        rw [← GoMap.get?_isSome_iff, hg]
        rfl
      simp [ih, this]

theorem headerTable_keys (opt : Options) (hdr : List String) (h : String) :
    h ∈ (headerTable opt hdr).headerMap.keys ↔ h ∈ hdr := by
  show h ∈ (fromReader.headerLoop hdr 0 []).keys ↔ h ∈ hdr
  rw [headerLoop_keys]
  simp [GoMap.keys]

theorem storedKey_permute (rt : Runtime) (opt : Options) (p : List Nat) (hdr r : List String)
    (hnd : hdr.Nodup) (hp : p.Perm (List.range hdr.length)) (hr : r.length = hdr.length)
    (hkey : keyError (headerTable opt hdr) opt.KeyColumns = none) :
    storedKey rt opt (headerTable opt (permuteRow p hdr)) (permuteRow p r) =
      storedKey rt opt (headerTable opt hdr) r := by
  have hperm := permuteRow_perm p hdr hp
  have hnd' : (permuteRow p hdr).Nodup := hperm.nodup_iff.2 hnd
  have hcols : ∀ col ∈ opt.KeyColumns, col ∈ hdr := fun col hc =>
    (headerTable_keys opt hdr col).1 ((keyError_eq_none_iff _ _).1 hkey col hc)
  have hkey' : keyError (headerTable opt (permuteRow p hdr)) opt.KeyColumns = none := by
    rw [keyError_eq_none_iff]
    intro col hc
    exact (headerTable_keys opt _ col).2 (hperm.mem_iff.2 (hcols col hc))
  have hlen : ∀ e ∈ (headerTable opt hdr).headerMap, e.2 < r.length := by
    intro e he
    rcases headerLoop_mem _ _ _ _ he with h | h
    · simp at h
    · omega
  have hlen' : ∀ e ∈ (headerTable opt (permuteRow p hdr)).headerMap,
      e.2 < (permuteRow p r).length := by
    intro e he
    rcases headerLoop_mem _ _ _ _ he with h | h
    · simp at h
    · have : (permuteRow p hdr).length = (permuteRow p r).length := by simp [permuteRow]
      omega
  have hmap : opt.KeyColumns.map (columnValue (headerTable opt (permuteRow p hdr))
      (permuteRow p r)) = opt.KeyColumns.map (columnValue (headerTable opt hdr) r) := by
    apply List.map_congr_left
    intro col hc
    have h1 := hcols col hc
    have h2 : col ∈ permuteRow p hdr := hperm.mem_iff.2 h1
    simp only [columnValue, headerTable_get? opt hdr hnd, headerTable_get? opt _ hnd', h1, h2,
      if_true, Option.getD_some]
    exact valueAt_permute p hdr r col hnd hp h1
  rw [storedKey_spec rt opt _ _ hlen, storedKey_spec rt opt _ _ hlen', hkey, hkey', hmap]


theorem keyError_permute (opt : Options) (p : List Nat) (hdr : List String)
    (hp : p.Perm (List.range hdr.length)) :
    keyError (headerTable opt (permuteRow p hdr)) opt.KeyColumns = none ↔
      keyError (headerTable opt hdr) opt.KeyColumns = none := by
  rw [keyError_eq_none_iff, keyError_eq_none_iff]
  simp only [headerTable_keys, (permuteRow_perm p hdr hp).mem_iff]

theorem sameData_permute (opt : Options) (p : List Nat) (hdr : List String) (t t' : csvData)
    (hnd : hdr.Nodup) (hp : p.Perm (List.range hdr.length))
    (h1 : t.headers = hdr) (h2 : t.headerMap = (headerTable opt hdr).headerMap)
    (h1' : t'.headers = permuteRow p hdr)
    (h2' : t'.headerMap = (headerTable opt (permuteRow p hdr)).headerMap)
    (ho : t'.opt = t.opt)
    (hr : ∀ k, t'.records.get? k = (t.records.get? k).map (permuteRow p)) : SameData t t' := by
  have hperm := permuteRow_perm p hdr hp
  have hnd' : (permuteRow p hdr).Nodup := hperm.nodup_iff.2 hnd
  refine ⟨fun h => by rw [h1, h1', hperm.mem_iff], fun k => ?_, ho, ?_⟩
  · rw [← GoMap.get?_isSome_iff, ← GoMap.get?_isSome_iff, hr k]
    simp
  · intro k h i i' hi hi'
    rw [h2, headerTable_get? opt hdr hnd] at hi
    rw [h2', headerTable_get? opt _ hnd'] at hi'
    by_cases hmem : h ∈ hdr
    · have hmem' : h ∈ permuteRow p hdr := hperm.mem_iff.2 hmem
      simp only [hmem, hmem', if_true, Option.some.injEq] at hi hi'
      subst hi
      subst hi'
      simp only [cell, hr k]
      cases t.records.get? k with
      | none => simp
      | some r => exact valueAt_permute p hdr r h hnd hp hmem
    · simp [hmem] at hi

theorem load_columnReordered (rt : Runtime) (opt : Options) (f f' : String)
    (hh : opt.HasHeader = true) (hf : ColumnReordered rt opt f f')
    (hd : DistinctHeader rt opt f) :
    ∃ t t' e e', fromReader rt (some f) (some opt) = .ok (t, e) ∧
      fromReader rt (some f') (some opt) = .ok (t', e') ∧ e'.isSome = e.isSome ∧
      (e = none → Loaded rt f opt t ∧ Loaded rt f' opt t' ∧ SameData t t') := by
  obtain ⟨hdr, rows, p, hr, hr', hrect, hp⟩ := hf
  have hnd := hd hdr rows hr
  rw [List.map_cons] at hr'
  have hrect' : Rectangular (permuteRow p hdr :: rows.map (permuteRow p)) := by
    have hlen : ∀ r ∈ permuteRow p hdr :: rows.map (permuteRow p), r.length = p.length := by
      intro r hr
      rw [← List.map_cons, List.mem_map] at hr
      obtain ⟨r0, _, rfl⟩ := hr
      simp [permuteRow]
    intro r hr r' hr'
    rw [hlen r hr, hlen r' hr']
  have hemp : (rows.map (permuteRow p)).isEmpty = rows.isEmpty := by
    cases rows <;> rfl
  cases hkey : keyError (headerTable opt hdr) opt.KeyColumns with
  | none =>
    have hkey' := (keyError_permute opt p hdr hp).2 hkey
    obtain ⟨t, a1, a2, a3, a4, a5⟩ := fromReader_header_ok rt opt f hdr rows hh hr hrect hkey
    obtain ⟨t', b1, b2, b3, b4, b5⟩ :=
      fromReader_header_ok rt opt f' _ _ hh hr' hrect' hkey'
    refine ⟨t, t', none, none, a1, b1, rfl, fun _ => ⟨⟨⟨_, hr, hrect⟩, a1⟩,
      ⟨⟨_, hr', hrect'⟩, b1⟩, ?_⟩⟩
    apply sameData_permute opt p hdr t t' hnd hp a2 a3 b2 b3 (b4.trans a4.symm)
    intro k
    rw [a5 k, b5 k]
    apply lastWithKey_map
    intro r hr
    exact storedKey_permute rt opt p hdr r hnd hp
      (hrect r (List.mem_cons_of_mem _ hr) hdr (List.mem_cons_self _ _)) hkey
  | some e =>
    cases hkey' : keyError (headerTable opt (permuteRow p hdr)) opt.KeyColumns with
    | none =>
      rw [(keyError_permute opt p hdr hp).1 hkey'] at hkey
      exact absurd hkey (by simp)
    | some e' =>
      have a1 := fromReader_header_error rt opt f hdr rows hh hr hrect e hkey
      have b1 := fromReader_header_error rt opt f' _ _ hh hr' hrect' e' hkey'
      rw [hemp] at b1
      refine ⟨_, _, _, _, a1, b1, ?_, ?_⟩
      · cases rows.isEmpty <;> rfl
      · intro he
        have he' : (if rows.isEmpty = true then none else some e') = none := by
          cases hrows : rows.isEmpty with
          | true => rfl
          | false =>
            rw [hrows] at he
            exact absurd he (by simp)
        refine ⟨⟨⟨_, hr, hrect⟩, he ▸ a1⟩, ⟨⟨_, hr', hrect'⟩, he' ▸ b1⟩, ?_⟩
        exact sameData_permute opt p hdr _ _ hnd hp rfl rfl rfl rfl rfl (fun k => rfl)

theorem changed_eq_spec (rt : Runtime) (t u : csvData) (o : Options) (ht : t.WF) (hu : u.WF)
    (ho : t.opt = some o) (d : DiffRef) (hd : t.diffAllRecords rt u = .ok d) (k : String)
    (l : List String) (h : d.Changed.get? k = some l) :
    l = changedFieldsSpec (o.getComparator rt) t k u := by
  obtain ⟨d0, h1, _, _, h4, _⟩ := diffAllRecords_spec rt t u o ht hu ho
  rw [hd] at h1
  simp only [Except.ok.injEq] at h1
  subst h1
  rw [h4 k] at h
  split at h
  · simpa using h.symm
  · exact absurd h (by simp)


theorem fromReader_headers (rt : Runtime) (opt : Options) (f : String) (hdr : List String)
    (rows : List (List String)) (hh : opt.HasHeader = true)
    (hread : rt.ReadAll f opt.Separator opt.LazyQuotes = .ok (hdr :: rows)) (t : csvData)
    (e : Option String) (hload : fromReader rt (some f) (some opt) = .ok (t, e)) :
    t.headers = hdr := by
  rw [fromReader_header_eq rt opt f hdr rows hh hread] at hload
  exact (recordLoop_spec rt opt rows _ t e hload).1

/-- C6 (as amended): for inputs with a header row of pairwise distinct
names, rearranging the columns of either input, every field moved with its
header cell, leaves unchanged whether `Compare` fails, the added keys, the
removed keys and the keys of `Changed`; each key's changed-field list keeps
the same header names, and it lists them in the first-seen order of the
rearranged header rows: it is `OrderedSet` of the two rearranged header rows
restricted to the names of the list before the rearrangement. -/
theorem Compare_column_order (rt : Runtime) (opt : Options) (f f' g g' : String)
    (hh : opt.HasHeader = true) (hf : ColumnReordered rt opt f f')
    (hg : ColumnReordered rt opt g g') (hdf : DistinctHeader rt opt f)
    (hdg : DistinctHeader rt opt g) :
    ∃ d d' e e', Compare rt (some f) (some g) (some opt) = .ok (d, e) ∧
      Compare rt (some f') (some g') (some opt) = .ok (d', e') ∧ e'.isSome = e.isSome ∧
      d'.AddedRow.Perm d.AddedRow ∧ d'.RemovedRow.Perm d.RemovedRow ∧
      (∀ k, (d.Changed.get? k = none ∧ d'.Changed.get? k = none) ∨
        ∃ l l', d.Changed.get? k = some l ∧ d'.Changed.get? k = some l' ∧ l'.Perm l) ∧
      ∀ hdr' rows' ghdr' grows',
        rt.ReadAll f' opt.Separator opt.LazyQuotes = .ok (hdr' :: rows') →
        rt.ReadAll g' opt.Separator opt.LazyQuotes = .ok (ghdr' :: grows') →
        ∀ k, d'.Changed.get? k = (d.Changed.get? k).map fun l =>
          (OrderedSet [hdr', ghdr']).filter fun h => decide (h ∈ l) := by
  obtain ⟨t, t', e, e', h1, h1', h2, h3⟩ := load_columnReordered rt opt f f' hh hf hdf
  obtain ⟨u, u', x, x', k1, k1', k2, k3⟩ := load_columnReordered rt opt g g' hh hg hdg
  cases e with
  | some err =>
    obtain ⟨err', he'⟩ := Option.isSome_iff_exists.1 (h2.trans rfl)
    subst he'
    exact ⟨{ AddedRow := [], RemovedRow := [], Changed := [] },
      { AddedRow := [], RemovedRow := [], Changed := [] },
      some ("error parsing from_csv: " ++ err), some ("error parsing from_csv: " ++ err'),
      by simp only [Compare, h1], by simp only [Compare, h1'], rfl,
      List.Perm.refl _, List.Perm.refl _, fun k => Or.inl ⟨rfl, rfl⟩,
      fun _ _ _ _ _ _ _ => rfl⟩
  | none =>
    have he' : e' = none := by
      cases e' with
      | none => rfl
      | some a => exact absurd h2 (by simp)
    subst he'
    cases x with
    | some err =>
      obtain ⟨err', hx'⟩ := Option.isSome_iff_exists.1 (k2.trans rfl)
      subst hx'
      exact ⟨{ AddedRow := [], RemovedRow := [], Changed := [] },
        { AddedRow := [], RemovedRow := [], Changed := [] },
        some ("error parsing to_csv: " ++ err), some ("error parsing to_csv: " ++ err'),
        by simp only [Compare, h1, k1], by simp only [Compare, h1', k1'], rfl,
        List.Perm.refl _, List.Perm.refl _, fun k => Or.inl ⟨rfl, rfl⟩,
        fun _ _ _ _ _ _ _ => rfl⟩
    | none =>
      have hx' : x' = none := by
        cases x' with
        | none => rfl
        | some a => exact absurd k2 (by simp)
      subst hx'
      obtain ⟨lt, lt', st⟩ := h3 rfl
      obtain ⟨lu, lu', su⟩ := k3 rfl
      obtain ⟨d, d', a1, a2, a3, a4, a5, _⟩ :=
        diffAllRecords_sameData rt t t' u u' opt lt.wf.1 lt'.wf.1 lu.wf.1 lu'.wf.1 lt.wf.2 st su
      refine ⟨d, d', none, none, by simp only [Compare, h1, k1, a1],
        by simp only [Compare, h1', k1', a2], rfl, a3, a4, fun k => ?_, ?_⟩
      rotate_left
      · intro hdr' rows' ghdr' grows' hread hread' k
        rw [← fromReader_headers rt opt f' hdr' rows' hh hread t' none h1',
          ← fromReader_headers rt opt g' ghdr' grows' hh hread' u' none k1']
        exact a5 k
      cases hk : d.Changed.get? k with
      | none => exact Or.inl ⟨rfl, by rw [a5 k, hk]; rfl⟩
      | some l =>
        refine Or.inr ⟨l, _, rfl, by rw [a5 k, hk]; rfl, ?_⟩
        have hl := changed_eq_spec rt t u opt lt.wf.1 lu.wf.1 lt.wf.2 d a1 k l hk
        have hnd : l.Nodup := by
          rw [hl]
          exact (OrderedSet_nodup _).filter _
        rw [List.perm_ext_iff_of_nodup ((OrderedSet_nodup _).filter _) hnd]
        intro h
        simp only [List.mem_filter, decide_eq_true_eq, and_iff_right_iff_imp]
        intro hm
        rw [hl] at hm
        have hm' := (List.mem_filter.1 hm).1
        rw [OrderedSet_mem] at hm' ⊢
        simpa [st.headers, su.headers] using hm'

/-- C6 fails as stated.  With distinct header names, moving column `c` of the
from-input before column `b` turns the changed-field list of key `1` from
`[b, c]` into `[c, b]`.  With a header that repeats the name `x`, swapping the
two `x` columns of the to-input turns an empty diff into a change of `x`. -/
theorem Compare_column_order_counterexample :
    ColumnReordered plainRuntime (defaultOptions ["a"]) "a,b,c\n1,2,3" "a,c,b\n1,3,2" ∧
    Compare plainRuntime (some "a,b,c\n1,2,3") (some "a,b,c\n1,5,6")
        (some (defaultOptions ["a"])) =
      .ok ({ AddedRow := [], RemovedRow := [], Changed := [("1", ["b", "c"])] }, none) ∧
    Compare plainRuntime (some "a,c,b\n1,3,2") (some "a,b,c\n1,5,6")
        (some (defaultOptions ["a"])) =
      .ok ({ AddedRow := [], RemovedRow := [], Changed := [("1", ["c", "b"])] }, none) ∧
    ColumnReordered plainRuntime (defaultOptions ["a"]) "a,x,x\n1,2,3" "a,x,x\n1,3,2" ∧
    Compare plainRuntime (some "a,x,x\n1,2,3") (some "a,x,x\n1,2,3")
        (some (defaultOptions ["a"])) =
      .ok ({ AddedRow := [], RemovedRow := [], Changed := [] }, none) ∧
    Compare plainRuntime (some "a,x,x\n1,2,3") (some "a,x,x\n1,3,2")
        (some (defaultOptions ["a"])) =
      .ok ({ AddedRow := [], RemovedRow := [], Changed := [("1", ["x"])] }, none) :=
  ⟨⟨["a", "b", "c"], [["1", "2", "3"]], [0, 2, 1], rfl, rfl, by decide, by decide⟩,
    by decide, by decide,
    ⟨["a", "x", "x"], [["1", "2", "3"]], [0, 2, 1], rfl, rfl, by decide, by decide⟩,
    by decide, by decide⟩

theorem columnReordered_identity_example :
    ColumnReordered plainRuntime (defaultOptions ["a"]) "a,b\n1,2\n3,4" "a,b\n1,2\n3,4" :=
  ⟨["a", "b"], [["1", "2"], ["3", "4"]], [0, 1], rfl, rfl, by decide, by decide⟩

theorem columnReordered_swap_example :
    ColumnReordered plainRuntime (defaultOptions ["a"]) "a,b\n1,2\n3,4" "b,a\n2,1\n4,3" :=
  ⟨["a", "b"], [["1", "2"], ["3", "4"]], [1, 0], rfl, rfl, by decide, by decide⟩

theorem distinctHeader_example :
    DistinctHeader plainRuntime (defaultOptions ["a"]) "a,b\n1,2\n3,4" := by
  intro hdr rows h
  have h' : (Except.ok [["a", "b"], ["1", "2"], ["3", "4"]] :
      Except String (List (List String))) = .ok (hdr :: rows) := h
  simp only [Except.ok.injEq, List.cons.injEq] at h'
  rw [← h'.1]
  decide

/-- Witness of C6 on the inputs of the test "columns rearranged": from
`a,b / 1,2 / 3,4`, to `b,a / 2,1 / 4,3`, key column `a`; no differences. -/
theorem Compare_column_order_witness :
    (defaultOptions ["a"]).HasHeader = true ∧
    ColumnReordered plainRuntime (defaultOptions ["a"]) "a,b\n1,2\n3,4" "a,b\n1,2\n3,4" ∧
    ColumnReordered plainRuntime (defaultOptions ["a"]) "a,b\n1,2\n3,4" "b,a\n2,1\n4,3" ∧
    DistinctHeader plainRuntime (defaultOptions ["a"]) "a,b\n1,2\n3,4" ∧
    (∃ d d' e e', Compare plainRuntime (some "a,b\n1,2\n3,4") (some "a,b\n1,2\n3,4")
        (some (defaultOptions ["a"])) = .ok (d, e) ∧
      Compare plainRuntime (some "a,b\n1,2\n3,4") (some "b,a\n2,1\n4,3")
        (some (defaultOptions ["a"])) = .ok (d', e') ∧ e'.isSome = e.isSome ∧
      d'.AddedRow.Perm d.AddedRow ∧ d'.RemovedRow.Perm d.RemovedRow ∧
      (∀ k, (d.Changed.get? k = none ∧ d'.Changed.get? k = none) ∨
        ∃ l l', d.Changed.get? k = some l ∧ d'.Changed.get? k = some l' ∧ l'.Perm l) ∧
      ∀ hdr' rows' ghdr' grows',
        plainRuntime.ReadAll "a,b\n1,2\n3,4" (defaultOptions ["a"]).Separator
          (defaultOptions ["a"]).LazyQuotes = .ok (hdr' :: rows') →
        plainRuntime.ReadAll "b,a\n2,1\n4,3" (defaultOptions ["a"]).Separator
          (defaultOptions ["a"]).LazyQuotes = .ok (ghdr' :: grows') →
        ∀ k, d'.Changed.get? k = (d.Changed.get? k).map fun l =>
          (OrderedSet [hdr', ghdr']).filter fun h => decide (h ∈ l)) ∧
    Compare plainRuntime (some "a,b\n1,2\n3,4") (some "b,a\n2,1\n4,3")
      (some (defaultOptions ["a"])) =
      .ok ({ AddedRow := [], RemovedRow := [], Changed := [] }, none) :=
  ⟨rfl, columnReordered_identity_example, columnReordered_swap_example, distinctHeader_example,
    Compare_column_order plainRuntime (defaultOptions ["a"]) "a,b\n1,2\n3,4" "a,b\n1,2\n3,4"
      "a,b\n1,2\n3,4" "b,a\n2,1\n4,3" rfl columnReordered_identity_example
      columnReordered_swap_example distinctHeader_example distinctHeader_example,
    by decide⟩


/-! ## Custom comparator and composite keys -/

/-- C11: when the options carry a custom comparator `f`, `getComparator`
returns `f` itself, whatever the precision and `IgnoreCase` are, and for
loaded tables `diffSingleRecord` is the field diff computed with `f` alone. -/
theorem getComparator_custom (rt : Runtime) (o o' : Options) (f : Comparator)
    (hcmp : o.Comparator = some f) (g h : String) (A B : csvData) (k : String)
    (hA : Loaded rt g o A) (hB : Loaded rt h o' B)
    (hkA : k ∈ A.records.keys) (hkB : k ∈ B.records.keys) :
    o.getComparator rt = f ∧
      (∀ (p : Int) (ic : Bool),
        Options.getComparator rt { o with Precision := p, IgnoreCase := ic } = f) ∧
      A.diffSingleRecord rt k B = .ok (changedFieldsSpec f A k B) := by
  have h1 : o.getComparator rt = f := by simp [Options.getComparator, hcmp]
  refine ⟨h1, fun p ic => by simp [Options.getComparator, hcmp], ?_⟩
  rw [← h1]
  exact diffSingleRecord_spec rt A B o hA.wf.1 hB.wf.1 hA.wf.2 k hkA hkB

/-- Witness of C11: with the comparator that accepts every pair, `a,b / 1,2`
against `a,b / 1,3` has an empty field diff for key `1`, although precision
is 1 and `IgnoreCase` is set. -/
theorem getComparator_custom_witness :
    alwaysEqualOptions.Comparator = some (fun _ _ => true) ∧
    Loaded plainRuntime "a,b\n1,2" alwaysEqualOptions
      { tableOneRow with opt := some alwaysEqualOptions } ∧
    Loaded plainRuntime "a,b\n1,3" alwaysEqualOptions
      { tableChangedRow with opt := some alwaysEqualOptions } ∧
    (alwaysEqualOptions.getComparator plainRuntime = (fun _ _ => true) ∧
      (∀ (p : Int) (ic : Bool),
        Options.getComparator plainRuntime
          { alwaysEqualOptions with Precision := p, IgnoreCase := ic } = fun _ _ => true) ∧
      csvData.diffSingleRecord plainRuntime { tableOneRow with opt := some alwaysEqualOptions }
          "1" { tableChangedRow with opt := some alwaysEqualOptions } =
        .ok (changedFieldsSpec (fun _ _ => true)
          { tableOneRow with opt := some alwaysEqualOptions } "1"
          { tableChangedRow with opt := some alwaysEqualOptions })) ∧
    csvData.diffSingleRecord plainRuntime { tableOneRow with opt := some alwaysEqualOptions }
      "1" { tableChangedRow with opt := some alwaysEqualOptions } = .ok [] :=
  ⟨rfl, ⟨⟨_, rfl, by decide⟩, rfl⟩, ⟨⟨_, rfl, by decide⟩, rfl⟩,
    getComparator_custom plainRuntime alwaysEqualOptions alwaysEqualOptions (fun _ _ => true) rfl
      "a,b\n1,2" "a,b\n1,3" _ _ "1" ⟨⟨_, rfl, by decide⟩, rfl⟩ ⟨⟨_, rfl, by decide⟩, rfl⟩
      (by decide) (by decide),
    by decide⟩

theorem getKey_loop_resolved (c : csvData) (record cols : List String)
    (hres : ∀ col ∈ cols, ∃ i, c.headerMap.get? col = some i ∧ i < record.length)
    (key : List String) :
    getKey.loop c record cols key =
      .ok (",".intercalate (key ++ cols.map (columnValue c record)), none) := by
  induction cols generalizing key with
  | nil => simp [getKey.loop]
  | cons col rest ih =>
    obtain ⟨i, hi, hlt⟩ := hres col (List.mem_cons_self _ _)
    have hidx : index record i = .ok (columnValue c record col) := by
      simp [index, columnValue, hi, List.getElem?_eq_getElem hlt, List.getD_eq_getElem _ _ hlt]
    unfold getKey.loop
    simp only [hi, hidx, ih (fun col' h' => hres col' (List.mem_cons_of_mem _ h'))]
    simp

/-- C14: when every key column name resolves in the header index to a
position of the row, `getKey` returns, with a nil error, the row's values at
those positions in the order of the key column names, joined by commas;
each value is the row's element at the index the header index gives.  No
escaping is done: with key columns `x, y` the rows `("1,2", "3")` and
`("1", "2,3")` both get the key `1,2,3`. -/
theorem getKey_composite (c : csvData) (cols record : List String)
    (hres : ∀ col ∈ cols, ∃ i, c.headerMap.get? col = some i ∧ i < record.length) :
    c.getKey cols record = .ok (",".intercalate (cols.map (columnValue c record)), none) ∧
      (∀ col ∈ cols, ∀ i, c.headerMap.get? col = some i →
        record[i]? = some (columnValue c record col)) ∧
      tableXY.getKey ["x", "y"] ["1,2", "3"] = .ok ("1,2,3", none) ∧
      tableXY.getKey ["x", "y"] ["1", "2,3"] = .ok ("1,2,3", none) := by
  refine ⟨?_, ?_, by decide, by decide⟩
  · have := getKey_loop_resolved c record cols hres []
    simpa [csvData.getKey] using this
  · intro col hcol i hi
    obtain ⟨i', hi', hlt⟩ := hres col hcol
    rw [hi] at hi'
    simp only [Option.some.injEq] at hi'
    subst hi'
    simp [columnValue, hi, List.getElem?_eq_getElem hlt, List.getD_eq_getElem _ _ hlt]

/-- Witness of C14: on header `x,y` the key columns `y, x` of the row
`(1, 2)` give the key `2,1`, the order of the key columns and not that of
the header. -/
theorem getKey_composite_witness :
    (∀ col ∈ ["y", "x"], ∃ i, tableXY.headerMap.get? col = some i ∧
      i < (["1", "2"] : List String).length) ∧
    (tableXY.getKey ["y", "x"] ["1", "2"] =
        .ok (",".intercalate (["y", "x"].map (columnValue tableXY ["1", "2"])), none) ∧
      (∀ col ∈ ["y", "x"], ∀ i, tableXY.headerMap.get? col = some i →
        (["1", "2"] : List String)[i]? = some (columnValue tableXY ["1", "2"] col)) ∧
      tableXY.getKey ["x", "y"] ["1,2", "3"] = .ok ("1,2,3", none) ∧
      tableXY.getKey ["x", "y"] ["1", "2,3"] = .ok ("1,2,3", none)) ∧
    tableXY.getKey ["y", "x"] ["1", "2"] = .ok ("2,1", none) :=
  ⟨by decide, getKey_composite tableXY ["y", "x"] ["1", "2"] (by decide), by decide⟩


/-! ## Order of the header union -/

theorem mem_eraseRepeats (l : List String) (s : String) : s ∈ eraseRepeats l ↔ s ∈ l := by
  induction l with
  | nil => simp [eraseRepeats]
  | cons x xs ih =>
    simp only [eraseRepeats, List.mem_cons, List.mem_filter, ih, decide_eq_true_eq]
    by_cases h : s = x <;> simp [h]

theorem OrderedSet.foldl_step_eq (l : List String) (st : List String × GoMap Bool)
    (h : OrderedSet.Inv st) :
    (l.foldl OrderedSet.step st).1 =
      st.1 ++ (eraseRepeats l).filter fun x => decide (x ∉ st.1) := by
  induction l generalizing st with
  | nil => simp [eraseRepeats]
  | cons s rest ih =>
    obtain ⟨hinv, hmem⟩ := OrderedSet.step_inv st s h
    rw [List.foldl_cons, ih _ hinv]
    by_cases hs : s ∈ st.1
    · have hget : (st.2.get? s).isSome := (GoMap.get?_isSome_iff _ _).2 ((h.1 s).2 hs)
      obtain ⟨b, hb⟩ := Option.isSome_iff_exists.1 hget
      have hstep : OrderedSet.step st s = st := by simp [OrderedSet.step, hb]
      rw [hstep]
      simp only [eraseRepeats, List.filter_cons, hs, not_true_eq_false, decide_False,
        Bool.false_eq_true, if_false, List.filter_filter, List.append_cancel_left_eq]
      apply List.filter_congr
      intro x _
      by_cases hx : x ∈ st.1
      · simp [hx]
      · have : x ≠ s := fun e => hx (e ▸ hs)
        simp [hx, this]
    · have hget : st.2.get? s = none := by
        cases hg : st.2.get? s with
        | none => rfl
        | some b =>
          exact absurd ((h.1 s).1 ((GoMap.get?_isSome_iff _ _).1 (by simp [hg]))) hs
      have hstep : (OrderedSet.step st s).1 = st.1 ++ [s] := by simp [OrderedSet.step, hget]
      rw [hstep]
      simp only [eraseRepeats, List.filter_cons, hs, not_false_eq_true, decide_True, if_true,
        List.filter_filter, List.append_assoc, List.singleton_append, List.append_cancel_left_eq,
        List.cons.injEq, true_and]
      apply List.filter_congr
      intro x _
      by_cases hx : x ∈ st.1 <;> by_cases hxs : x = s <;> simp [hx, hxs]

theorem OrderedSet_eq_eraseRepeats (xs ys : List String) :
    OrderedSet [xs, ys] = eraseRepeats (xs ++ ys) := by
  have h := OrderedSet.foldl_step_eq (xs ++ ys) ([], []) ⟨by simp [GoMap.keys], by simp⟩
  simpa [OrderedSet, List.foldl_append] using h

theorem eraseRepeats_of_nodup (l : List String) (h : l.Nodup) : eraseRepeats l = l := by
  induction l with
  | nil => rfl
  | cons x xs ih =>
    rw [List.nodup_cons] at h
    simp only [eraseRepeats, ih h.2, List.cons.injEq, true_and]
    rw [List.filter_eq_self]
    intro a ha
    have : a ≠ x := fun e => h.1 (e ▸ ha)
    simp [this]

theorem eraseRepeats_pairwise (l : List String) :
    (eraseRepeats l).Pairwise fun a b => l.indexOf a < l.indexOf b := by
  induction l with
  | nil => simp [eraseRepeats]
  | cons x xs ih =>
    simp only [eraseRepeats, List.pairwise_cons, List.mem_filter, decide_eq_true_eq]
    constructor
    · intro a ha
      rw [List.indexOf_cons_self, List.indexOf_cons_ne _ (fun e => ha.2 e.symm)]
      exact Nat.succ_pos _
    · apply List.Pairwise.imp_of_mem _ (List.Pairwise.filter _ ih)
      intro a b ha hb hab
      simp only [List.mem_filter, decide_eq_true_eq] at ha hb
      rw [List.indexOf_cons_ne _ (fun e => ha.2 e.symm),
        List.indexOf_cons_ne _ (fun e => hb.2 e.symm)]
      exact Nat.succ_lt_succ hab

/-- C19: `OrderedSet(xs, ys)` has no duplicates, holds exactly the strings of
`xs` and `ys`, is `xs ++ ys` with every non-first occurrence erased (so its
elements come in the order of their first positions in `xs ++ ys`), and
`OrderedSet` maps its own result to itself. -/
theorem OrderedSet_first_occurrences (xs ys : List String) :
    (OrderedSet [xs, ys]).Nodup ∧
      (∀ s, s ∈ OrderedSet [xs, ys] ↔ s ∈ xs ∨ s ∈ ys) ∧
      OrderedSet [xs, ys] = eraseRepeats (xs ++ ys) ∧
      (OrderedSet [xs, ys]).Pairwise
        (fun a b => (xs ++ ys).indexOf a < (xs ++ ys).indexOf b) ∧
      OrderedSet [OrderedSet [xs, ys]] = OrderedSet [xs, ys] ∧
      OrderedSet [OrderedSet [xs, ys], []] = OrderedSet [xs, ys] := by
  have hnd := OrderedSet_nodup [xs, ys]
  have hid : ∀ l : List String, l.Nodup → OrderedSet [l, []] = l := by
    intro l hl
    rw [OrderedSet_eq_eraseRepeats, List.append_nil, eraseRepeats_of_nodup l hl]
  refine ⟨hnd, fun s => by simp [OrderedSet_mem], OrderedSet_eq_eraseRepeats xs ys, ?_, ?_,
    hid _ hnd⟩
  · rw [OrderedSet_eq_eraseRepeats]
    exact eraseRepeats_pairwise _
  · have h1 : ∀ l : List String, OrderedSet [l] = OrderedSet [l, []] := by
      intro l
      simp [OrderedSet]
    rw [h1, hid _ hnd]


/-! ## The header index -/

theorem lastIndexOf?_eq_none (h : String) (l : List String) :
    lastIndexOf? h l = none ↔ h ∉ l := by
  induction l with
  | nil => simp [lastIndexOf?]
  | cons x xs ih =>
    simp only [lastIndexOf?, List.mem_cons, not_or]
    cases hl : lastIndexOf? h xs with
    | some n =>
      have : ¬ h ∉ xs := fun e => by simp [ih.2 e] at hl
      simp [this]
    | none =>
      have hx := ih.1 hl
      by_cases hxh : x = h
      · simp [hxh]
      · have : ¬ h = x := fun e => hxh e.symm
        simp [hxh, hx, this]

theorem lastIndexOf?_spec (h : String) (l : List String) (n : Nat)
    (hn : lastIndexOf? h l = some n) :
    l[n]? = some h ∧ ∀ j, n < j → l[j]? ≠ some h := by
  induction l generalizing n with
  | nil => simp [lastIndexOf?] at hn
  | cons x xs ih =>
    simp only [lastIndexOf?] at hn
    cases hl : lastIndexOf? h xs with
    | some m =>
      simp only [hl, Option.some.injEq] at hn
      subst hn
      obtain ⟨h1, h2⟩ := ih m hl
      refine ⟨by simpa using h1, ?_⟩
      intro j hj
      cases j with
      | zero => omega
      | succ j' =>
        simpa using h2 j' (by omega)
    | none =>
      simp only [hl] at hn
      have hnot := (lastIndexOf?_eq_none h xs).1 hl
      split at hn
      · rename_i hxh
        simp only [Option.some.injEq] at hn
        subst hn
        refine ⟨by simp [hxh], ?_⟩
        intro j hj
        cases j with
        | zero => omega
        | succ j' =>
          intro hc
          simp only [List.getElem?_cons_succ] at hc
          exact hnot (List.getElem?_mem hc)
      · exact absurd hn (by simp)

theorem lastIndexOf?_iff (h : String) (l : List String) (n : Nat) :
    lastIndexOf? h l = some n ↔ l[n]? = some h ∧ ∀ j, n < j → l[j]? ≠ some h := by
  constructor
  · exact lastIndexOf?_spec h l n
  · rintro ⟨h1, h2⟩
    cases hl : lastIndexOf? h l with
    | none =>
      exact absurd (List.getElem?_mem h1) ((lastIndexOf?_eq_none h l).1 hl)
    | some m =>
      obtain ⟨h3, h4⟩ := lastIndexOf?_spec h l m hl
      rcases Nat.lt_trichotomy n m with hlt | heq | hgt
      · exact absurd h3 (h2 m hlt)
      · rw [heq]
      · exact absurd h1 (h4 n hgt)

theorem headerLoop_get? (l : List String) (i : Nat) (m : GoMap Nat) (h : String) :
    (fromReader.headerLoop l i m).get? h =
      match lastIndexOf? h l with
      | some n => some (i + n)
      | none => m.get? h := by
  induction l generalizing i m with
  | nil => simp [fromReader.headerLoop, lastIndexOf?]
  | cons col rest ih =>
    simp only [fromReader.headerLoop, ih, lastIndexOf?]
    cases lastIndexOf? h rest with
    | some n =>
      simp only [Option.some.injEq]
      omega
    | none =>
      simp only [GoMap.get?_set]
      split <;> simp

theorem headerLoop_keys_nodup (l : List String) (i : Nat) (m : GoMap Nat)
    (hm : m.keys.Nodup) : (fromReader.headerLoop l i m).keys.Nodup := by
  induction l generalizing i m with
  | nil => simpa [fromReader.headerLoop] using hm
  | cons col rest ih =>
    simp only [fromReader.headerLoop]
    exact ih _ _ (GoMap.nodup_keys_set _ _ _ hm)

/-- C20: when `fromReader` consumes a header row, it returns a table whose
header index has exactly the names of the header as keys, each once, and
maps a name to `i` exactly when `i` is the position of the last occurrence
of the name in the header; every stored index is a position of the header. -/
theorem fromReader_headerMap (rt : Runtime) (opt : Options) (f : String) (hdr : List String)
    (rows : List (List String)) (hh : opt.HasHeader = true)
    (hread : rt.ReadAll f opt.Separator opt.LazyQuotes = .ok (hdr :: rows))
    (hrect : Rectangular (hdr :: rows)) :
    ∃ t e, fromReader rt (some f) (some opt) = .ok (t, e) ∧ t.headers = hdr ∧
      (∀ h, h ∈ t.headerMap.keys ↔ h ∈ hdr) ∧ t.headerMap.keys.Nodup ∧
      (∀ h i, t.headerMap.get? h = some i ↔
        hdr[i]? = some h ∧ ∀ j, i < j → hdr[j]? ≠ some h) ∧
      (∀ h i, t.headerMap.get? h = some i → i < hdr.length) := by
  have key : ∀ t : csvData, t.headers = hdr →
      t.headerMap = (headerTable opt hdr).headerMap →
      t.headers = hdr ∧ (∀ h, h ∈ t.headerMap.keys ↔ h ∈ hdr) ∧ t.headerMap.keys.Nodup ∧
      (∀ h i, t.headerMap.get? h = some i ↔
        hdr[i]? = some h ∧ ∀ j, i < j → hdr[j]? ≠ some h) ∧
      (∀ h i, t.headerMap.get? h = some i → i < hdr.length) := by
    intro t h1 h2
    have hget : ∀ h i, t.headerMap.get? h = some i ↔
        hdr[i]? = some h ∧ ∀ j, i < j → hdr[j]? ≠ some h := by
      intro h i
      rw [h2, ← lastIndexOf?_iff]
      show (fromReader.headerLoop hdr 0 []).get? h = some i ↔ _
      rw [headerLoop_get?]
      cases lastIndexOf? h hdr with
      | some n => simp
      | none => simp [GoMap.get?]
    refine ⟨h1, fun h => ?_, ?_, hget, ?_⟩
    · rw [h2]
      exact headerTable_keys opt hdr h
    · rw [h2]
      exact headerLoop_keys_nodup hdr 0 [] (by simp [GoMap.keys])
    · intro h i hi
      have := ((hget h i).1 hi).1
      by_contra hc
      rw [List.getElem?_eq_none (by omega)] at this
      exact absurd this (by simp)
  cases hkey : keyError (headerTable opt hdr) opt.KeyColumns with
  | none =>
    obtain ⟨t, h1, h2, h3, _, _⟩ := fromReader_header_ok rt opt f hdr rows hh hread hrect hkey
    exact ⟨t, none, h1, key t h2 h3⟩
  | some e =>
    exact ⟨_, _, fromReader_header_error rt opt f hdr rows hh hread hrect e hkey,
      key _ rfl rfl⟩

/-- Witness of C20 on a header that repeats a name: `a,b,a / 1,2,3 / 4,5,6`;
the index of `a` is 2, the position of its last occurrence. -/
theorem fromReader_headerMap_witness :
    (defaultOptions ["a"]).HasHeader = true ∧
    plainRuntime.ReadAll "a,b,a\n1,2,3\n4,5,6" (defaultOptions ["a"]).Separator
        (defaultOptions ["a"]).LazyQuotes =
      .ok (["a", "b", "a"] :: [["1", "2", "3"], ["4", "5", "6"]]) ∧
    Rectangular (["a", "b", "a"] :: [["1", "2", "3"], ["4", "5", "6"]]) ∧
    (∃ t e, fromReader plainRuntime (some "a,b,a\n1,2,3\n4,5,6") (some (defaultOptions ["a"])) =
        .ok (t, e) ∧ t.headers = ["a", "b", "a"] ∧
      (∀ h, h ∈ t.headerMap.keys ↔ h ∈ ["a", "b", "a"]) ∧ t.headerMap.keys.Nodup ∧
      (∀ h i, t.headerMap.get? h = some i ↔
        (["a", "b", "a"] : List String)[i]? = some h ∧
          ∀ j, i < j → (["a", "b", "a"] : List String)[j]? ≠ some h) ∧
      (∀ h i, t.headerMap.get? h = some i → i < (["a", "b", "a"] : List String).length)) ∧
    fromReader plainRuntime (some "a,b,a\n1,2,3\n4,5,6") (some (defaultOptions ["a"])) =
      .ok (tableRepeatedHeader, none) ∧
    tableRepeatedHeader.headerMap.get? "a" = some 2 :=
  ⟨rfl, rfl, by decide,
    fromReader_headerMap plainRuntime (defaultOptions ["a"]) "a,b,a\n1,2,3\n4,5,6"
      ["a", "b", "a"] [["1", "2", "3"], ["4", "5", "6"]] rfl rfl (by decide),
    rfl, by decide⟩


/-! ## Last write wins -/

theorem fromRows_eq (rt : Runtime) (opt : Options) (records : List (List String)) :
    fromReader.fromRows rt opt records =
      fromReader.recordLoop rt opt (headerTable opt (headerOf opt records))
        (dataRows opt records) := by
  unfold fromReader.fromRows headerOf dataRows
  split <;> rfl

theorem dataRows_index_lt (opt : Options) (records : List (List String))
    (hrect : Rectangular records) :
    ∀ r ∈ dataRows opt records,
      ∀ e ∈ (headerTable opt (headerOf opt records)).headerMap, e.2 < r.length := by
  unfold headerOf dataRows
  split
  · exact headerTable_index_lt opt _ _ hrect
  · intro r _ e he
    simp [headerTable, fromReader.headerLoop] at he

theorem recordLoop_success (rt : Runtime) (opt : Options) (rows : List (List String))
    (c t : csvData) (hlen : ∀ r ∈ rows, ∀ e ∈ c.headerMap, e.2 < r.length)
    (h : fromReader.recordLoop rt opt c rows = .ok (t, none)) :
    (∀ k, t.records.get? k =
      match lastWithKey (storedKey rt opt c) rows k with
      | some r => some r
      | none => c.records.get? k) ∧
    (∀ r ∈ rows, ∃ k, storedKey rt opt c r = some k) := by
  cases hkey : keyError c opt.KeyColumns with
  | none =>
    obtain ⟨c', h1, _, _, _, h5⟩ := recordLoop_ok rt opt rows c hlen hkey
    rw [h1] at h
    simp only [Except.ok.injEq, Prod.mk.injEq, and_true] at h
    subst h
    refine ⟨h5, fun r hr => ?_⟩
    rw [storedKey_spec rt opt c r (hlen r hr), hkey]
    exact ⟨_, rfl⟩
  | some e =>
    cases rows with
    | nil =>
      simp only [fromReader.recordLoop, Except.ok.injEq, Prod.mk.injEq, and_true] at h
      subst h
      exact ⟨fun k => rfl, fun r hr => absurd hr (by simp)⟩
    | cons r rest =>
      rw [recordLoop_error rt opt c r rest (hlen r (List.mem_cons_self _ _)) e hkey] at h
      simp at h

theorem lastWithKey_index (keyOf : List String → Option String) (rows : List (List String))
    (k : String) (r : List String) (h : lastWithKey keyOf rows k = some r) :
    ∃ i : Nat, rows[i]? = some r ∧ keyOf r = some k ∧
      ∀ (j : Nat) (r' : List String), i < j → rows[j]? = some r' → keyOf r' ≠ some k := by
  induction rows with
  | nil => simp [lastWithKey] at h
  | cons x xs ih =>
    simp only [lastWithKey] at h
    cases hl : lastWithKey keyOf xs k with
    | some y =>
      simp only [hl, Option.some.injEq] at h
      subst h
      obtain ⟨i, h1, h2, h3⟩ := ih hl
      refine ⟨i + 1, by simpa using h1, h2, ?_⟩
      intro j r' hj hr'
      cases j with
      | zero => omega
      | succ j' => exact h3 j' r' (by omega) (by simpa using hr')
    | none =>
      simp only [hl] at h
      split at h
      · rename_i hx
        simp only [Option.some.injEq] at h
        subst h
        refine ⟨0, by simp, hx, ?_⟩
        intro j r' hj hr' hc
        cases j with
        | zero => omega
        | succ j' =>
          simp only [List.getElem?_cons_succ] at hr'
          obtain ⟨y, hy⟩ := lastWithKey_isSome keyOf xs k r' (List.getElem?_mem hr') hc
          rw [hl] at hy
          exact absurd hy (by simp)
      · exact absurd h (by simp)

theorem lastWithKey_iff_index (keyOf : List String → Option String)
    (rows : List (List String)) (k : String) (r : List String) :
    lastWithKey keyOf rows k = some r ↔
      ∃ i : Nat, rows[i]? = some r ∧ keyOf r = some k ∧
        ∀ (j : Nat) (r' : List String), i < j → rows[j]? = some r' → keyOf r' ≠ some k := by
  constructor
  · exact lastWithKey_index keyOf rows k r
  · rintro ⟨i, h1, h2, h3⟩
    obtain ⟨r0, hr0⟩ := lastWithKey_isSome keyOf rows k r (List.getElem?_mem h1) h2
    obtain ⟨i0, g1, g2, g3⟩ := lastWithKey_index keyOf rows k r0 hr0
    rcases Nat.lt_trichotomy i i0 with hlt | heq | hgt
    · exact absurd g2 (h3 i0 r0 hlt g1)
    · subst heq
      rw [h1] at g1
      simp only [Option.some.injEq] at g1
      rw [hr0, g1]
    · exact absurd h2 (g3 i r hgt h1)

/-- C13 (as amended): after `fromReader` succeeds, `records[k]` is the last
data row, in input order, whose stored key is `k`, the stored key being the
composite key `getKey` returns, lower-cased when `IgnoreCase` is set; every
data row has a stored key, the keys of `records` are exactly the stored keys
of the data rows, and no key occurs twice. -/
theorem fromReader_last_write_wins (rt : Runtime) (opt : Options) (f : String)
    (records : List (List String)) (t : csvData)
    (hread : rt.ReadAll f opt.Separator opt.LazyQuotes = .ok records)
    (hrect : Rectangular records)
    (hload : fromReader rt (some f) (some opt) = .ok (t, none)) :
    (∀ k r, t.records.get? k = some r ↔
      ∃ i : Nat, (dataRows opt records)[i]? = some r ∧
        storedKey rt opt (headerTable opt (headerOf opt records)) r = some k ∧
        ∀ (j : Nat) (r' : List String), i < j → (dataRows opt records)[j]? = some r' →
          storedKey rt opt (headerTable opt (headerOf opt records)) r' ≠ some k) ∧
    (∀ k, k ∈ t.records.keys ↔
      ∃ r ∈ dataRows opt records,
        storedKey rt opt (headerTable opt (headerOf opt records)) r = some k) ∧
    (∀ r ∈ dataRows opt records, ∃ key,
      (headerTable opt (headerOf opt records)).getKey opt.KeyColumns r = .ok (key, none) ∧
      storedKey rt opt (headerTable opt (headerOf opt records)) r =
        some (if opt.IgnoreCase then rt.ToLower key else key)) ∧
    t.records.keys.Nodup := by
  have hwf : t.WF := (Loaded.wf ⟨⟨records, hread, hrect⟩, hload⟩).1
  simp only [fromReader, hread, fromRows_eq] at hload
  obtain ⟨h1, h2⟩ := recordLoop_success rt opt _ _ t (dataRows_index_lt opt records hrect) hload
  have hget : ∀ k, t.records.get? k =
      lastWithKey (storedKey rt opt (headerTable opt (headerOf opt records)))
        (dataRows opt records) k := by
    intro k
    rw [h1 k]
    cases lastWithKey (storedKey rt opt (headerTable opt (headerOf opt records)))
      (dataRows opt records) k <;> rfl
  refine ⟨fun k r => by rw [hget k, lastWithKey_iff_index], fun k => ?_, fun r hr => ?_,
    hwf.keys_nodup⟩
  · rw [← GoMap.get?_isSome_iff, hget k, Option.isSome_iff_exists]
    constructor
    · rintro ⟨r, hr⟩
      exact ⟨r, lastWithKey_mem _ _ _ _ hr⟩
    · rintro ⟨r, hr, hk⟩
      exact lastWithKey_isSome _ _ _ r hr hk
  · obtain ⟨k, hk⟩ := h2 r hr
    unfold storedKey at hk ⊢
    split at hk
    · rename_i key hkey
      exact ⟨key, hkey, rfl⟩
    · exact absurd hk (by simp)

/-- C13 fails as stated when `IgnoreCase` is set: the only data row of
`a,b / HELLO,1` has the composite key `HELLO`, and `fromReader` stores it
under `hello`, so `HELLO` is not a key of `records`. -/
theorem fromReader_last_write_wins_counterexample :
    fromReader plainRuntime (some "a,b\nHELLO,1")
        (some { defaultOptions ["a"] with IgnoreCase := true }) = .ok (tableHello, none) ∧
    tableHello.getKey ["a"] ["HELLO", "1"] = .ok ("HELLO", none) ∧
    tableHello.records.keys = ["hello"] ∧
    tableHello.records.get? "HELLO" = none ∧
    tableHello.records.get? "hello" = some ["HELLO", "1"] :=
  ⟨rfl, by decide, by decide, by decide, by decide⟩

/-- Witness of C13: in `a,b / 1,2 / 3,4 / 1,5` with key column `a` the rows
`1,2` and `1,5` share the key `1`; the later one is stored. -/
theorem fromReader_last_write_wins_witness :
    plainRuntime.ReadAll "a,b\n1,2\n3,4\n1,5" (defaultOptions ["a"]).Separator
        (defaultOptions ["a"]).LazyQuotes =
      .ok [["a", "b"], ["1", "2"], ["3", "4"], ["1", "5"]] ∧
    Rectangular [["a", "b"], ["1", "2"], ["3", "4"], ["1", "5"]] ∧
    fromReader plainRuntime (some "a,b\n1,2\n3,4\n1,5") (some (defaultOptions ["a"])) =
      .ok (tableLastWins, none) ∧
    ((∀ k r, tableLastWins.records.get? k = some r ↔
      ∃ i : Nat, ([["1", "2"], ["3", "4"], ["1", "5"]] : List (List String))[i]? = some r ∧
        storedKey plainRuntime (defaultOptions ["a"])
          (headerTable (defaultOptions ["a"]) ["a", "b"]) r = some k ∧
        ∀ (j : Nat) (r' : List String), i < j →
          ([["1", "2"], ["3", "4"], ["1", "5"]] : List (List String))[j]? = some r' →
          storedKey plainRuntime (defaultOptions ["a"])
            (headerTable (defaultOptions ["a"]) ["a", "b"]) r' ≠ some k) ∧
    (∀ k, k ∈ tableLastWins.records.keys ↔
      ∃ r ∈ ([["1", "2"], ["3", "4"], ["1", "5"]] : List (List String)),
        storedKey plainRuntime (defaultOptions ["a"])
          (headerTable (defaultOptions ["a"]) ["a", "b"]) r = some k) ∧
    (∀ r ∈ ([["1", "2"], ["3", "4"], ["1", "5"]] : List (List String)), ∃ key,
      (headerTable (defaultOptions ["a"]) ["a", "b"]).getKey (defaultOptions ["a"]).KeyColumns r =
        .ok (key, none) ∧
      storedKey plainRuntime (defaultOptions ["a"])
          (headerTable (defaultOptions ["a"]) ["a", "b"]) r =
        some (if (defaultOptions ["a"]).IgnoreCase then plainRuntime.ToLower key else key)) ∧
    tableLastWins.records.keys.Nodup) ∧
    tableLastWins.records.get? "1" = some ["1", "5"] :=
  ⟨rfl, by decide, rfl,
    fromReader_last_write_wins plainRuntime (defaultOptions ["a"]) "a,b\n1,2\n3,4\n1,5"
      [["a", "b"], ["1", "2"], ["3", "4"], ["1", "5"]] tableLastWins rfl (by decide) rfl,
    by decide⟩


/-! ## Columns present on one side only -/

theorem csvData.WF.get?_eq_none_iff {t : csvData} (ht : t.WF) (h : String) :
    t.headerMap.get? h = none ↔ h ∉ t.headers := by
  rw [← ht.resolved, ← GoMap.get?_isSome_iff]
  cases t.headerMap.get? h <;> simp

/-- C17: for two loaded tables, a header name that is a column of exactly
one of them is in the changed-field list of every key present in both
tables, so every such key is in `Changed`; and for a shared key whose values
are equal under the predicate in every column resolved on both sides, the
field diff is exactly the header union restricted to the names that are
columns of one side only, which is then the key's entry in `Changed`. -/
theorem diffAllRecords_column_surfacing (rt : Runtime) (f g : String) (o o' : Options)
    (A B : csvData) (hA : Loaded rt f o A) (hB : Loaded rt g o' B) :
    ∃ d, A.diffAllRecords rt B = .ok d ∧
      (∀ h k, (h ∈ A.headers ∧ h ∉ B.headers) ∨ (h ∉ A.headers ∧ h ∈ B.headers) →
        k ∈ A.records.keys → k ∈ B.records.keys →
        ∃ l, d.Changed.get? k = some l ∧ h ∈ l) ∧
      (∀ k, k ∈ A.records.keys → k ∈ B.records.keys →
        (∀ h i j, A.headerMap.get? h = some i → B.headerMap.get? h = some j →
          o.getComparator rt (cell A k i) (cell B k j) = true) →
        A.diffSingleRecord rt k B =
            .ok ((OrderedSet [A.headers, B.headers]).filter fun h =>
              decide (¬ (h ∈ A.headers ∧ h ∈ B.headers))) ∧
          d.Changed.get? k =
            if (OrderedSet [A.headers, B.headers]).filter (fun h =>
                decide (¬ (h ∈ A.headers ∧ h ∈ B.headers))) = [] then none
            else some ((OrderedSet [A.headers, B.headers]).filter fun h =>
              decide (¬ (h ∈ A.headers ∧ h ∈ B.headers)))) := by
  have wA := hA.wf.1
  have wB := hB.wf.1
  obtain ⟨d, h1, _, _, h4, _⟩ := diffAllRecords_spec rt A B o wA wB hA.wf.2
  refine ⟨d, h1, ?_, ?_⟩
  · intro h k hside hkA hkB
    have hmem : h ∈ changedFieldsSpec (o.getComparator rt) A k B := by
      unfold changedFieldsSpec
      rw [List.mem_filter, OrderedSet_mem]
      constructor
      · rcases hside with hs | hs
        · exact ⟨A.headers, by simp, hs.1⟩
        · exact ⟨B.headers, by simp, hs.2⟩
      · rcases hside with hs | hs
        · rw [(wB.get?_eq_none_iff h).2 hs.2]
          cases A.headerMap.get? h <;> rfl
        · rw [(wA.get?_eq_none_iff h).2 hs.1]
    refine ⟨_, ?_, hmem⟩
    rw [h4 k, if_pos ⟨hkA, hkB, fun e => by rw [e] at hmem; simp at hmem⟩]
  · intro k hkA hkB heq
    have hspec : changedFieldsSpec (o.getComparator rt) A k B =
        (OrderedSet [A.headers, B.headers]).filter fun h =>
          decide (¬ (h ∈ A.headers ∧ h ∈ B.headers)) := by
      unfold changedFieldsSpec
      apply List.filter_congr
      intro h _
      cases ha : A.headerMap.get? h with
      | none =>
        have := (wA.get?_eq_none_iff h).1 ha
        simp [this]
      | some i =>
        have hin : h ∈ A.headers := by
          by_contra hc
          rw [(wA.get?_eq_none_iff h).2 hc] at ha
          simp at ha
        cases hb : B.headerMap.get? h with
        | none =>
          have := (wB.get?_eq_none_iff h).1 hb
          simp [this]
        | some j =>
          have hin' : h ∈ B.headers := by
            by_contra hc
            rw [(wB.get?_eq_none_iff h).2 hc] at hb
            simp at hb
          simp [heq h i j ha hb, hin, hin']
    refine ⟨by rw [diffSingleRecord_spec rt A B o wA wB hA.wf.2 k hkA hkB, hspec], ?_⟩
    rw [h4 k, hspec]
    by_cases hnil : (OrderedSet [A.headers, B.headers]).filter (fun h =>
        decide (¬ (h ∈ A.headers ∧ h ∈ B.headers))) = []
    · rw [if_pos hnil, if_neg (fun e => e.2.2 hnil)]
    · rw [if_neg hnil, if_pos ⟨hkA, hkB, hnil⟩]

/-- Witness of C17 on the inputs of the test "column added": from `a,b /
1,2 / 3,4`, to `a,b,c / 1,2,5 / 3,4,6`, key column `a`; `Compare` returns
`Changed = {1: [c], 3: [c]}`. -/
theorem diffAllRecords_column_surfacing_witness :
    Loaded plainRuntime "a,b\n1,2\n3,4" (defaultOptions ["a"]) tableTwoRows ∧
    Loaded plainRuntime "a,b,c\n1,2,5\n3,4,6" (defaultOptions ["a"]) tableThreeColumns ∧
    (∃ d, tableTwoRows.diffAllRecords plainRuntime tableThreeColumns = .ok d ∧
      (∀ h k, (h ∈ tableTwoRows.headers ∧ h ∉ tableThreeColumns.headers) ∨
          (h ∉ tableTwoRows.headers ∧ h ∈ tableThreeColumns.headers) →
        k ∈ tableTwoRows.records.keys → k ∈ tableThreeColumns.records.keys →
        ∃ l, d.Changed.get? k = some l ∧ h ∈ l) ∧
      (∀ k, k ∈ tableTwoRows.records.keys → k ∈ tableThreeColumns.records.keys →
        (∀ h i j, tableTwoRows.headerMap.get? h = some i →
          tableThreeColumns.headerMap.get? h = some j →
          (defaultOptions ["a"]).getComparator plainRuntime (cell tableTwoRows k i)
            (cell tableThreeColumns k j) = true) →
        tableTwoRows.diffSingleRecord plainRuntime k tableThreeColumns =
            .ok ((OrderedSet [tableTwoRows.headers, tableThreeColumns.headers]).filter fun h =>
              decide (¬ (h ∈ tableTwoRows.headers ∧ h ∈ tableThreeColumns.headers))) ∧
          d.Changed.get? k =
            if (OrderedSet [tableTwoRows.headers, tableThreeColumns.headers]).filter (fun h =>
                decide (¬ (h ∈ tableTwoRows.headers ∧ h ∈ tableThreeColumns.headers))) = []
            then none
            else some ((OrderedSet [tableTwoRows.headers, tableThreeColumns.headers]).filter
              fun h => decide (¬ (h ∈ tableTwoRows.headers ∧ h ∈ tableThreeColumns.headers))))) ∧
    Compare plainRuntime (some "a,b\n1,2\n3,4") (some "a,b,c\n1,2,5\n3,4,6")
        (some (defaultOptions ["a"])) =
      .ok ({ AddedRow := [], RemovedRow := [], Changed := [("1", ["c"]), ("3", ["c"])] }, none) ∧
    Compare plainRuntime (some "a,b\n1,2\n3,4") (some "a\n1\n3") (some (defaultOptions ["a"])) =
      .ok ({ AddedRow := [], RemovedRow := [], Changed := [("1", ["b"]), ("3", ["b"])] }, none) :=
  ⟨⟨⟨_, rfl, by decide⟩, rfl⟩, ⟨⟨_, rfl, by decide⟩, rfl⟩,
    diffAllRecords_column_surfacing plainRuntime "a,b\n1,2\n3,4" "a,b,c\n1,2,5\n3,4,6"
      (defaultOptions ["a"]) (defaultOptions ["a"]) tableTwoRows tableThreeColumns
      ⟨⟨_, rfl, by decide⟩, rfl⟩ ⟨⟨_, rfl, by decide⟩, rfl⟩,
    by decide, by decide⟩


/-! ## The summary -/

theorem changed_length (rt : Runtime) (A B : csvData) (o : Options) (hA : A.WF) (hB : B.WF)
    (ho : A.opt = some o) (d : DiffRef) (hd : A.diffAllRecords rt B = .ok d) :
    d.Changed.length =
      (A.records.keys.filter fun k =>
        B.records.contains k && decide (A.diffSingleRecord rt k B ≠ .ok [])).length := by
  obtain ⟨d0, h1, _, _, h4, h5⟩ := diffAllRecords_spec rt A B o hA hB ho
  rw [hd] at h1
  simp only [Except.ok.injEq] at h1
  subst h1
  have hlen : d.Changed.length = d.Changed.keys.length := by simp [GoMap.keys]
  rw [hlen]
  apply List.Perm.length_eq
  rw [List.perm_ext_iff_of_nodup h5 (hA.keys_nodup.filter _)]
  intro k
  rw [← GoMap.get?_isSome_iff, h4 k, List.mem_filter]
  by_cases hkA : k ∈ A.records.keys
  · by_cases hkB : k ∈ B.records.keys
    · have hc := (GoMap.contains_iff B.records k).2 hkB
      rw [diffSingleRecord_spec rt A B o hA hB ho k hkA hkB]
      by_cases hnil : changedFieldsSpec (o.getComparator rt) A k B = []
      · simp [hkA, hkB, hc, hnil]
      · simp [hkA, hkB, hc, hnil]
    · have hc : B.records.contains k = false := by
        cases h : B.records.contains k with
        | false => rfl
        | true => exact absurd ((GoMap.contains_iff B.records k).1 h) hkB
      simp [hkA, hkB, hc]
  · simp [hkA]

/-- C18: when both inputs load, `AsSummary` returns, with a nil error, the
string `<a> rows added.\n<c> rows changed.\n<r> rows removed.\n` where `a`
counts the keys of the to-table absent from the from-table, `c` the keys of
both tables for which `diffSingleRecord` is not the empty list, and `r` the
keys of the from-table absent from the to-table; the keys of each table are
pairwise distinct, so the lengths count keys. -/
theorem AsSummary_counts (rt : Runtime) (f g : String) (opt : Options) (A B : csvData)
    (hA : Loaded rt f opt A) (hB : Loaded rt g opt B) :
    AsSummary rt (some f) (some g) (some opt) =
        .ok (toString (B.records.keys.filter fun k => !A.records.contains k).length ++
          " rows added.\n" ++
          toString (A.records.keys.filter fun k =>
            B.records.contains k && decide (A.diffSingleRecord rt k B ≠ .ok [])).length ++
          " rows changed.\n" ++
          toString (A.records.keys.filter fun k => !B.records.contains k).length ++
          " rows removed.\n", none) ∧
      A.records.keys.Nodup ∧ B.records.keys.Nodup := by
  obtain ⟨d, h1, h2, h3, _, _⟩ := diffAllRecords_spec rt A B opt hA.wf.1 hB.wf.1 hA.wf.2
  have hc := changed_length rt A B opt hA.wf.1 hB.wf.1 hA.wf.2 d h1
  refine ⟨?_, hA.wf.1.keys_nodup, hB.wf.1.keys_nodup⟩
  simp only [AsSummary, hA.2, hB.2, h1, h2, h3, hc, String.append_assoc]
  rfl

/-- Witness of C18 on the inputs of `TestAsSummary`: from `a,b / 1,2 / 3,4`,
to `a,b / 1,7 / 5,6`, key column `a`; one row added, one changed, one
removed. -/
theorem AsSummary_counts_witness :
    Loaded plainRuntime "a,b\n1,2\n3,4" (defaultOptions ["a"]) tableTwoRows ∧
    Loaded plainRuntime "a,b\n1,7\n5,6" (defaultOptions ["a"]) tableSummaryTo ∧
    (AsSummary plainRuntime (some "a,b\n1,2\n3,4") (some "a,b\n1,7\n5,6")
        (some (defaultOptions ["a"])) =
        .ok (toString (tableSummaryTo.records.keys.filter fun k =>
            !tableTwoRows.records.contains k).length ++
          " rows added.\n" ++
          toString (tableTwoRows.records.keys.filter fun k =>
            tableSummaryTo.records.contains k &&
              decide (tableTwoRows.diffSingleRecord plainRuntime k tableSummaryTo ≠ .ok [])).length ++
          " rows changed.\n" ++
          toString (tableTwoRows.records.keys.filter fun k =>
            !tableSummaryTo.records.contains k).length ++
          " rows removed.\n", none) ∧
      tableTwoRows.records.keys.Nodup ∧ tableSummaryTo.records.keys.Nodup) ∧
    AsSummary plainRuntime (some "a,b\n1,2\n3,4") (some "a,b\n1,7\n5,6")
        (some (defaultOptions ["a"])) =
      .ok ("1 rows added.\n1 rows changed.\n1 rows removed.\n", none) :=
  ⟨⟨⟨_, rfl, by decide⟩, rfl⟩, ⟨⟨_, rfl, by decide⟩, rfl⟩,
    AsSummary_counts plainRuntime "a,b\n1,2\n3,4" "a,b\n1,7\n5,6" (defaultOptions ["a"])
      tableTwoRows tableSummaryTo ⟨⟨_, rfl, by decide⟩, rfl⟩ ⟨⟨_, rfl, by decide⟩, rfl⟩,
    by decide⟩


/-! ## Errors of `Compare` -/

/-- C15: `Compare` returns the first error with the empty `DiffRef`.  If the
from-reader or the options are nil, or `fromReader` returns an error for the
from-input, the result is that error, prefixed `error parsing from_csv: `,
whatever the to-input is; if the from-input loads and `fromReader` returns an
error for the to-input (a nil to-reader included), the result is that error,
prefixed `error parsing to_csv: `; and `Compare` returns a nil error exactly
when both inputs load and `diffAllRecords` returns, its result then being
the `DiffRef` of `diffAllRecords`. -/
theorem Compare_first_error (rt : Runtime) (fromCSV toCSV : Option String)
    (opt : Option Options) :
    ((fromCSV = none ∨ opt = none) → ∀ other, Compare rt fromCSV other opt =
      .ok ({ AddedRow := [], RemovedRow := [], Changed := [] },
        some "error parsing from_csv: reader and options cannot be nil")) ∧
    (∀ t e, fromReader rt fromCSV opt = .ok (t, some e) →
      ∀ other, Compare rt fromCSV other opt =
        .ok ({ AddedRow := [], RemovedRow := [], Changed := [] },
          some ("error parsing from_csv: " ++ e))) ∧
    (∀ t u e, fromReader rt fromCSV opt = .ok (t, none) →
      fromReader rt toCSV opt = .ok (u, some e) →
      Compare rt fromCSV toCSV opt =
        .ok ({ AddedRow := [], RemovedRow := [], Changed := [] },
          some ("error parsing to_csv: " ++ e))) ∧
    (∀ t, fromReader rt fromCSV opt = .ok (t, none) →
      Compare rt fromCSV none opt =
        .ok ({ AddedRow := [], RemovedRow := [], Changed := [] },
          some "error parsing to_csv: reader and options cannot be nil")) ∧
    (∀ d, Compare rt fromCSV toCSV opt = .ok (d, none) ↔
      ∃ t u, fromReader rt fromCSV opt = .ok (t, none) ∧
        fromReader rt toCSV opt = .ok (u, none) ∧ t.diffAllRecords rt u = .ok d) := by
  have hnil : ∀ (a : Option String) (o : Option Options), a = none ∨ o = none →
      fromReader rt a o =
        .ok ({ headers := [], headerMap := [], records := [], opt := none },
          some "reader and options cannot be nil") := by
    intro a o h
    rcases h with h | h
    · subst h
      rfl
    · subst h
      cases a <;> rfl
  refine ⟨fun h other => ?_, fun t e h other => ?_, fun t u e h h' => ?_, fun t h => ?_,
    fun d => ⟨fun h => ?_, ?_⟩⟩
  · simp only [Compare, hnil fromCSV opt h]
    rfl
  · simp only [Compare, h]
  · simp only [Compare, h, h']
  · simp only [Compare, h, hnil none opt (Or.inl rfl)]
    rfl
  · unfold Compare at h
    split at h
    · exact absurd h (by simp)
    · exact absurd h (by simp)
    · rename_i t ht
      split at h
      · exact absurd h (by simp)
      · exact absurd h (by simp)
      · rename_i u hu
        split at h
        · exact absurd h (by simp)
        · rename_i d' hd'
          simp only [Except.ok.injEq, Prod.mk.injEq, and_true] at h
          subst h
          exact ⟨t, u, ht, hu, hd'⟩
  · rintro ⟨t, u, h1, h2, h3⟩
    simp only [Compare, h1, h2, h3]

/-- Witness of C15 on a nil from-reader, on a from-input and on a to-input
that the tokenizer rejects (`a,b / 1` has a short row), on a nil to-reader,
and on two inputs that load. -/
theorem Compare_first_error_witness :
    (∀ other, Compare plainRuntime none other (some (defaultOptions ["a"])) =
      .ok ({ AddedRow := [], RemovedRow := [], Changed := [] },
        some "error parsing from_csv: reader and options cannot be nil")) ∧
    (∀ other, Compare plainRuntime (some "a,b\n1") other (some (defaultOptions ["a"])) =
      .ok ({ AddedRow := [], RemovedRow := [], Changed := [] },
        some "error parsing from_csv: record on line 2: wrong number of fields")) ∧
    Compare plainRuntime (some "a,b\n1,2") (some "a,b\n1") (some (defaultOptions ["a"])) =
      .ok ({ AddedRow := [], RemovedRow := [], Changed := [] },
        some "error parsing to_csv: record on line 2: wrong number of fields") ∧
    Compare plainRuntime (some "a,b\n1,2") none (some (defaultOptions ["a"])) =
      .ok ({ AddedRow := [], RemovedRow := [], Changed := [] },
        some "error parsing to_csv: reader and options cannot be nil") ∧
    (∃ t u, fromReader plainRuntime (some "a,b\n1,2") (some (defaultOptions ["a"])) =
        .ok (t, none) ∧
      fromReader plainRuntime (some "a,b\n1,3") (some (defaultOptions ["a"])) = .ok (u, none) ∧
      t.diffAllRecords plainRuntime u =
        .ok { AddedRow := [], RemovedRow := [], Changed := [("1", ["b"])] }) :=
  ⟨(Compare_first_error plainRuntime none none (some (defaultOptions ["a"]))).1 (Or.inl rfl),
    (Compare_first_error plainRuntime (some "a,b\n1") none (some (defaultOptions ["a"]))).2.1
      { headers := [], headerMap := [], records := [], opt := some (defaultOptions ["a"]) }
      "record on line 2: wrong number of fields" rfl,
    (Compare_first_error plainRuntime (some "a,b\n1,2") (some "a,b\n1")
      (some (defaultOptions ["a"]))).2.2.1 tableOneRow
      { headers := [], headerMap := [], records := [], opt := some (defaultOptions ["a"]) }
      "record on line 2: wrong number of fields" rfl rfl,
    (Compare_first_error plainRuntime (some "a,b\n1,2") none
      (some (defaultOptions ["a"]))).2.2.2.1 tableOneRow rfl,
    ((Compare_first_error plainRuntime (some "a,b\n1,2") (some "a,b\n1,3")
      (some (defaultOptions ["a"]))).2.2.2.2
        { AddedRow := [], RemovedRow := [], Changed := [("1", ["b"])] }).1 (by decide)⟩


/-! ## The JSON document -/

/-- C16 (evaluation of the code): for from `a,b / 1,2`, to `a,b / 1,3` and key
column `a`, the diff is `Changed = {1: [b]}` and the two values of column `b`
in record `1` are `2` and `3`, but the entry `diffToJSON` builds for the pair
(`1`, `b`) has `from` and `to` empty: the header indexes are looked up at the
record key `1`, which is not a column name, instead of at the column `b`. -/
theorem diffToJSON_changed_entry :
    Compare plainRuntime (some "a,b\n1,2") (some "a,b\n1,3") (some (defaultOptions ["a"])) =
      .ok ({ AddedRow := [], RemovedRow := [], Changed := [("1", ["b"])] }, none) ∧
    tableOneRow.headerMap.get? "b" = some 1 ∧ tableChangedRow.headerMap.get? "b" = some 1 ∧
    field tableOneRow.records "1" 1 = .ok "2" ∧ field tableChangedRow.records "1" 1 = .ok "3" ∧
    tableOneRow.headerMap.get? "1" = none ∧ tableChangedRow.headerMap.get? "1" = none ∧
    diffToJSON.build { AddedRow := [], RemovedRow := [], Changed := [("1", ["b"])] }
        tableOneRow tableChangedRow =
      .ok [("Changed", [[("key", "1"), ("field", "b"), ("from", ""), ("to", "")]])] :=
  ⟨by decide, by decide, by decide, by decide, by decide, by decide, by decide, by decide⟩

/-! ## Letter case of keys -/

theorem keys_iff_of_get? (m : GoMap (List String)) (keyOf : List String → Option String)
    (rows : List (List String)) (h : ∀ k, m.get? k = lastWithKey keyOf rows k) (k : String) :
    k ∈ m.keys ↔ ∃ r ∈ rows, keyOf r = some k := by
  rw [← GoMap.get?_isSome_iff, h k, Option.isSome_iff_exists]
  constructor
  · rintro ⟨r, hr⟩
    exact ⟨r, lastWithKey_mem _ _ _ _ hr⟩
  · rintro ⟨r, hr, hk⟩
    exact lastWithKey_isSome _ _ _ r hr hk

theorem storedKey_eq_some_iff (rt : Runtime) (opt : Options) (c : csvData) (x : List String)
    (k : String) :
    storedKey rt opt c x = some k ↔
      ∃ key, c.getKey opt.KeyColumns x = .ok (key, none) ∧
        k = if opt.IgnoreCase then rt.ToLower key else key := by
  unfold storedKey
  constructor
  · intro h
    split at h
    · rename_i key hkey
      simp only [Option.some.injEq] at h
      exact ⟨key, hkey, h.symm⟩
    · exact absurd h (by simp)
  · rintro ⟨key, hkey, hk⟩
    rw [hkey, hk]

theorem keyError_of_getKey (c : csvData) (cols x : List String) (k : String)
    (hlen : ∀ e ∈ c.headerMap, e.2 < x.length) (h : c.getKey cols x = .ok (k, none)) :
    keyError c cols = none := by
  unfold csvData.getKey at h
  rw [getKey_loop_spec c x hlen] at h
  cases hk : keyError c cols with
  | none => rfl
  | some e =>
    rw [hk] at h
    simp at h

theorem getComparator_fold (rt : Runtime) (o : Options) (hcmp : o.Comparator = none)
    (hic : o.IgnoreCase = true)
    (hnum : o.Precision ≤ 0 ∨ ∀ a b x y, rt.ToLower a = rt.ToLower b →
      rt.ParseFloat a = some x → rt.ParseFloat b = some y →
      rt.Sprintf o.Precision x = rt.Sprintf o.Precision y)
    (a b : String) (hab : rt.ToLower a = rt.ToLower b) : o.getComparator rt a b = true := by
  rw [getComparator_default rt o hcmp]
  split
  · rename_i x y hx hy hp
    rcases hnum with h | h
    · simp only [gt_iff_lt, decide_eq_true_eq] at hp
      omega
    · simp [h a b x y hab hx hy]
  · simp [hic, hab]


/-- C12 (as amended): take two inputs with header rows, a from-row with
composite key `k` and a to-row with composite key `k'`.  Both inputs load and
`Compare` returns a diff.  With `IgnoreCase` unset the records are stored
under the composite keys as they are: `k` is removed exactly when no to-row
has the composite key `k` itself, and `k'` is added exactly when no from-row
has the composite key `k'` itself, whatever their lower-casings are.  With
`IgnoreCase` set every record is stored under the lower-casing of its
composite key; if `k` and `k'` have the same lower-casing, that key is
neither added nor removed, and it has no entry in `Changed` when, under the
default comparison predicate, the two header rows have the same names in any
order, the rows stored under that key agree column name by column name after
lower-casing, and numbers are not told apart by letter case. -/
theorem Compare_key_case (rt : Runtime) (opt : Options) (f g : String)
    (hdr hdr' : List String) (rows rows' : List (List String)) (r r' : List String)
    (k k' : String) (hh : opt.HasHeader = true)
    (hf : rt.ReadAll f opt.Separator opt.LazyQuotes = .ok (hdr :: rows))
    (hg : rt.ReadAll g opt.Separator opt.LazyQuotes = .ok (hdr' :: rows'))
    (hrect : Rectangular (hdr :: rows)) (hrect' : Rectangular (hdr' :: rows'))
    (hr : r ∈ rows) (hr' : r' ∈ rows')
    (hk : (headerTable opt hdr).getKey opt.KeyColumns r = .ok (k, none))
    (hk' : (headerTable opt hdr').getKey opt.KeyColumns r' = .ok (k', none)) :
    ∃ A B d, fromReader rt (some f) (some opt) = .ok (A, none) ∧
      fromReader rt (some g) (some opt) = .ok (B, none) ∧
      Compare rt (some f) (some g) (some opt) = .ok (d, none) ∧
      (opt.IgnoreCase = false →
        k ∈ A.records.keys ∧ k' ∈ B.records.keys ∧
        (k ∈ d.RemovedRow ↔
          ∀ x ∈ rows', (headerTable opt hdr').getKey opt.KeyColumns x ≠ .ok (k, none)) ∧
        (k' ∈ d.AddedRow ↔
          ∀ x ∈ rows, (headerTable opt hdr).getKey opt.KeyColumns x ≠ .ok (k', none))) ∧
      (opt.IgnoreCase = true →
        rt.ToLower k ∈ A.records.keys ∧ rt.ToLower k' ∈ B.records.keys ∧
        (∀ key, key ∈ A.records.keys ↔ ∃ x ∈ rows, ∃ raw,
          (headerTable opt hdr).getKey opt.KeyColumns x = .ok (raw, none) ∧
            key = rt.ToLower raw) ∧
        (∀ key, key ∈ B.records.keys ↔ ∃ x ∈ rows', ∃ raw,
          (headerTable opt hdr').getKey opt.KeyColumns x = .ok (raw, none) ∧
            key = rt.ToLower raw) ∧
        (rt.ToLower k = rt.ToLower k' →
          rt.ToLower k ∉ d.AddedRow ∧ rt.ToLower k ∉ d.RemovedRow ∧
          (opt.Comparator = none → (∀ h, h ∈ hdr' ↔ h ∈ hdr) →
            (opt.Precision ≤ 0 ∨ ∀ a b x y, rt.ToLower a = rt.ToLower b →
              rt.ParseFloat a = some x → rt.ParseFloat b = some y →
              rt.Sprintf opt.Precision x = rt.Sprintf opt.Precision y) →
            (∀ ra rb, A.records.get? (rt.ToLower k) = some ra →
              B.records.get? (rt.ToLower k) = some rb →
              ∀ h ∈ hdr, rt.ToLower (columnValue A ra h) = rt.ToLower (columnValue B rb h)) →
            d.Changed.get? (rt.ToLower k) = none))) := by
  have hkeyA := keyError_of_getKey _ _ r k (headerTable_index_lt opt hdr rows hrect r hr) hk
  have hkeyB := keyError_of_getKey _ _ r' k' (headerTable_index_lt opt hdr' rows' hrect' r' hr') hk'
  obtain ⟨A, a1, a2, a3, a4, a5⟩ := fromReader_header_ok rt opt f hdr rows hh hf hrect hkeyA
  obtain ⟨B, b1, b2, b3, b4, b5⟩ := fromReader_header_ok rt opt g hdr' rows' hh hg hrect' hkeyB
  have lA : Loaded rt f opt A := ⟨⟨_, hf, hrect⟩, a1⟩
  have lB : Loaded rt g opt B := ⟨⟨_, hg, hrect'⟩, b1⟩
  have wA := lA.wf.1
  have wB := lB.wf.1
  obtain ⟨d, d1, d2, d3, d4, _⟩ := diffAllRecords_spec rt A B opt wA wB lA.wf.2
  have kA := keys_iff_of_get? A.records _ rows a5
  have kB := keys_iff_of_get? B.records _ rows' b5
  refine ⟨A, B, d, a1, b1, by simp only [Compare, a1, b1, d1], ?_, ?_⟩
  · intro hic
    have sk : ∀ (c : csvData) (x : List String) (key : String),
        storedKey rt opt c x = some key ↔ c.getKey opt.KeyColumns x = .ok (key, none) := by
      intro c x key
      rw [storedKey_eq_some_iff]
      simp only [hic, Bool.false_eq_true, if_false]
      constructor
      · rintro ⟨raw, h1, h2⟩
        rw [h2]
        exact h1
      · intro h
        exact ⟨key, h, rfl⟩
    have hkA : k ∈ A.records.keys := (kA k).2 ⟨r, hr, (sk _ _ _).2 hk⟩
    have hkB : k' ∈ B.records.keys := (kB k').2 ⟨r', hr', (sk _ _ _).2 hk'⟩
    refine ⟨hkA, hkB, ?_, ?_⟩
    · rw [d3, List.mem_filter]
      simp only [hkA, true_and, Bool.not_eq_true', ← Bool.not_eq_true, GoMap.contains_iff, kB k,
        sk]
      constructor
      · intro h x hx hc
        exact h ⟨x, hx, hc⟩
      · rintro h ⟨x, hx, hc⟩
        exact h x hx hc
    · rw [d2, List.mem_filter]
      simp only [hkB, true_and, Bool.not_eq_true', ← Bool.not_eq_true, GoMap.contains_iff, kA k',
        sk]
      constructor
      · intro h x hx hc
        exact h ⟨x, hx, hc⟩
      · rintro h ⟨x, hx, hc⟩
        exact h x hx hc
  · intro hic
    have sk : ∀ (c : csvData) (x : List String) (key : String),
        storedKey rt opt c x = some key ↔
          ∃ raw, c.getKey opt.KeyColumns x = .ok (raw, none) ∧ key = rt.ToLower raw := by
      intro c x key
      rw [storedKey_eq_some_iff]
      simp only [hic, if_true]
    have hkA : rt.ToLower k ∈ A.records.keys := (kA _).2 ⟨r, hr, (sk _ _ _).2 ⟨k, hk, rfl⟩⟩
    have hkB : rt.ToLower k' ∈ B.records.keys := (kB _).2 ⟨r', hr', (sk _ _ _).2 ⟨k', hk', rfl⟩⟩
    refine ⟨hkA, hkB, fun key => by simp only [kA key, sk],
      fun key => by simp only [kB key, sk], ?_⟩
    intro hfold
    have hkB' : rt.ToLower k ∈ B.records.keys := hfold ▸ hkB
    refine ⟨?_, ?_, ?_⟩
    · rw [d2, List.mem_filter]
      simp [(GoMap.contains_iff _ _).2 hkA]
    · rw [d3, List.mem_filter]
      simp [(GoMap.contains_iff _ _).2 hkB']
    · intro hcmp hhdr hnum hrows
      have hnil : changedFieldsSpec (opt.getComparator rt) A (rt.ToLower k) B = [] := by
        unfold changedFieldsSpec
        rw [List.filter_eq_nil_iff]
        intro h hmem
        rw [OrderedSet_mem] at hmem
        have hin : h ∈ hdr := by
          obtain ⟨sl, hsl, hx⟩ := hmem
          simp only [List.mem_cons, List.mem_singleton, List.not_mem_nil, or_false] at hsl
          rcases hsl with e | e
          · rw [e, a2] at hx
            exact hx
          · rw [e, b2] at hx
            exact (hhdr h).1 hx
        have hin' : h ∈ B.headers := by
          rw [b2]
          exact (hhdr h).2 hin
        have hs := (GoMap.get?_isSome_iff A.headerMap h).2
          ((wA.resolved h).2 (a2 ▸ hin))
        obtain ⟨i, hi⟩ := Option.isSome_iff_exists.1 hs
        have hs' := (GoMap.get?_isSome_iff B.headerMap h).2 ((wB.resolved h).2 hin')
        obtain ⟨j, hj⟩ := Option.isSome_iff_exists.1 hs'
        obtain ⟨ra, hra⟩ := Option.isSome_iff_exists.1
          ((GoMap.get?_isSome_iff A.records _).2 hkA)
        obtain ⟨rb, hrb⟩ := Option.isSome_iff_exists.1
          ((GoMap.get?_isSome_iff B.records _).2 hkB')
        have hc : rt.ToLower (cell A (rt.ToLower k) i) = rt.ToLower (cell B (rt.ToLower k) j) := by
          have hv := hrows ra rb hra hrb h hin
          simp only [columnValue, hi, hj, Option.getD_some] at hv
          simpa only [cell, hra, hrb, Option.getD_some] using hv
        simp [hi, hj, getComparator_fold rt opt hcmp hic hnum _ _ hc]
      rw [d4, hnil]
      simp

/-- C12 fails as stated when an input has more rows.  With `IgnoreCase`
unset, the from-row `HELLO,1` and the to-row `hello,1` have composite keys
that differ only in letter case, yet `HELLO` is not removed, because the
to-input also has a row keyed `HELLO`.  With `IgnoreCase` set, the from-row
`HELLO,ddd` and the to-row `hello,ddd` are matched under `hello` and their
other field is identical, yet `Changed` has the entry `hello: [b]`, because
the later from-row `hello,xxx` is the one stored under `hello`.  Both runs
use the default comparison predicate. -/
theorem Compare_key_case_counterexample :
    (defaultOptions ["a"]).IgnoreCase = false ∧
    (headerTable (defaultOptions ["a"]) ["a", "b"]).getKey (defaultOptions ["a"]).KeyColumns
      ["HELLO", "1"] = .ok ("HELLO", none) ∧
    (headerTable (defaultOptions ["a"]) ["a", "b"]).getKey (defaultOptions ["a"]).KeyColumns
      ["hello", "1"] = .ok ("hello", none) ∧
    plainRuntime.ReadAll "a,b\nHELLO,1" (defaultOptions ["a"]).Separator
      (defaultOptions ["a"]).LazyQuotes = .ok (["a", "b"] :: [["HELLO", "1"]]) ∧
    plainRuntime.ReadAll "a,b\nhello,1\nHELLO,1" (defaultOptions ["a"]).Separator
      (defaultOptions ["a"]).LazyQuotes =
      .ok (["a", "b"] :: [["hello", "1"], ["HELLO", "1"]]) ∧
    Compare plainRuntime (some "a,b\nHELLO,1") (some "a,b\nhello,1\nHELLO,1")
        (some (defaultOptions ["a"])) =
      .ok ({ AddedRow := ["hello"], RemovedRow := [], Changed := [] }, none) ∧
    ignoreCaseOptions.IgnoreCase = true ∧
    (headerTable ignoreCaseOptions ["a", "b"]).getKey ignoreCaseOptions.KeyColumns
      ["HELLO", "ddd"] = .ok ("HELLO", none) ∧
    (headerTable ignoreCaseOptions ["a", "b"]).getKey ignoreCaseOptions.KeyColumns
      ["hello", "ddd"] = .ok ("hello", none) ∧
    plainRuntime.ReadAll "a,b\nHELLO,ddd\nhello,xxx" ignoreCaseOptions.Separator
      ignoreCaseOptions.LazyQuotes =
      .ok (["a", "b"] :: [["HELLO", "ddd"], ["hello", "xxx"]]) ∧
    plainRuntime.ReadAll "a,b\nhello,ddd" ignoreCaseOptions.Separator
      ignoreCaseOptions.LazyQuotes = .ok (["a", "b"] :: [["hello", "ddd"]]) ∧
    Compare plainRuntime (some "a,b\nHELLO,ddd\nhello,xxx") (some "a,b\nhello,ddd")
        (some ignoreCaseOptions) =
      .ok ({ AddedRow := [], RemovedRow := [], Changed := [("hello", ["b"])] }, none) :=
  ⟨rfl, by decide, by decide, rfl, rfl, by decide, rfl, by decide, by decide, rfl, rfl,
    by decide⟩

/-- Witness of C12 on `a,b / HELLO,ddd` against `b,a / ddd,hello` with
`IgnoreCase`: the keys differ only in letter case and the columns are in
another order; and the results of `Compare` on these inputs (no difference),
on the test "ignore case works on the keys" (no difference) and on the test
"compare is case sensitive" (added `hello`, removed `HELLO`). -/
theorem Compare_key_case_witness :
    ignoreCaseOptions.HasHeader = true ∧
    plainRuntime.ReadAll "a,b\nHELLO,ddd" ignoreCaseOptions.Separator
      ignoreCaseOptions.LazyQuotes = .ok (["a", "b"] :: [["HELLO", "ddd"]]) ∧
    plainRuntime.ReadAll "b,a\nddd,hello" ignoreCaseOptions.Separator
      ignoreCaseOptions.LazyQuotes = .ok (["b", "a"] :: [["ddd", "hello"]]) ∧
    Rectangular (["a", "b"] :: [["HELLO", "ddd"]]) ∧
    Rectangular (["b", "a"] :: [["ddd", "hello"]]) ∧
    (headerTable ignoreCaseOptions ["a", "b"]).getKey ignoreCaseOptions.KeyColumns
      ["HELLO", "ddd"] = .ok ("HELLO", none) ∧
    (headerTable ignoreCaseOptions ["b", "a"]).getKey ignoreCaseOptions.KeyColumns
      ["ddd", "hello"] = .ok ("hello", none) ∧
    plainRuntime.ToLower "HELLO" = plainRuntime.ToLower "hello" ∧
    (∃ A B d, fromReader plainRuntime (some "a,b\nHELLO,ddd") (some ignoreCaseOptions) = .ok (A, none) ∧
      fromReader plainRuntime (some "b,a\nddd,hello") (some ignoreCaseOptions) = .ok (B, none) ∧
      Compare plainRuntime (some "a,b\nHELLO,ddd") (some "b,a\nddd,hello") (some ignoreCaseOptions) = .ok (d, none) ∧
      (ignoreCaseOptions.IgnoreCase = false →
        "HELLO" ∈ A.records.keys ∧ "hello" ∈ B.records.keys ∧
        ("HELLO" ∈ d.RemovedRow ↔
          ∀ x ∈ ([["ddd", "hello"]] : List (List String)), (headerTable ignoreCaseOptions ["b", "a"]).getKey ignoreCaseOptions.KeyColumns x ≠ .ok ("HELLO", none)) ∧
        ("hello" ∈ d.AddedRow ↔
          ∀ x ∈ ([["HELLO", "ddd"]] : List (List String)), (headerTable ignoreCaseOptions ["a", "b"]).getKey ignoreCaseOptions.KeyColumns x ≠ .ok ("hello", none))) ∧
      (ignoreCaseOptions.IgnoreCase = true →
        plainRuntime.ToLower "HELLO" ∈ A.records.keys ∧ plainRuntime.ToLower "hello" ∈ B.records.keys ∧
        (∀ key, key ∈ A.records.keys ↔ ∃ x ∈ ([["HELLO", "ddd"]] : List (List String)), ∃ raw,
          (headerTable ignoreCaseOptions ["a", "b"]).getKey ignoreCaseOptions.KeyColumns x = .ok (raw, none) ∧
            key = plainRuntime.ToLower raw) ∧
        (∀ key, key ∈ B.records.keys ↔ ∃ x ∈ ([["ddd", "hello"]] : List (List String)), ∃ raw,
          (headerTable ignoreCaseOptions ["b", "a"]).getKey ignoreCaseOptions.KeyColumns x = .ok (raw, none) ∧
            key = plainRuntime.ToLower raw) ∧
        (plainRuntime.ToLower "HELLO" = plainRuntime.ToLower "hello" →
          plainRuntime.ToLower "HELLO" ∉ d.AddedRow ∧ plainRuntime.ToLower "HELLO" ∉ d.RemovedRow ∧
          (ignoreCaseOptions.Comparator = none →
            (∀ h, h ∈ (["b", "a"] : List String) ↔ h ∈ (["a", "b"] : List String)) →
            (ignoreCaseOptions.Precision ≤ 0 ∨ ∀ a b x y, plainRuntime.ToLower a = plainRuntime.ToLower b →
              plainRuntime.ParseFloat a = some x → plainRuntime.ParseFloat b = some y →
              plainRuntime.Sprintf ignoreCaseOptions.Precision x = plainRuntime.Sprintf ignoreCaseOptions.Precision y) →
            (∀ ra rb, A.records.get? (plainRuntime.ToLower "HELLO") = some ra →
              B.records.get? (plainRuntime.ToLower "HELLO") = some rb →
              ∀ h ∈ (["a", "b"] : List String),
                plainRuntime.ToLower (columnValue A ra h) = plainRuntime.ToLower (columnValue B rb h)) →
            d.Changed.get? (plainRuntime.ToLower "HELLO") = none)))) ∧
    Compare plainRuntime (some "a,b\nHELLO,ddd") (some "b,a\nddd,hello")
        (some ignoreCaseOptions) =
      .ok ({ AddedRow := [], RemovedRow := [], Changed := [] }, none) ∧
    Compare plainRuntime (some "a,b\nHELLO,ddd") (some "a,b\nhello,ddd")
        (some ignoreCaseOptions) =
      .ok ({ AddedRow := [], RemovedRow := [], Changed := [] }, none) ∧
    Compare plainRuntime (some "a,b\nHELLO,2.456789") (some "a,b\nhello,2.487651")
        (some (defaultOptions ["a"])) =
      .ok ({ AddedRow := ["hello"], RemovedRow := ["HELLO"], Changed := [] }, none) :=
  ⟨rfl, rfl, rfl, by decide, by decide, by decide, by decide, by decide,
    Compare_key_case plainRuntime ignoreCaseOptions "a,b\nHELLO,ddd" "b,a\nddd,hello"
      ["a", "b"] ["b", "a"] [["HELLO", "ddd"]] [["ddd", "hello"]] ["HELLO", "ddd"]
      ["ddd", "hello"] "HELLO" "hello" rfl rfl rfl (by decide) (by decide) (by decide)
      (by decide) (by decide) (by decide),
    by decide, by decide, by decide⟩


/-! ## Index safety -/

theorem rowsMatchHeader_index_lt (opt : Options) (records : List (List String))
    (hm : RowsMatchHeader opt records) :
    ∀ r ∈ dataRows opt records,
      ∀ e ∈ (headerTable opt (headerOf opt records)).headerMap, e.2 < r.length := by
  cases hh : opt.HasHeader with
  | false =>
    intro r _ e he
    simp [headerOf, hh, headerTable, fromReader.headerLoop] at he
  | true =>
    cases records with
    | nil =>
      intro r _ e he
      simp [headerOf, hh, headerTable, fromReader.headerLoop] at he
    | cons header rest =>
      simp only [RowsMatchHeader, hh] at hm
      simp only [headerOf, dataRows, hh]
      intro r hr e he
      rcases headerLoop_mem _ _ _ _ he with h | h
      · simp at h
      · have := hm r hr
        omega

theorem fromRows_total (rt : Runtime) (opt : Options) (records : List (List String))
    (hlen : ∀ r ∈ dataRows opt records,
      ∀ e ∈ (headerTable opt (headerOf opt records)).headerMap, e.2 < r.length) :
    ∃ t e, fromReader.fromRows rt opt records = .ok (t, e) ∧ t.WF ∧ t.opt = some opt := by
  have hret : ∃ t e, fromReader.recordLoop rt opt (headerTable opt (headerOf opt records))
      (dataRows opt records) = .ok (t, e) := by
    cases hkey : keyError (headerTable opt (headerOf opt records)) opt.KeyColumns with
    | none =>
      obtain ⟨t, h, _⟩ := recordLoop_ok rt opt _ _ hlen hkey
      exact ⟨t, none, h⟩
    | some err =>
      cases hrows : dataRows opt records with
      | nil => exact ⟨_, none, rfl⟩
      | cons r rest =>
        rw [hrows] at hlen
        exact ⟨_, _, recordLoop_error rt opt _ r rest (hlen r (List.mem_cons_self _ _)) err hkey⟩
  obtain ⟨t, e, h⟩ := hret
  obtain ⟨h1, h2, h3, h4, h5⟩ := recordLoop_spec _ _ _ _ _ _ h
  refine ⟨t, e, (fromRows_eq rt opt records).trans h, ⟨by simp [h3, headerTable], ?_, ?_, ?_⟩, h3⟩
  · intro e he kr hkr
    rw [h2] at he
    rcases h4 kr hkr with h6 | h6
    · simp [headerTable] at h6
    · exact hlen kr.2 h6 e he
  · intro x
    rw [h1, h2]
    exact headerTable_keys opt _ x
  · exact h5 (by simp [headerTable, GoMap.keys])

/-- C21: when every data row of each input has as many fields as that
input's header row, every header index is a position of every data row, so
`getKey` returns for every data row and `fromReader` returns for both
inputs; in the two loaded tables every value `records[key][headerMap[h]]`
that `diffSingleRecord` reads for a key of both tables is in range, so
`diffSingleRecord` and `diffAllRecords` return; and `Compare` returns: no
step fails on an out-of-range access. -/
theorem Compare_index_safe (rt : Runtime) (opt : Options) (f g : String)
    (recsF recsG : List (List String))
    (hf : rt.ReadAll f opt.Separator opt.LazyQuotes = .ok recsF)
    (hg : rt.ReadAll g opt.Separator opt.LazyQuotes = .ok recsG)
    (hmF : RowsMatchHeader opt recsF) (hmG : RowsMatchHeader opt recsG) :
    (∀ r ∈ dataRows opt recsF, ∀ col i,
      (headerTable opt (headerOf opt recsF)).headerMap.get? col = some i → i < r.length) ∧
    (∀ r ∈ dataRows opt recsG, ∀ col i,
      (headerTable opt (headerOf opt recsG)).headerMap.get? col = some i → i < r.length) ∧
    (∀ r ∈ dataRows opt recsF, ∃ res,
      (headerTable opt (headerOf opt recsF)).getKey opt.KeyColumns r = .ok res) ∧
    (∀ r ∈ dataRows opt recsG, ∃ res,
      (headerTable opt (headerOf opt recsG)).getKey opt.KeyColumns r = .ok res) ∧
    (∃ A B eA eB, fromReader rt (some f) (some opt) = .ok (A, eA) ∧
      fromReader rt (some g) (some opt) = .ok (B, eB) ∧
      (∀ k, k ∈ A.records.keys → k ∈ B.records.keys →
        (∀ h i, A.headerMap.get? h = some i → ∃ v, field A.records k i = .ok v) ∧
        (∀ h i, B.headerMap.get? h = some i → ∃ v, field B.records k i = .ok v) ∧
        ∃ l, A.diffSingleRecord rt k B = .ok l) ∧
      ∃ d, A.diffAllRecords rt B = .ok d) ∧
    ∃ d e, Compare rt (some f) (some g) (some opt) = .ok (d, e) := by
  have lF := rowsMatchHeader_index_lt opt recsF hmF
  have lG := rowsMatchHeader_index_lt opt recsG hmG
  obtain ⟨A, eA, a1, wA, oA⟩ := fromRows_total rt opt recsF lF
  obtain ⟨B, eB, b1, wB, oB⟩ := fromRows_total rt opt recsG lG
  have a2 : fromReader rt (some f) (some opt) = .ok (A, eA) := by
    simp only [fromReader, hf, a1]
  have b2 : fromReader rt (some g) (some opt) = .ok (B, eB) := by
    simp only [fromReader, hg, b1]
  obtain ⟨d, d1, _⟩ := diffAllRecords_spec rt A B opt wA wB oA
  have hget : ∀ (recs : List (List String)),
      (∀ r ∈ dataRows opt recs,
        ∀ e ∈ (headerTable opt (headerOf opt recs)).headerMap, e.2 < r.length) →
      ∀ r ∈ dataRows opt recs, ∃ res,
        (headerTable opt (headerOf opt recs)).getKey opt.KeyColumns r = .ok res := by
    intro recs hl r hr
    unfold csvData.getKey
    rw [getKey_loop_spec _ r (hl r hr)]
    cases keyError (headerTable opt (headerOf opt recs)) opt.KeyColumns with
    | none => exact ⟨_, rfl⟩
    | some e => exact ⟨_, rfl⟩
  refine ⟨fun r hr col i hi => lF r hr _ (GoMap.get?_mem _ _ _ hi),
    fun r hr col i hi => lG r hr _ (GoMap.get?_mem _ _ _ hi), hget recsF lF, hget recsG lG,
    ⟨A, B, eA, eB, a2, b2, ?_, d, d1⟩, ?_⟩
  · intro k hkA hkB
    exact ⟨fun h i hi => ⟨_, field_ok A wA k hkA h i hi⟩,
      fun h i hi => ⟨_, field_ok B wB k hkB h i hi⟩,
      _, diffSingleRecord_spec rt A B opt wA wB oA k hkA hkB⟩
  · cases eA with
    | some err =>
      exact ⟨{ AddedRow := [], RemovedRow := [], Changed := [] },
        some ("error parsing from_csv: " ++ err), by simp only [Compare, a2]⟩
    | none =>
      cases eB with
      | some err =>
        exact ⟨{ AddedRow := [], RemovedRow := [], Changed := [] },
          some ("error parsing to_csv: " ++ err), by simp only [Compare, a2, b2]⟩
      | none => exact ⟨d, none, by simp only [Compare, a2, b2, d1]⟩

/-- Witness of C21: from `a,b / 1,2`, to `a,b / 1,3`, key column `a`; each
data row has the two fields of its header row. -/
theorem Compare_index_safe_witness :
    plainRuntime.ReadAll "a,b\n1,2" (defaultOptions ["a"]).Separator
      (defaultOptions ["a"]).LazyQuotes = .ok [["a", "b"], ["1", "2"]] ∧
    plainRuntime.ReadAll "a,b\n1,3" (defaultOptions ["a"]).Separator
      (defaultOptions ["a"]).LazyQuotes = .ok [["a", "b"], ["1", "3"]] ∧
    RowsMatchHeader (defaultOptions ["a"]) [["a", "b"], ["1", "2"]] ∧
    RowsMatchHeader (defaultOptions ["a"]) [["a", "b"], ["1", "3"]] ∧
    ((∀ r ∈ dataRows (defaultOptions ["a"]) [["a", "b"], ["1", "2"]], ∀ col i,
      (headerTable (defaultOptions ["a"]) (headerOf (defaultOptions ["a"]) [["a", "b"], ["1", "2"]])).headerMap.get? col = some i → i < r.length) ∧
    (∀ r ∈ dataRows (defaultOptions ["a"]) [["a", "b"], ["1", "3"]], ∀ col i,
      (headerTable (defaultOptions ["a"]) (headerOf (defaultOptions ["a"]) [["a", "b"], ["1", "3"]])).headerMap.get? col = some i → i < r.length) ∧
    (∀ r ∈ dataRows (defaultOptions ["a"]) [["a", "b"], ["1", "2"]], ∃ res,
      (headerTable (defaultOptions ["a"]) (headerOf (defaultOptions ["a"]) [["a", "b"], ["1", "2"]])).getKey (defaultOptions ["a"]).KeyColumns r = .ok res) ∧
    (∀ r ∈ dataRows (defaultOptions ["a"]) [["a", "b"], ["1", "3"]], ∃ res,
      (headerTable (defaultOptions ["a"]) (headerOf (defaultOptions ["a"]) [["a", "b"], ["1", "3"]])).getKey (defaultOptions ["a"]).KeyColumns r = .ok res) ∧
    (∃ A B eA eB, fromReader plainRuntime (some "a,b\n1,2") (some (defaultOptions ["a"])) = .ok (A, eA) ∧
      fromReader plainRuntime (some "a,b\n1,3") (some (defaultOptions ["a"])) = .ok (B, eB) ∧
      (∀ k, k ∈ A.records.keys → k ∈ B.records.keys →
        (∀ h i, A.headerMap.get? h = some i → ∃ v, field A.records k i = .ok v) ∧
        (∀ h i, B.headerMap.get? h = some i → ∃ v, field B.records k i = .ok v) ∧
        ∃ l, A.diffSingleRecord plainRuntime k B = .ok l) ∧
      ∃ d, A.diffAllRecords plainRuntime B = .ok d) ∧
    ∃ d e, Compare plainRuntime (some "a,b\n1,2") (some "a,b\n1,3") (some (defaultOptions ["a"])) = .ok (d, e)) ∧
    Compare plainRuntime (some "a,b\n1,2") (some "a,b\n1,3") (some (defaultOptions ["a"])) =
      .ok ({ AddedRow := [], RemovedRow := [], Changed := [("1", ["b"])] }, none) :=
  ⟨rfl, rfl, by decide, by decide,
    Compare_index_safe plainRuntime (defaultOptions ["a"]) "a,b\n1,2" "a,b\n1,3"
      [["a", "b"], ["1", "2"]] [["a", "b"], ["1", "3"]] rfl rfl (by decide) (by decide),
    by decide⟩


/-! ## Inputs without header and without key columns -/

theorem foldl_set_same (key : String) (rows : List (List String)) (m : GoMap (List String))
    (hm : m = [] ∨ ∃ x, m = [(key, x)]) :
    rows.foldl (fun m r => GoMap.set m key r) m =
      match rows.getLast? with
      | none => m
      | some r => [(key, r)] := by
  induction rows generalizing m with
  | nil => rfl
  | cons r rest ih =>
    have hset : GoMap.set m key r = [(key, r)] := by
      rcases hm with h | ⟨x, h⟩ <;> simp [h, GoMap.set]
    rw [List.foldl_cons, hset, ih _ (Or.inr ⟨r, rfl⟩)]
    cases rest with
    | nil => rfl
    | cons r' rest' =>
      rw [List.getLast?_cons_cons]
      cases h : (r' :: rest').getLast? with
      | none => simp at h
      | some x => rfl

theorem recordLoop_headerless (rt : Runtime) (opt : Options) (hk : opt.KeyColumns = [])
    (rows : List (List String)) (c : csvData) :
    fromReader.recordLoop rt opt c rows =
      .ok ({ c with
        records := rows.foldl (fun m r => GoMap.set m (emptyKey rt opt) r) c.records }, none) := by
  induction rows generalizing c with
  | nil => rfl
  | cons r rest ih =>
    unfold fromReader.recordLoop
    have hg : c.getKey opt.KeyColumns r = .ok ("", none) := by
      rw [hk]
      rfl
    rw [hg]
    simp only [ih, List.foldl_cons]
    rfl

theorem diffSingleRecord_headerless (rt : Runtime) (A B : csvData) (k : String)
    (hA : A.headers = []) (hB : B.headers = []) : A.diffSingleRecord rt k B = .ok [] := by
  simp [csvData.diffSingleRecord, hA, hB, OrderedSet, diffSingleRecord.loop]

theorem diffAllRecords_headerless (rt : Runtime) (A B : csvData)
    (hA : A.headers = []) (hB : B.headers = []) :
    ∃ d, A.diffAllRecords rt B = .ok d ∧ d.Changed = [] := by
  obtain ⟨d', h1, _, _, h4, _⟩ :=
    firstLoop_spec rt A B (fun _ => []) A.records.keys
      (fun k _ _ => diffSingleRecord_headerless rt A B k hA hB)
      { AddedRow := [], RemovedRow := [], Changed := [] }
  refine ⟨diffAllRecords.secondLoop A B.records.keys d', by simp [csvData.diffAllRecords, h1], ?_⟩
  rw [secondLoop_spec]
  apply GoMap.eq_nil_of_get?_none
  intro k
  rw [h4 k]
  simp [GoMap.get?]


theorem fromReader_headerless_rows (rt : Runtime) (opt : Options) (hh : opt.HasHeader = false)
    (hk : opt.KeyColumns = []) (f : String) (rows : List (List String))
    (hread : rt.ReadAll f opt.Separator opt.LazyQuotes = .ok rows) :
    ∃ t, fromReader rt (some f) (some opt) = .ok (t, none) ∧ t.headers = [] ∧
      t.headerMap = [] ∧
      t.records = (match rows.getLast? with
        | none => []
        | some r => [(emptyKey rt opt, r)]) ∧
      t.records.length ≤ 1 := by
  have hrows : fromReader rt (some f) (some opt) =
      fromReader.recordLoop rt opt (headerTable opt []) rows := by
    simp only [fromReader, hread, fromRows_eq, headerOf, dataRows, hh]
  rw [hrows, recordLoop_headerless rt opt hk]
  have hrec := foldl_set_same (emptyKey rt opt) rows [] (Or.inl rfl)
  refine ⟨_, rfl, rfl, rfl, hrec, ?_⟩
  show (rows.foldl (fun m r => GoMap.set m (emptyKey rt opt) r) []).length ≤ 1
  rw [hrec]
  cases rows.getLast? <;> simp

theorem fromReader_headerless (rt : Runtime) (opt : Options) (hh : opt.HasHeader = false)
    (hk : opt.KeyColumns = []) (x : Option String) :
    ∃ t e, fromReader rt x (some opt) = .ok (t, e) ∧ t.headers = [] := by
  cases x with
  | none => exact ⟨_, _, rfl, rfl⟩
  | some f =>
    cases hread : rt.ReadAll f opt.Separator opt.LazyQuotes with
    | error err =>
      exact ⟨{ headers := [], headerMap := [], records := [], opt := some opt }, some err,
        by simp only [fromReader, hread], rfl⟩
    | ok rows =>
      obtain ⟨t, h1, h2, _⟩ := fromReader_headerless_rows rt opt hh hk f rows hread
      exact ⟨t, none, h1, h2⟩

/-- C22: with `HasHeader` unset and no key columns, `getKey` returns the
empty composite key for every row; an input that tokenizes loads to a table
with empty header, empty header index and at most one record, the last row,
stored under the empty key (lower-cased when `IgnoreCase` is set);
`diffSingleRecord` returns the empty list for every key of tables with empty
headers; and `Compare` returns, its `Changed` map being empty whatever the
two inputs are. -/
theorem Compare_headerless (rt : Runtime) (opt : Options) (fromCSV toCSV : Option String)
    (hh : opt.HasHeader = false) (hk : opt.KeyColumns = []) :
    (∀ (c : csvData) (r : List String), c.getKey opt.KeyColumns r = .ok ("", none)) ∧
    (∀ f rows, rt.ReadAll f opt.Separator opt.LazyQuotes = .ok rows →
      ∃ t, fromReader rt (some f) (some opt) = .ok (t, none) ∧ t.headers = [] ∧
        t.headerMap = [] ∧
        t.records = (match rows.getLast? with
          | none => []
          | some r => [(emptyKey rt opt, r)]) ∧
        t.records.length ≤ 1) ∧
    (∀ (A B : csvData) (k : String), A.headers = [] → B.headers = [] →
      A.diffSingleRecord rt k B = .ok []) ∧
    ∃ d e, Compare rt fromCSV toCSV (some opt) = .ok (d, e) ∧ d.Changed = [] := by
  refine ⟨fun c r => by rw [hk]; rfl, fromReader_headerless_rows rt opt hh hk,
    fun A B k hA hB => diffSingleRecord_headerless rt A B k hA hB, ?_⟩
  obtain ⟨A, eA, a1, a2⟩ := fromReader_headerless rt opt hh hk fromCSV
  obtain ⟨B, eB, b1, b2⟩ := fromReader_headerless rt opt hh hk toCSV
  cases eA with
  | some err =>
    exact ⟨{ AddedRow := [], RemovedRow := [], Changed := [] },
      some ("error parsing from_csv: " ++ err), by simp only [Compare, a1], rfl⟩
  | none =>
    cases eB with
    | some err =>
      exact ⟨{ AddedRow := [], RemovedRow := [], Changed := [] },
        some ("error parsing to_csv: " ++ err), by simp only [Compare, a1, b1], rfl⟩
    | none =>
      obtain ⟨d, d1, d2⟩ := diffAllRecords_headerless rt A B a2 b2
      exact ⟨d, none, by simp only [Compare, a1, b1, d1], d2⟩

/-- Witness of C22: the headerless inputs `1,2 / 3,4` and `5,6 / 7,8`
differ in every field; each loads to the single record of its last row
under the empty key, and `Compare` reports nothing. -/
theorem Compare_headerless_witness :
    headerlessOptions.HasHeader = false ∧ headerlessOptions.KeyColumns = [] ∧
    ((∀ (c : csvData) (r : List String),
        c.getKey headerlessOptions.KeyColumns r = .ok ("", none)) ∧
      (∀ f rows, plainRuntime.ReadAll f headerlessOptions.Separator
          headerlessOptions.LazyQuotes = .ok rows →
        ∃ t, fromReader plainRuntime (some f) (some headerlessOptions) = .ok (t, none) ∧
          t.headers = [] ∧ t.headerMap = [] ∧
          t.records = (match rows.getLast? with
            | none => []
            | some r => [(emptyKey plainRuntime headerlessOptions, r)]) ∧
          t.records.length ≤ 1) ∧
      (∀ (A B : csvData) (k : String), A.headers = [] → B.headers = [] →
        A.diffSingleRecord plainRuntime k B = .ok []) ∧
      ∃ d e, Compare plainRuntime (some "1,2\n3,4") (some "5,6\n7,8")
        (some headerlessOptions) = .ok (d, e) ∧ d.Changed = []) ∧
    fromReader plainRuntime (some "1,2\n3,4") (some headerlessOptions) =
      .ok ({ headers := [], headerMap := [], records := [("", ["3", "4"])],
             opt := some headerlessOptions }, none) ∧
    Compare plainRuntime (some "1,2\n3,4") (some "5,6\n7,8") (some headerlessOptions) =
      .ok ({ AddedRow := [], RemovedRow := [], Changed := [] }, none) :=
  ⟨rfl, rfl,
    Compare_headerless plainRuntime headerlessOptions (some "1,2\n3,4") (some "5,6\n7,8")
      rfl rfl,
    rfl, by decide⟩

end CsvDiff
